import Mathlib

/-!
# Block codec of the ClickHouse client protocol (package `proto`)

A shallow embedding of `proto/block.go`, `proto/results.go`,
`internal/proto/col_uint8_gen.go` and `internal/proto/compression.go`.

* Go `int` is a Lean `Int` kept inside the signed 64-bit range by the explicit
  conversions `toInt64` / `toUInt64`; `int32` likewise through `int32`.
* A Go `string` / `[]byte` is a list of octets.
* A `*Reader` is the list of octets not yet consumed; every read returns
  the value or the error together with the reader left behind.
* A `*Buffer` is the list of octets written so far; every `Put…` appends.
* Go interfaces (`Result`, `Input`) are type classes over the type of
  column implementations; pointer receivers become explicit state passing.
-/

namespace Proto

/-! ## Wire octets, strings, errors -/

/-- A wire octet (`byte` / `uint8`). -/
abbrev Byte := Fin 256

/-- A Go `string`, as its sequence of octets. -/
abbrev Str := List Byte

/-- The type `ColumnType` of the package: a string-valued type descriptor. -/
abbrev ColumnType := Str

/-- The low eight bits of a natural number, `byte(x)`. -/
def byteOf (x : Nat) : Byte := ⟨x % 256, Nat.mod_lt _ (by decide)⟩

/-- The literal messages passed to `errors.Wrap`. -/
inductive Ctx
  | fieldId        -- "field id"
  | overflows      -- "overflows"
  | bucketNumber   -- "bucket number"
  | columns        -- "columns"
  | rows           -- "rows"
  | rowsCount      -- "rows count"
  | info           -- "info"
  | read           -- "read"
  | typeInference  -- "column type inference"
  | infer          -- "infer"
  | uvarint        -- "uvarint"
  | length         -- "read length"
  deriving DecidableEq, Repr

/-- The errors of the package. Every `errors.Errorf` call site is one constructor
carrying the arguments of its format string; every `errors.Wrap`/`Wrapf` call
site is a wrapping constructor. -/
inductive Error
  /-- Short read: the input ended before the value was complete. -/
  | unexpectedEOF
  /-- A variable-length integer that does not fit 64 bits. -/
  | uvarintOverflow
  /-- A boolean octet other than 0 or 1. -/
  | invalidBool (v : Nat)
  /-- A negative length handed to a raw read. -/
  | invalidSize (n : Int)
  /-- Indexing a slice out of range (a Go run-time panic). -/
  | indexOutOfRange (i : Nat)
  /-- Go `"unknown field %d"`. -/
  | unknownField (f : Nat)
  /-- Go `"%q has %d rows, expected %d"`. -/
  | rowsMismatch (name : Str) (r expected : Int)
  /-- Go `"invalid: %d < %d < %d"` of `checkRows`. -/
  | invalidRows (n : Int)
  /-- Go `"invalid columns number %d"`. -/
  | invalidColumns (v : Int)
  /-- Go `"%d (columns) != %d (target)"`. -/
  | columnsMismatch (columns target : Int)
  /-- Go `"[%d]: unexpected column %q (%q expected)"`. -/
  | unexpectedColumn (i : Nat) (got expected : Str)
  /-- Go `"[%d]: %s: unexpected type %q (got) instead of %q (has)"`. -/
  | unexpectedType (i : Nat) (name : Str) (got has : ColumnType)
  /-- A wire type for which no column implementation can be inferred. -/
  | cannotInfer (t : ColumnType)
  /-- Go `errors.Wrap(err, "<literal>")`. -/
  | wrap (e : Error) (c : Ctx)
  /-- Go `errors.Wrapf(err, "column [%d] name", i)`. -/
  | wrapColumnName (e : Error) (i : Nat)
  /-- Go `errors.Wrapf(err, "column [%d] type", i)`. -/
  | wrapColumnType (e : Error) (i : Nat)
  /-- Go `errors.Wrap(err, columnName)`. -/
  | wrapName (e : Error) (name : Str)
  /-- Go `errors.Wrapf(err, "%s state", columnName)`. -/
  | wrapState (e : Error) (name : Str)
  /-- A method call through a column pointer that points to no column object (a
  Go run-time panic). -/
  | invalidPointer (p : Nat)
  deriving DecidableEq, Repr

/-- Whether the text of an error of the column loops carries the column index
`i`: the formats `"column [%d] name"`, `"column [%d] type"`,
`"[%d]: unexpected column …"` and `"[%d]: %s: unexpected type …"`. -/
def Error.referencesIndex : Error → Nat → Bool
  | .wrapColumnName _ j, i => j == i
  | .wrapColumnType _ j, i => j == i
  | .unexpectedColumn j _ _, i => j == i
  | .unexpectedType j _ _ _, i => j == i
  | _, _ => false

/-- The outcome of a call returning `(T, error)`. -/
inductive Res (α : Type)
  | ok (v : α)
  | err (e : Error)
  deriving DecidableEq, Repr

/-! ## Machine integers -/

/-- Conversion `int(x)` of a `uint64`: two's complement reinterpretation. -/
def toInt64 (x : Nat) : Int :=
  if x % 2 ^ 64 < 2 ^ 63 then ((x % 2 ^ 64 : Nat) : Int) else ((x % 2 ^ 64 : Nat) : Int) - 2 ^ 64

/-- Conversion `uint64(x)` of an `int`. -/
def toUInt64 (x : Int) : Nat := (x % 2 ^ 64).toNat

/-- Conversion `int32(x)`: reduction to signed 32-bit two's complement. -/
def int32 (x : Int) : Int := (x + 2 ^ 31) % 2 ^ 32 - 2 ^ 31

/-- Conversion `uint32(x)` of an `int32`. -/
def toUInt32 (x : Int) : Nat := (x % 2 ^ 32).toNat

/-! ## Byte codec (`Buffer`, `Reader`) -/

/-- The write buffer: the octets written so far. -/
abbrev Buffer := List Byte

/-- The reader: the octets not yet consumed. -/
abbrev Reader := List Byte

/-- Modelled from the spec: the body of `Buffer.PutUVarInt` (file `buffer.go`,
not among the sources). The spec names it a "variable-length integer"; the
model is the base-128 little-endian encoding with a continuation bit. The first
argument bounds the number of continuation octets (nine suffice for 64 bits). -/
def uvarintBytes : Nat → Nat → List Byte
  | 0, x => [byteOf x]
  | k + 1, x =>
    if 128 ≤ x then byteOf (x % 128 + 128) :: uvarintBytes k (x / 128)
    else [byteOf x]

/-- Modelled from the spec: `Buffer.PutUVarInt(x uint64)`, a variable-length
integer appended to the buffer. -/
def Buffer.PutUVarInt (b : Buffer) (x : Nat) : Buffer :=
  b ++ uvarintBytes 9 (x % 2 ^ 64)

/-- Modelled from the spec: `Buffer.PutUInt8`, one octet. -/
def Buffer.PutUInt8 (b : Buffer) (v : Byte) : Buffer := b ++ [v]

/-- Modelled from the spec: `Buffer.PutBool`, one octet, 1 for true and 0 for
false. -/
def Buffer.PutBool (b : Buffer) (v : Bool) : Buffer :=
  b.PutUInt8 (if v then 1 else 0)

/-- Modelled from the spec: `Buffer.PutInt32(v int32)`, a fixed-width integer
of four octets, least significant first. -/
def Buffer.PutInt32 (b : Buffer) (v : Int) : Buffer :=
  let u := toUInt32 v
  b ++ [byteOf u, byteOf (u / 2 ^ 8), byteOf (u / 2 ^ 16), byteOf (u / 2 ^ 24)]

/-- Modelled from the spec: `Buffer.PutInt(x int)`, the "int" of the wire
layout, written as the variable-length integer `uint64(x)`. -/
def Buffer.PutInt (b : Buffer) (x : Int) : Buffer :=
  b.PutUVarInt (toUInt64 x)

/-- Modelled from the spec: `Buffer.PutRaw`, a raw byte run. -/
def Buffer.PutRaw (b : Buffer) (v : List Byte) : Buffer := b ++ v

/-- Modelled from the spec: `Buffer.PutString`, a length-prefixed string. -/
def Buffer.PutString (b : Buffer) (s : Str) : Buffer :=
  (b.PutInt (s.length : Int)).PutRaw s

/-- Modelled from the spec: the loop of `Reader.UVarInt` (file `reader.go`, not
among the sources): at most ten octets, `i` the index of the octet read next,
`x` the value accumulated so far, `s` the shift; it fails on a short input and
on a value that does not fit 64 bits. The first argument is `10 - i`. -/
def Reader.uvarintLoop : Nat → Nat → Nat → Nat → Reader → Res Nat × Reader
  | 0, _, _, _, r => (.err .uvarintOverflow, r)
  | _ + 1, _, _, _, [] => (.err .unexpectedEOF, [])
  | k + 1, i, x, s, b :: r =>
    if b.val < 128 then
      if i = 9 ∧ 1 < b.val then (.err .uvarintOverflow, r)
      else (.ok (x + b.val * 2 ^ s), r)
    else Reader.uvarintLoop k (i + 1) (x + (b.val % 128) * 2 ^ s) (s + 7) r

/-- Modelled from the spec: `Reader.UVarInt`, reads a variable-length
integer. -/
def Reader.UVarInt (r : Reader) : Res Nat × Reader :=
  Reader.uvarintLoop 10 0 0 0 r

/-- Modelled from the spec: `Reader.Int`, the variable-length integer
converted with `int(n)`. -/
def Reader.Int (r : Reader) : Res Int × Reader :=
  match r.UVarInt with
  | (.err e, r1) => (.err (.wrap e .uvarint), r1)
  | (.ok n, r1) => (.ok (toInt64 n), r1)

/-- Modelled from the spec: `Reader.UInt8`, one octet. -/
def Reader.UInt8 : Reader → Res Byte × Reader
  | [] => (.err .unexpectedEOF, [])
  | b :: r => (.ok b, r)

/-- Modelled from the spec: `Reader.Bool`, one octet, 1 or 0. -/
def Reader.Bool (r : Reader) : Res Bool × Reader :=
  match r.UInt8 with
  | (.err e, r1) => (.err e, r1)
  | (.ok v, r1) =>
    if v.val = 1 then (.ok true, r1)
    else if v.val = 0 then (.ok false, r1)
    else (.err (.invalidBool v.val), r1)

/-- Modelled from the spec: `Reader.Int32`, four octets, least significant
first, as a signed 32-bit integer. -/
def Reader.Int32 : Reader → Res ℤ × Reader
  | b0 :: b1 :: b2 :: b3 :: r =>
    (.ok (int32 ((b0.val + b1.val * 2 ^ 8 + b2.val * 2 ^ 16 + b3.val * 2 ^ 24 : ℕ) : ℤ)), r)
  | _ => (.err .unexpectedEOF, [])

/-- Modelled from the spec: `Reader.ReadRaw(n)`, a raw byte run of exactly `n`
octets; it fails on insufficient input, and (failing rather than panicking) on
a negative `n`. -/
def Reader.ReadRaw (r : Reader) (n : ℤ) : Res (List Byte) × Reader :=
  if n < 0 then (.err (.invalidSize n), r)
  else if r.length < n.toNat then (.err .unexpectedEOF, [])
  else (.ok (r.take n.toNat), r.drop n.toNat)

/-- Modelled from the spec: `Reader.Str`, a length-prefixed string. -/
def Reader.Str (r : Reader) : Res Str × Reader :=
  match r.Int with
  | (.err e, r1) => (.err (.wrap e .length), r1)
  | (.ok n, r1) => r1.ReadRaw n

/-! ## `BlockInfo` (block.go) -/

/-- Go `BlockInfo` describes a block. -/
structure BlockInfo where
  Overflows : Bool
  BucketNum : Int
  deriving DecidableEq, Repr

/-- Go `endField`: end of field pairs. -/
def endField : Nat := 0

/-- Field tag of `BlockInfo.Overflows`. -/
def blockInfoOverflows : Nat := 1

/-- Field tag of `BlockInfo.BucketNum`. -/
def blockInfoBucketNum : Nat := 2

/-- Go `BlockInfo.Encode`. -/
def BlockInfo.Encode (i : BlockInfo) (b : Buffer) : Buffer :=
  let b := b.PutUVarInt blockInfoOverflows
  let b := b.PutBool i.Overflows
  let b := b.PutUVarInt blockInfoBucketNum
  let b := b.PutInt32 (int32 i.BucketNum)
  b.PutUVarInt endField

/-- The `for` loop of `BlockInfo.Decode`. Every iteration that continues has
consumed at least the tag octet, so `r.length + 1` iterations always suffice;
the first argument is that bound (see `BlockInfo.decodeLoop_fuel`). -/
def BlockInfo.decodeLoop : Nat → BlockInfo → Reader → Option Error × BlockInfo × Reader
  | 0, i, r => (some .unexpectedEOF, i, r)
  | n + 1, i, r =>
    match r.UVarInt with
    | (.err e, r1) => (some (.wrap e .fieldId), i, r1)
    | (.ok f, r1) =>
      if f = blockInfoOverflows then
        match r1.Bool with
        | (.err e, r2) => (some (.wrap e .overflows), i, r2)
        | (.ok v, r2) => BlockInfo.decodeLoop n { i with Overflows := v } r2
      else if f = blockInfoBucketNum then
        match r1.Int32 with
        | (.err e, r2) => (some (.wrap e .bucketNumber), i, r2)
        | (.ok v, r2) => BlockInfo.decodeLoop n { i with BucketNum := v } r2
      else if f = endField then (none, i, r1)
      else (some (.unknownField f), i, r1)

/-- Go `BlockInfo.Decode`: the error (or `none` for `nil`), the receiver after
the call and the reader after the call. -/
def BlockInfo.Decode (i : BlockInfo) (r : Reader) : Option Error × BlockInfo × Reader :=
  BlockInfo.decodeLoop (r.length + 1) i r

/-- A run of well-formed fields at the head of the input:
`BlockInfo.Fields i r i1 r1` says that `r` starts with any number of fields,
each a tag 1 followed by a boolean or a tag 2 followed by a 32-bit integer, that
assigning them in order to `i` gives `i1`, and that `r1` is the input after
them. -/
inductive BlockInfo.Fields : BlockInfo → Reader → BlockInfo → Reader → Prop
  | done (i : BlockInfo) (r : Reader) : BlockInfo.Fields i r i r
  | overflows {i i1 : BlockInfo} {r r1 r2 r3 : Reader} {v : Bool} :
      r.UVarInt = (.ok blockInfoOverflows, r1) → r1.Bool = (.ok v, r2) →
      BlockInfo.Fields { i with Overflows := v } r2 i1 r3 → BlockInfo.Fields i r i1 r3
  | bucketNum {i i1 : BlockInfo} {r r1 r2 r3 : Reader} {v : ℤ} :
      r.UVarInt = (.ok blockInfoBucketNum, r1) → r1.Int32 = (.ok v, r2) →
      BlockInfo.Fields { i with BucketNum := v } r2 i1 r3 → BlockInfo.Fields i r i1 r3

/-! ## Columns (`Input`, `Result`, `ColumnUInt8`) -/

/-- The interface `Input` (an input column), over the type `ι` of column
implementations. -/
class Input (ι : Type) where
  /-- Go `Type() ColumnType`. -/
  Type_ : ι → ColumnType
  /-- Go `Rows() int`. -/
  Rows : ι → Int
  /-- Go `EncodeColumn(b *Buffer)`. -/
  EncodeColumn : ι → Buffer → Buffer

/-- The interface `Result` (a result column), over the type `κ` of column
implementations. Methods with a pointer receiver return the column after the
call. The three `as…` fields are the dynamic type assertions
`.(InferColumn)`, `.(StateDecoder)` and `.(StatefulColumn)` made by
`results.go`: `none` when the column does not implement the interface, the
method (`Infer`, `DecodeState`) when it does. -/
class Result (κ : Type) where
  /-- Go `Type() ColumnType`. -/
  Type_ : κ → ColumnType
  /-- Go `Rows() int`. -/
  Rows : κ → Int
  /-- Go `DecodeColumn(r *Reader, rows int) error`. -/
  DecodeColumn : κ → Reader → Int → Option Error × κ × Reader
  /-- Go `Reset()`. -/
  Reset : κ → κ
  /-- Go `.(InferColumn)`, then `Infer(t ColumnType) error`. -/
  asInferColumn : κ → Option (ColumnType → Option Error × κ)
  /-- Go `.(StateDecoder)`, then `DecodeState(r *Reader) error`. -/
  asStateDecoder : κ → Option (Reader → Option Error × κ × Reader)
  /-- Go `.(StatefulColumn)`, then `DecodeState(r *Reader) error`. -/
  asStatefulColumn : κ → Option (Reader → Option Error × κ × Reader)

/-- Go `ColumnUInt8` represents a UInt8 column: `type ColumnUInt8 []uint8`. -/
structure ColumnUInt8 where
  vals : List Byte
  deriving DecidableEq, Repr

/-- Modelled from the spec: the constant `ColumnTypeUInt8` (declared outside the
sources), the type string `"UInt8"`. -/
def ColumnTypeUInt8 : ColumnType := [85, 73, 110, 116, 56]

/-- Go `ColumnUInt8.Type` returns the `ColumnType` of UInt8. -/
def ColumnUInt8.Type_ (_ : ColumnUInt8) : ColumnType := ColumnTypeUInt8

/-- Go `ColumnUInt8.Rows` returns the count of rows in the column. -/
def ColumnUInt8.Rows (c : ColumnUInt8) : Int := (c.vals.length : Int)

/-- Go `ColumnUInt8.Reset`: `*c = (*c)[:0]`. -/
def ColumnUInt8.Reset (c : ColumnUInt8) : ColumnUInt8 := ⟨c.vals.take 0⟩

/-- Go `ColumnUInt8.EncodeColumn` encodes the rows to the buffer. -/
def ColumnUInt8.EncodeColumn (c : ColumnUInt8) (b : Buffer) : Buffer :=
  c.vals.foldl (fun b v => b.PutUInt8 v) b

/-- Go `ColumnUInt8.DecodeColumn` decodes `rows` rows from the reader. -/
def ColumnUInt8.DecodeColumn (c : ColumnUInt8) (r : Reader) (rows : Int) :
    Option Error × ColumnUInt8 × Reader :=
  match r.ReadRaw rows with
  | (.err e, r1) => (some (.wrap e .read), c, r1)
  | (.ok data, r1) => (none, ⟨c.vals ++ data⟩, r1)

instance : Input ColumnUInt8 where
  Type_ := ColumnUInt8.Type_
  Rows := ColumnUInt8.Rows
  EncodeColumn := ColumnUInt8.EncodeColumn

instance : Result ColumnUInt8 where
  Type_ := ColumnUInt8.Type_
  Rows := ColumnUInt8.Rows
  DecodeColumn := ColumnUInt8.DecodeColumn
  Reset := ColumnUInt8.Reset
  asInferColumn := fun _ => none
  asStateDecoder := fun _ => none
  asStatefulColumn := fun _ => none

/-- Go `InputColumn`: a named input column. -/
structure InputColumn (ι : Type) where
  Name : Str
  Data : ι
  deriving DecidableEq, Repr

/-- Go `ResultColumn`: a named result column. -/
structure ResultColumn (κ : Type) where
  Name : Str
  Data : κ
  deriving DecidableEq, Repr

/-- Go `InputColumn.EncodeStart`: the name, then the type string. -/
def InputColumn.EncodeStart {ι : Type} [Input ι] (c : InputColumn ι) (buf : Buffer) : Buffer :=
  (buf.PutString c.Name).PutString (Input.Type_ c.Data)

/-! ## `Block` (block.go) -/

/-- Go `Block`: info, declared column count, declared row count. -/
structure Block where
  Info : BlockInfo
  Columns : Int
  Rows : Int
  deriving DecidableEq, Repr

/-- Modelled from the spec: `Feature.In(revision)` (declared outside the
sources): a feature, given by its minimum revision, is supported exactly from
that revision on. -/
def Feature.In (f : Int) (version : Int) : Bool := decide (f ≤ version)

/-- Go `Block.EncodeAware`; `FeatureBlockInfo` is the constant of that name,
declared outside the sources. -/
def Block.EncodeAware (FeatureBlockInfo : Int) (b : Block) (buf : Buffer) (version : Int) :
    Buffer :=
  let buf := if Feature.In FeatureBlockInfo version then b.Info.Encode buf else buf
  let buf := buf.PutInt b.Columns
  buf.PutInt b.Rows

/-- The `range` loop of `Block.EncodeBlock`. -/
def Block.encodeColumns {ι : Type} [Input ι] (b : Block) :
    List (InputColumn ι) → Buffer → Option Error × Buffer
  | [], buf => (none, buf)
  | col :: input, buf =>
    if Input.Rows col.Data ≠ b.Rows then
      (some (.rowsMismatch col.Name (Input.Rows col.Data) b.Rows), buf)
    else
      Block.encodeColumns b input (Input.EncodeColumn col.Data (col.EncodeStart buf))

/-- Go `Block.EncodeBlock`: the error (or `none`) and the buffer after the call. -/
def Block.EncodeBlock {ι : Type} [Input ι] (FeatureBlockInfo : Int) (b : Block) (buf : Buffer)
    (version : Int) (input : List (InputColumn ι)) : Option Error × Buffer :=
  Block.encodeColumns b input (b.EncodeAware FeatureBlockInfo buf version)

def maxColumnsInBlock : Int := 1000000

def maxRowsInBlock : Int := 1000000

/-- Go `checkRows`. -/
def checkRows (n : Int) : Option Error :=
  if n < 0 ∨ n > maxRowsInBlock then some (.invalidRows n) else none

/-- Go `Block.End`. -/
def Block.End (b : Block) : Bool := b.Columns == 0 && b.Rows == 0

/-- What a decode leaves behind: the returned error (`none` for `nil`), the
receiver block, the target columns and the reader, all after the call. -/
structure Decoded (κ : Type) where
  err : Option Error
  b : Block
  target : List (ResultColumn κ)
  r : Reader
  deriving DecidableEq, Repr

/-- The column loop of `Block.DecodeRawBlock` (`for i := 0; i < b.Columns;
i++`). The first argument is the number of iterations left, `b.Columns - i`;
`conflicts` is the method `ColumnType.Conflicts`, declared outside the
sources. Returns the error, the target and the reader after the loop.

Here every target entry carries its own column: this is the loop as seen on a
target whose entries point to pairwise distinct column objects. The loop on
entries that hold pointers, which may point to one and the same object, is
`Block.decodeColumnsPtr`; `decodeColumnsPtr_view` relates the two. -/
def Block.decodeColumns {κ : Type} [Result κ] (conflicts : ColumnType → ColumnType → Bool)
    (rows : Int) (noTarget : Bool) :
    Nat → Nat → Reader → List (ResultColumn κ) → Option Error × List (ResultColumn κ) × Reader
  | 0, _, r, target => (none, target, r)
  | n + 1, i, r, target =>
    match r.Str with
    | (.err e, r1) => (some (.wrapColumnName e i), target, r1)
    | (.ok columnName, r1) =>
      match r1.Str with
      | (.err e, r2) => (some (.wrapColumnType e i), target, r2)
      | (.ok columnType, r2) =>
        if noTarget then
          -- Just reading types and names.
          Block.decodeColumns conflicts rows noTarget n (i + 1) r2 target
        else
          match target[i]? with
          | none => (some (.indexOutOfRange i), target, r2)
          | some t =>
            -- Checking column name and type.
            if t.Name ≠ columnName then
              (some (.unexpectedColumn i columnName t.Name), target, r2)
            else
              let gotType : ColumnType := columnType
              let hasType := Result.Type_ t.Data
              if conflicts gotType hasType then
                (some (.unexpectedType i columnName gotType hasType), target, r2)
              else
                match Result.DecodeColumn (Result.Reset t.Data) r2 rows with
                | (some e, d, r3) =>
                  (some (.wrapName e columnName), target.set i { t with Data := d }, r3)
                | (none, d, r3) =>
                  Block.decodeColumns conflicts rows noTarget n (i + 1) r3
                    (target.set i { t with Data := d })

/-- Go `Block.DecodeRawBlock`. -/
def Block.DecodeRawBlock {κ : Type} [Result κ] (conflicts : ColumnType → ColumnType → Bool)
    (b : Block) (r : Reader) (target : List (ResultColumn κ)) : Decoded κ :=
  match r.Int with
  | (.err e, r1) => ⟨some (.wrap e .columns), b, target, r1⟩
  | (.ok v, r1) =>
    if v > maxColumnsInBlock ∨ v < 0 then ⟨some (.invalidColumns v), b, target, r1⟩
    else
      let b := { b with Columns := v }
      match r1.Int with
      | (.err e, r2) => ⟨some (.wrap e .rows), b, target, r2⟩
      | (.ok v, r2) =>
        match checkRows v with
        | some e => ⟨some (.wrap e .rowsCount), b, target, r2⟩
        | none =>
          let b := { b with Rows := v }
          if b.End then
            -- End of data, special case.
            ⟨none, b, target, r2⟩
          else
            let noTarget := decide (target.length = 0)
            let noRows := decide (b.Rows = 0)
            let columnsMismatch := decide (b.Columns ≠ (target.length : Int))
            let allowMismatch := noTarget && noRows
            if columnsMismatch && !allowMismatch then
              ⟨some (.columnsMismatch b.Columns (target.length : Int)), b, target, r2⟩
            else
              match Block.decodeColumns conflicts b.Rows noTarget b.Columns.toNat 0 r2 target with
              | (e, target, r3) => ⟨e, b, target, r3⟩

/-- Go `Block.DecodeBlock`; `FeatureBlockInfo` as in `Block.EncodeAware`. -/
def Block.DecodeBlock {κ : Type} [Result κ] (conflicts : ColumnType → ColumnType → Bool)
    (FeatureBlockInfo : Int) (b : Block) (r : Reader) (version : Int)
    (target : List (ResultColumn κ)) : Decoded κ :=
  if Feature.In FeatureBlockInfo version then
    match b.Info.Decode r with
    | (some e, info, r1) => ⟨some (.wrap e .info), { b with Info := info }, target, r1⟩
    | (none, info, r1) => Block.DecodeRawBlock conflicts { b with Info := info } r1 target
  else Block.DecodeRawBlock conflicts b r target

/-! ## The target as the caller's slice holds it: entries that point to columns -/

/-- A target entry as Go holds it: `ResultColumn.Data` is an interface value that
holds a pointer to the column (`*ColumnUInt8`: `Reset` and `DecodeColumn` have
pointer receivers), here the address of the column object in the store. Two
entries may hold the same address. -/
structure ResultRef where
  Name : Str
  Data : Nat
  deriving DecidableEq, Repr

/-- The column objects that target entries point to, by address. A column
object is the value it holds: two objects at different addresses share no
storage (for `ColumnUInt8`, no backing array), so that writing one leaves the
other as it was. -/
abbrev Store (κ : Type) := List κ

/-- What a decode through pointers leaves behind: the returned error, the
receiver block, the column objects and the reader, all after the call. The
slice of entries itself is not written by `Block.DecodeRawBlock`. -/
structure DecodedPtr (κ : Type) where
  err : Option Error
  b : Block
  store : Store κ
  r : Reader
  deriving DecidableEq, Repr

/-- The column loop of `Block.DecodeRawBlock` on a target whose entries hold
pointers: `t.Data.Type()`, `t.Data.Reset()` and `t.Data.DecodeColumn(r, b.Rows)`
read and write the column object at the address `t.Data`. The first argument is
the number of iterations left. Returns the error, the column objects and the
reader after the loop. -/
def Block.decodeColumnsPtr {κ : Type} [Result κ] (conflicts : ColumnType → ColumnType → Bool)
    (rows : Int) (noTarget : Bool) :
    Nat → Nat → Reader → List ResultRef → Store κ → Option Error × Store κ × Reader
  | 0, _, r, _, h => (none, h, r)
  | n + 1, i, r, target, h =>
    match r.Str with
    | (.err e, r1) => (some (.wrapColumnName e i), h, r1)
    | (.ok columnName, r1) =>
      match r1.Str with
      | (.err e, r2) => (some (.wrapColumnType e i), h, r2)
      | (.ok columnType, r2) =>
        if noTarget then
          -- Just reading types and names.
          Block.decodeColumnsPtr conflicts rows noTarget n (i + 1) r2 target h
        else
          match target[i]? with
          | none => (some (.indexOutOfRange i), h, r2)
          | some t =>
            -- Checking column name and type.
            if t.Name ≠ columnName then
              (some (.unexpectedColumn i columnName t.Name), h, r2)
            else
              match h[t.Data]? with
              | none => (some (.invalidPointer t.Data), h, r2)
              | some d0 =>
                let gotType : ColumnType := columnType
                let hasType := Result.Type_ d0
                if conflicts gotType hasType then
                  (some (.unexpectedType i columnName gotType hasType), h, r2)
                else
                  match Result.DecodeColumn (Result.Reset d0) r2 rows with
                  | (some e, d, r3) => (some (.wrapName e columnName), h.set t.Data d, r3)
                  | (none, d, r3) =>
                    Block.decodeColumnsPtr conflicts rows noTarget n (i + 1) r3 target
                      (h.set t.Data d)

/-- Go `Block.DecodeRawBlock`, on a target whose entries hold pointers into the
store `h`. -/
def Block.DecodeRawBlockPtr {κ : Type} [Result κ] (conflicts : ColumnType → ColumnType → Bool)
    (b : Block) (r : Reader) (target : List ResultRef) (h : Store κ) : DecodedPtr κ :=
  match r.Int with
  | (.err e, r1) => ⟨some (.wrap e .columns), b, h, r1⟩
  | (.ok v, r1) =>
    if v > maxColumnsInBlock ∨ v < 0 then ⟨some (.invalidColumns v), b, h, r1⟩
    else
      let b := { b with Columns := v }
      match r1.Int with
      | (.err e, r2) => ⟨some (.wrap e .rows), b, h, r2⟩
      | (.ok v, r2) =>
        match checkRows v with
        | some e => ⟨some (.wrap e .rowsCount), b, h, r2⟩
        | none =>
          let b := { b with Rows := v }
          if b.End then
            -- End of data, special case.
            ⟨none, b, h, r2⟩
          else
            let noTarget := decide (target.length = 0)
            let noRows := decide (b.Rows = 0)
            let columnsMismatch := decide (b.Columns ≠ (target.length : Int))
            let allowMismatch := noTarget && noRows
            if columnsMismatch && !allowMismatch then
              ⟨some (.columnsMismatch b.Columns (target.length : Int)), b, h, r2⟩
            else
              match Block.decodeColumnsPtr conflicts b.Rows noTarget b.Columns.toNat 0 r2 target
                  h with
              | (e, h, r3) => ⟨e, b, h, r3⟩

/-- Go `Block.DecodeBlock`, on a target whose entries hold pointers into the
store `h`; `FeatureBlockInfo` as in `Block.EncodeAware`. -/
def Block.DecodeBlockPtr {κ : Type} [Result κ] (conflicts : ColumnType → ColumnType → Bool)
    (FeatureBlockInfo : Int) (b : Block) (r : Reader) (version : Int)
    (target : List ResultRef) (h : Store κ) : DecodedPtr κ :=
  if Feature.In FeatureBlockInfo version then
    match b.Info.Decode r with
    | (some e, info, r1) => ⟨some (.wrap e .info), { b with Info := info }, h, r1⟩
    | (none, info, r1) => Block.DecodeRawBlockPtr conflicts { b with Info := info } r1 target h
  else Block.DecodeRawBlockPtr conflicts b r target h

/-- The columns `vs` are what the entries of `target` point to in the store
`h`: entry by entry, the same name and the column object at the entry's
address. -/
def Store.Views {κ : Type} (h : Store κ) (target : List ResultRef)
    (vs : List (ResultColumn κ)) : Prop :=
  vs.length = target.length ∧
  ∀ (j : Nat) (t : ResultRef), target[j]? = some t →
    ∃ d : κ, h[t.Data]? = some d ∧ vs[j]? = some (⟨t.Name, d⟩ : ResultColumn κ)

/-! ## `Results` (results.go) -/

/-- Go `Results` wrap `[]ResultColumn`. -/
abbrev Results (κ : Type) := List (ResultColumn κ)

/-- Go `Results.Rows`. -/
def Results.Rows {κ : Type} [Result κ] (s : Results κ) : Int :=
  match s with
  | [] => 0
  | c :: _ => Result.Rows c.Data

/-- The column loop of `Results.DecodeResult`; the first argument is the number
of iterations left, `b.Columns - i`. Returns the error, the results and the
reader after the loop. As in `Block.decodeColumns`, every entry carries its own
column: the loop as seen on results whose entries point to pairwise distinct
column objects. -/
def Results.decodeResultColumns {κ : Type} [Result κ]
    (conflicts : ColumnType → ColumnType → Bool) (rows : Int) (noTarget : Bool) :
    Nat → Nat → Reader → Results κ → Option Error × Results κ × Reader
  | 0, _, r, s => (none, s, r)
  | n + 1, i, r, s =>
    match r.Str with
    | (.err e, r1) => (some (.wrapColumnName e i), s, r1)
    | (.ok columnName, r1) =>
      match r1.Str with
      | (.err e, r2) => (some (.wrapColumnType e i), s, r2)
      | (.ok columnType, r2) =>
        if noTarget then
          -- Just reading types and names.
          Results.decodeResultColumns conflicts rows noTarget n (i + 1) r2 s
        else
          match s[i]? with
          | none => (some (.indexOutOfRange i), s, r2)
          | some t0 =>
            -- Inferring column name.
            let t : ResultColumn κ := if t0.Name = [] then { t0 with Name := columnName } else t0
            let s := if t0.Name = [] then s.set i t else s
            if t.Name ≠ columnName then
              (some (.unexpectedColumn i columnName t.Name), s, r2)
            else
              let gotType : ColumnType := columnType
              match (match Result.asInferColumn t.Data with
                     | some infer => infer gotType
                     | none => (none, t.Data)) with
              | (some e, d) => (some (.wrap e .infer), s.set i { t with Data := d }, r2)
              | (none, d) =>
                let s := s.set i { t with Data := d }
                let hasType := Result.Type_ d
                if conflicts gotType hasType then
                  (some (.unexpectedType i columnName gotType hasType), s, r2)
                else
                  let d := Result.Reset d
                  let s := s.set i { t with Data := d }
                  if rows = 0 then
                    Results.decodeResultColumns conflicts rows noTarget n (i + 1) r2 s
                  else
                    match (match Result.asStateDecoder d with
                           | some decodeState => decodeState r2
                           | none => (none, d, r2)) with
                    | (some e, d, r3) =>
                      (some (.wrapState e columnName), s.set i { t with Data := d }, r3)
                    | (none, d, r3) =>
                      match Result.DecodeColumn d r3 rows with
                      | (some e, d, r4) =>
                        (some (.wrapName e columnName), s.set i { t with Data := d }, r4)
                      | (none, d, r4) =>
                        Results.decodeResultColumns conflicts rows noTarget n (i + 1) r4
                          (s.set i { t with Data := d })

/-- Go `Results.DecodeResult`: the error, the results and the reader after the
call. -/
def Results.DecodeResult {κ : Type} [Result κ] (conflicts : ColumnType → ColumnType → Bool)
    (s : Results κ) (r : Reader) (b : Block) : Option Error × Results κ × Reader :=
  let noTarget := decide (s.length = 0)
  let noRows := decide (b.Rows = 0)
  let columnsMismatch := decide (b.Columns ≠ (s.length : Int))
  let allowMismatch := noTarget && noRows
  if columnsMismatch && !allowMismatch then
    (some (.columnsMismatch b.Columns (s.length : Int)), s, r)
  else
    Results.decodeResultColumns conflicts b.Rows noTarget b.Columns.toNat 0 r s

/-- The column loop of `Results.decodeAuto`; the first argument is the number
of iterations left, `b.Columns - i`. `infer` is `(&ColAuto{}).Infer`, declared
outside the sources: for a wire type it gives the concrete column selected (the
field `Data` of the `ColAuto`) or the error. Every iteration makes its own
`ColAuto` (`col = &ColAuto{}`), so the columns appended are pairwise distinct
objects. -/
def Results.decodeAutoColumns {κ : Type} [Result κ] (infer : ColumnType → Res κ) (rows : Int) :
    Nat → Nat → Reader → Results κ → Option Error × Results κ × Reader
  | 0, _, r, s => (none, s, r)
  | n + 1, i, r, s =>
    match r.Str with
    | (.err e, r1) => (some (.wrapColumnName e i), s, r1)
    | (.ok columnName, r1) =>
      match r1.Str with
      | (.err e, r2) => (some (.wrapColumnType e i), s, r2)
      | (.ok columnTypeRaw, r2) =>
        let colType : ColumnType := columnTypeRaw
        match infer colType with
        | .err e => (some (.wrap e .typeInference), s, r2)
        | .ok d =>
          let d := Result.Reset d
          if rows ≠ 0 then
            match (match Result.asStatefulColumn d with
                   | some decodeState => decodeState r2
                   | none => (none, d, r2)) with
            | (some e, _, r3) => (some (.wrapState e columnName), s, r3)
            | (none, d, r3) =>
              match Result.DecodeColumn d r3 rows with
              | (some e, _, r4) => (some (.wrapName e columnName), s, r4)
              | (none, d, r4) =>
                Results.decodeAutoColumns infer rows n (i + 1) r4
                  (s ++ [{ Name := columnName, Data := d }])
          else
            Results.decodeAutoColumns infer rows n (i + 1) r2
              (s ++ [{ Name := columnName, Data := d }])

/-- Go `Results.decodeAuto`. -/
def Results.decodeAuto {κ : Type} [Result κ] (conflicts : ColumnType → ColumnType → Bool)
    (infer : ColumnType → Res κ) (s : Results κ) (r : Reader) (b : Block) :
    Option Error × Results κ × Reader :=
  if s.length > 0 then
    -- Already inferred.
    Results.DecodeResult conflicts s r b
  else
    Results.decodeAutoColumns infer b.Rows b.Columns.toNat 0 r s

/-- Go `autoResults.DecodeResult`, the `Result` returned by `Results.Auto()`. -/
def autoResults.DecodeResult {κ : Type} [Result κ] (conflicts : ColumnType → ColumnType → Bool)
    (infer : ColumnType → Res κ) (results : Results κ) (r : Reader) (b : Block) :
    Option Error × Results κ × Reader :=
  Results.decodeAuto conflicts infer results r b

/-! ## The wire layout of a block, for stating what a reader holds -/

/-- The octets of one column on the wire: the name and the type string, both
length-prefixed, then the row payload. -/
def wireColumn (name : Str) (t : ColumnType) (payload : List Byte) : List Byte :=
  Buffer.PutRaw (Buffer.PutString (Buffer.PutString [] name) t) payload

/-- The octets of a sequence of columns `(name, type, payload)`, in order. -/
def wireColumns : List (Str × ColumnType × List Byte) → List Byte
  | [] => []
  | c :: cs => wireColumn c.1 c.2.1 c.2.2 ++ wireColumns cs

/-- The octets of a raw block: column count, row count, then the columns. -/
def wireBlock (columns rows : Int) (cols : List (Str × ColumnType × List Byte)) : List Byte :=
  Buffer.PutInt (Buffer.PutInt [] columns) rows ++ wireColumns cols

/-! ## Columns of a stream of blocks, for stating what automatic mode does -/

/-- One wire column of a stream of two blocks that carry the same names and
types: its name and type, its payload in the first and in the second block, and
the column that `Results` holds for it after the first and after the second
block. -/
structure StreamColumn (κ : Type) where
  Name : Str
  Type_ : ColumnType
  First : List Byte
  AfterFirst : κ
  Second : List Byte
  AfterSecond : κ
  deriving DecidableEq, Repr

/-- The column implementation that `Infer` selects for the wire type `t` takes
the payload `p` of a block of `rows` rows, as `Results.decodeAuto` asks of it
(results.go:46-63): `Infer` accepts `t`; the selected column, reset, is `c`
when `rows = 0` (nothing is read, `p` is empty); otherwise `DecodeState` (when
the column is a `StatefulColumn`) and then `DecodeColumn` succeed, read exactly
`p` whatever follows it, and leave the column `c`. -/
def Result.InferDecodes {κ : Type} [Result κ] (infer : ColumnType → Res κ) (rows : Int)
    (t : ColumnType) (p : List Byte) (c : κ) : Prop :=
  ∃ d0 : κ, infer t = .ok d0 ∧
    if rows = 0 then p = [] ∧ c = Result.Reset d0
    else ∀ rest : Reader, ∃ (d1 : κ) (r1 : Reader),
      (match Result.asStatefulColumn (Result.Reset d0) with
        | some decodeState => decodeState (p ++ rest)
        | none => (none, Result.Reset d0, p ++ rest)) = (none, d1, r1) ∧
      Result.DecodeColumn d1 r1 rows = (none, c, rest)

/-- A column `c0` already in the results takes the payload `p` of a later block
of `rows` rows whose wire type is `t`, as `Results.DecodeResult` asks of it
(results.go:106-129): `Infer`, when the column is an `InferColumn`, accepts
`t`; `t` does not conflict with the type the column then reports; the column,
reset, is `c` when `rows = 0` (nothing is read, `p` is empty); otherwise
`DecodeState` (when the column is a `StateDecoder`) and then `DecodeColumn`
succeed, read exactly `p` whatever follows it, and leave the column `c`. -/
def Result.Redecodes {κ : Type} [Result κ] (conflicts : ColumnType → ColumnType → Bool)
    (rows : Int) (t : ColumnType) (c0 : κ) (p : List Byte) (c : κ) : Prop :=
  ∃ dI : κ,
    (match Result.asInferColumn c0 with
      | some infer => infer t
      | none => (none, c0)) = (none, dI) ∧
    conflicts t (Result.Type_ dI) = false ∧
    if rows = 0 then p = [] ∧ c = Result.Reset dI
    else ∀ rest : Reader, ∃ (d1 : κ) (r1 : Reader),
      (match Result.asStateDecoder (Result.Reset dI) with
        | some decodeState => decodeState (p ++ rest)
        | none => (none, Result.Reset dI, p ++ rest)) = (none, d1, r1) ∧
      Result.DecodeColumn d1 r1 rows = (none, c, rest)

/-! ## Concrete stand-ins for the declarations outside the sources -/

/-- Modelled from the spec: `ColumnType.Conflicts` (declared outside the
sources), in the form the spec names as the safe default: two type strings
conflict exactly when they differ. The decoders above take the relation as a
parameter; this one serves the concrete examples. -/
def ColumnType.Conflicts (c b : ColumnType) : Bool := decide (c ≠ b)

/-- Modelled from the spec: `(&ColAuto{}).Infer` (declared outside the sources),
restricted to the one column implementation among the sources: the wire type
`"UInt8"` selects an empty `ColumnUInt8`, any other type is an inference
error. The decoders above take the function as a parameter; this one serves the
concrete examples. -/
def ColAuto.Infer (t : ColumnType) : Res ColumnUInt8 :=
  if t = ColumnTypeUInt8 then .ok ⟨[]⟩ else .err (.cannotInfer t)

/-! ## `Compression` (compression.go) -/

/-- Go `Compression` status: `type Compression byte`. -/
abbrev Compression := Byte

def CompressionDisabled : Compression := 0

def CompressionEnabled : Compression := 1

/-- Go `Compression.Encode`: `b.PutUVarInt(uint64(c))`. -/
def Compression.Encode (c : Compression) (b : Buffer) : Buffer :=
  b.PutUVarInt c.val

/-! ## Facts about the byte codec -/

theorem byteOf_val (x : Nat) : (byteOf x).val = x % 256 := rfl

/-- Reading back a variable-length integer: the loop started at octet `i` on
the encoding of `y` (with `9 - i` continuation octets allowed) adds `y`, shifted,
to the accumulator and leaves exactly the input after the encoding. -/
theorem uvarintLoop_bytes (j : Nat) : ∀ (i x s y : Nat) (rest : Reader),
    i + j = 9 → y < 2 ^ (7 * j + 1) →
    Reader.uvarintLoop (j + 1) i x s (uvarintBytes j y ++ rest) = (.ok (x + y * 2 ^ s), rest) := by
  induction j with
  | zero =>
    intro i x s y rest hi hy
    have hy2 : y < 2 := by simpa using hy
    have hb : y % 256 = y := Nat.mod_eq_of_lt (by omega)
    simp only [uvarintBytes, List.singleton_append, Reader.uvarintLoop, byteOf_val, hb]
    rw [if_pos (by omega), if_neg (by omega)]
    rfl
  | succ j ih =>
    intro i x s y rest hi hy
    by_cases h : 128 ≤ y
    · have hb : (y % 128 + 128) % 256 = y % 128 + 128 := Nat.mod_eq_of_lt (by omega)
      have hy2 : y / 128 < 2 ^ (7 * j + 1) := by
        have : 2 ^ (7 * (j + 1) + 1) = 128 * 2 ^ (7 * j + 1) := by ring
        rw [this] at hy
        exact Nat.div_lt_of_lt_mul hy
      simp only [uvarintBytes, if_pos h, List.cons_append, Reader.uvarintLoop, byteOf_val, hb]
      rw [if_neg (by omega), ih (i + 1) _ (s + 7) (y / 128) rest (by omega) hy2]
      have h1 : (y % 128 + 128) % 128 = y % 128 := by omega
      have h2 : 2 ^ (s + 7) = 128 * 2 ^ s := by ring
      rw [h1, h2]
      have h3 : y % 128 * 2 ^ s + y / 128 * (128 * 2 ^ s) = (y % 128 + 128 * (y / 128)) * 2 ^ s := by
        ring
      rw [Nat.add_assoc, h3, Nat.mod_add_div]
    · have hb : y % 256 = y := Nat.mod_eq_of_lt (by omega)
      simp only [uvarintBytes, if_neg h, List.singleton_append, Reader.uvarintLoop, byteOf_val, hb]
      rw [if_pos (by omega), if_neg (by omega)]

/-- Go `Reader.UVarInt` reads back what `Buffer.PutUVarInt` wrote and stops right
after it. -/
theorem UVarInt_put (x : Nat) (hx : x < 2 ^ 64) (rest : Reader) :
    Reader.UVarInt (Buffer.PutUVarInt [] x ++ rest) = (.ok x, rest) := by
  have h := uvarintLoop_bytes 9 0 0 0 x rest (by omega) (by simpa using hx)
  simp only [Reader.UVarInt, Buffer.PutUVarInt, List.nil_append, Nat.mod_eq_of_lt hx]
  simpa using h

theorem toInt64_toUInt64 (x : Int) (h : -2 ^ 63 ≤ x ∧ x < 2 ^ 63) : toInt64 (toUInt64 x) = x := by
  unfold toInt64 toUInt64
  split <;> omega

theorem toUInt64_lt (x : Int) : toUInt64 x < 2 ^ 64 := by
  unfold toUInt64
  omega

/-- Go `Reader.Int` reads back what `Buffer.PutInt` wrote, for every 64-bit
`int`. -/
theorem Int_put (x : ℤ) (hx : -2 ^ 63 ≤ x ∧ x < 2 ^ 63) (rest : Reader) :
    Reader.Int (Buffer.PutInt [] x ++ rest) = (.ok x, rest) := by
  simp only [Reader.Int, Buffer.PutInt, UVarInt_put _ (toUInt64_lt x) rest,
    toInt64_toUInt64 x hx]

theorem int32_range (x : Int) : -2 ^ 31 ≤ int32 x ∧ int32 x < 2 ^ 31 := by
  unfold int32
  omega

theorem int32_of_range (x : Int) (h : -2 ^ 31 ≤ x ∧ x < 2 ^ 31) : int32 x = x := by
  unfold int32
  omega

/-- Go `Reader.Int32` reads back what `Buffer.PutInt32` wrote. -/
theorem Int32_put (v : ℤ) (rest : Reader) :
    Reader.Int32 (Buffer.PutInt32 [] v ++ rest) = (.ok (int32 v), rest) := by
  simp only [Buffer.PutInt32, List.nil_append, List.cons_append, Reader.Int32, byteOf_val]
  have hu : toUInt32 v < 2 ^ 32 := by unfold toUInt32; omega
  have hs : toUInt32 v % 256 + toUInt32 v / 2 ^ 8 % 256 * 2 ^ 8 + toUInt32 v / 2 ^ 16 % 256 * 2 ^ 16
      + toUInt32 v / 2 ^ 24 % 256 * 2 ^ 24 = toUInt32 v := by omega
  rw [hs]
  have : int32 ((toUInt32 v : ℕ) : ℤ) = int32 v := by unfold int32 toUInt32; omega
  rw [this]

/-- Go `Reader.Bool` reads back what `Buffer.PutBool` wrote. -/
theorem Bool_put (v : Bool) (rest : Reader) :
    Reader.Bool (Buffer.PutBool [] v ++ rest) = (.ok v, rest) := by
  cases v <;> simp [Buffer.PutBool, Buffer.PutUInt8, Reader.Bool, Reader.UInt8]

/-! ## `BlockInfo`: termination of the decode loop, and the round trip -/

theorem uvarintLoop_length : ∀ (k i x s : Nat) (r : Reader) (v : Nat) (r1 : Reader),
    Reader.uvarintLoop k i x s r = (.ok v, r1) → r1.length < r.length := by
  intro k
  induction k with
  | zero => intro i x s r v r1 h; simp [Reader.uvarintLoop] at h
  | succ k ih =>
    intro i x s r v r1 h
    cases r with
    | nil => simp [Reader.uvarintLoop] at h
    | cons b r =>
      simp only [Reader.uvarintLoop] at h
      split at h
      · split at h
        · simp at h
        · simp only [Prod.mk.injEq, Res.ok.injEq] at h
          simp [← h.2]
      · have := ih _ _ _ _ _ _ h
        simp only [List.length_cons]
        omega

theorem UVarInt_length (r : Reader) (v : Nat) (r1 : Reader) (h : r.UVarInt = (.ok v, r1)) :
    r1.length < r.length :=
  uvarintLoop_length _ _ _ _ _ _ _ h

theorem Bool_length (r : Reader) (v : Bool) (r1 : Reader) (h : r.Bool = (.ok v, r1)) :
    r1.length < r.length := by
  cases r with
  | nil => simp [Reader.Bool, Reader.UInt8] at h
  | cons b r =>
    simp only [Reader.Bool, Reader.UInt8] at h
    split at h
    · simp only [Prod.mk.injEq] at h; simp [← h.2]
    · split at h
      · simp only [Prod.mk.injEq] at h; simp [← h.2]
      · simp at h

theorem Int32_length (r : Reader) (v : ℤ) (r1 : Reader) (h : r.Int32 = (.ok v, r1)) :
    r1.length < r.length := by
  unfold Reader.Int32 at h
  split at h
  · simp only [Prod.mk.injEq] at h
    rw [← h.2]
    simp only [List.length_cons]
    omega
  · simp at h

/-- The bound on the iterations of the decode loop is never the reason it
stops: any two bounds above the length of the input give the same outcome. -/
theorem BlockInfo.decodeLoop_fuel : ∀ (n m : Nat) (i : BlockInfo) (r : Reader),
    r.length < n → r.length < m →
    BlockInfo.decodeLoop n i r = BlockInfo.decodeLoop m i r := by
  intro n
  induction n with
  | zero => intro m i r h; omega
  | succ n ih =>
    intro m i r hn hm
    cases m with
    | zero => omega
    | succ m =>
      simp only [BlockInfo.decodeLoop]
      rcases hu : r.UVarInt with ⟨_ | e, r1⟩
      · rename_i f
        have h1 := UVarInt_length _ _ _ hu
        simp only []
        split
        · rcases hb : r1.Bool with ⟨_ | e, r2⟩
          · have h2 := Bool_length _ _ _ hb
            exact ih _ _ _ (by omega) (by omega)
          · rfl
        · split
          · rcases hb : r1.Int32 with ⟨_ | e, r2⟩
            · have h2 := Int32_length _ _ _ hb
              exact ih _ _ _ (by omega) (by omega)
            · rfl
          · rfl
      · rfl

theorem BlockInfo.Encode_nil (i : BlockInfo) :
    i.Encode [] = Buffer.PutUVarInt [] blockInfoOverflows ++ (Buffer.PutBool [] i.Overflows ++
      (Buffer.PutUVarInt [] blockInfoBucketNum ++ (Buffer.PutInt32 [] (int32 i.BucketNum) ++
        Buffer.PutUVarInt [] endField))) := by
  simp [BlockInfo.Encode, Buffer.PutUVarInt, Buffer.PutBool, Buffer.PutUInt8, Buffer.PutInt32]

/-- The decode loop on an encoded `BlockInfo` followed by any input: three
iterations, whatever bound at least three is given. -/
theorem BlockInfo.decodeLoop_Encode (n : Nat) (i j : BlockInfo) (rest : Reader) :
    BlockInfo.decodeLoop (n + 3) j (i.Encode [] ++ rest)
      = (none, { Overflows := i.Overflows, BucketNum := int32 i.BucketNum }, rest) := by
  have e1 : ∀ rest, Reader.UVarInt (Buffer.PutUVarInt [] blockInfoOverflows ++ rest)
      = (.ok 1, rest) := fun rest => UVarInt_put 1 (by decide) rest
  have e2 : ∀ rest, Reader.UVarInt (Buffer.PutUVarInt [] blockInfoBucketNum ++ rest)
      = (.ok 2, rest) := fun rest => UVarInt_put 2 (by decide) rest
  have e0 : ∀ rest, Reader.UVarInt (Buffer.PutUVarInt [] endField ++ rest)
      = (.ok 0, rest) := fun rest => UVarInt_put 0 (by decide) rest
  rw [BlockInfo.Encode_nil]
  simp only [List.append_assoc, BlockInfo.decodeLoop, e1, e2, e0, Bool_put, Int32_put]
  simp [blockInfoOverflows, blockInfoBucketNum, endField, int32_of_range _ (int32_range _)]

/-- C1. For every `BlockInfo` value `i` whose bucket number is valid (fits the
32-bit field of the wire), decoding with `BlockInfo.Decode` (into any
receiver `j`) the bytes that `i.Encode` wrote into an empty buffer, followed by
any further input `rest`, succeeds, yields exactly `i`, and leaves exactly
`rest` unread. -/
theorem BlockInfo_Encode_Decode (i j : BlockInfo) (rest : Reader)
    (hb : -2 ^ 31 ≤ i.BucketNum ∧ i.BucketNum < 2 ^ 31) :
    BlockInfo.Decode j (i.Encode [] ++ rest) = (none, i, rest) := by
  have hlen : ∃ n, (i.Encode [] ++ rest).length + 1 = n + 3 := by
    refine ⟨rest.length + 6, ?_⟩
    simp [BlockInfo.Encode, Buffer.PutUVarInt, Buffer.PutBool, Buffer.PutUInt8,
      Buffer.PutInt32, uvarintBytes, blockInfoOverflows, blockInfoBucketNum, endField]
  obtain ⟨n, hn⟩ := hlen
  rw [BlockInfo.Decode, hn, BlockInfo.decodeLoop_Encode, int32_of_range _ hb]

/-- C1, at a concrete value: overflow flag set, bucket number `-5`, and three
further octets on the wire. -/
theorem BlockInfo_Encode_Decode_witness :
    (-2 ^ 31 ≤ (-5 : ℤ) ∧ (-5 : ℤ) < 2 ^ 31) ∧
    BlockInfo.Decode ⟨false, 0⟩ (BlockInfo.Encode ⟨true, -5⟩ [] ++ [7, 8, 9])
      = (none, ⟨true, -5⟩, [7, 8, 9]) :=
  ⟨by decide, BlockInfo_Encode_Decode ⟨true, -5⟩ ⟨false, 0⟩ [7, 8, 9] (by decide)⟩

/-! ## `ColumnUInt8`: the round trip -/

theorem ColumnUInt8.EncodeColumn_eq (c : ColumnUInt8) (b : Buffer) :
    c.EncodeColumn b = b ++ c.vals := by
  obtain ⟨vals⟩ := c
  simp only [ColumnUInt8.EncodeColumn]
  induction vals generalizing b with
  | nil => simp
  | cons v vs ih => rw [List.foldl_cons, ih]; simp [Buffer.PutUInt8]

/-- Reading exactly the octets that stand first in the input. -/
theorem ReadRaw_append (p rest : List Byte) :
    Reader.ReadRaw (p ++ rest) (p.length : ℤ) = (.ok p, rest) := by
  simp [Reader.ReadRaw]

/-- Decoding `p.length` rows into a column that was just reset gives the
column `p`. -/
theorem ColumnUInt8.DecodeColumn_Reset (old : ColumnUInt8) (p rest : List Byte) :
    (old.Reset).DecodeColumn (p ++ rest) (p.length : ℤ) = (none, ⟨p⟩, rest) := by
  simp [ColumnUInt8.DecodeColumn, ColumnUInt8.Reset, ReadRaw_append]

/-- C2. For every `ColumnUInt8` value `c` (any sequence of octets, the empty one
included) and every column `old`: writing `c` with `EncodeColumn` into an empty
buffer and calling `DecodeColumn` with `rows = len(c)` on the freshly reset
`old` succeeds, leaves that column equal to `c` (and the input after the
payload unread), and its `Rows()` is `len(c)`. -/
theorem ColumnUInt8_Encode_Decode (c old : ColumnUInt8) (rest : Reader) :
    (old.Reset).DecodeColumn (c.EncodeColumn [] ++ rest) (c.vals.length : ℤ) = (none, c, rest) ∧
    ((old.Reset).DecodeColumn (c.EncodeColumn [] ++ rest) (c.vals.length : ℤ)).2.1.Rows
      = (c.vals.length : ℤ) := by
  have h : (old.Reset).DecodeColumn (c.EncodeColumn [] ++ rest) (c.vals.length : ℤ)
      = (none, c, rest) := by
    rw [ColumnUInt8.EncodeColumn_eq, List.nil_append, ColumnUInt8.DecodeColumn_Reset]
  exact ⟨h, by rw [h]; rfl⟩

/-! ## `Block.DecodeRawBlock`: the counts -/

/-- C3. For every target (empty or not, of any column implementation) and every
reader whose next two integers are column count 0 and row count 0 (`r1` and
`r2` being the reader after the first and after the second),
`Block.DecodeRawBlock` returns success, leaves the reader at `r2` (nothing is
consumed beyond the two integers), leaves the target as it was, and afterwards
`Block.End()` is true. -/
theorem DecodeRawBlock_end {κ : Type} [Result κ] (conflicts : ColumnType → ColumnType → Bool)
    (b : Block) (r r1 r2 : Reader) (target : List (ResultColumn κ))
    (h1 : r.Int = (.ok 0, r1)) (h2 : r1.Int = (.ok 0, r2)) :
    Block.DecodeRawBlock conflicts b r target
      = ⟨none, { b with Columns := 0, Rows := 0 }, target, r2⟩ ∧
    (Block.DecodeRawBlock conflicts b r target).b.End = true := by
  have h : Block.DecodeRawBlock conflicts b r target
      = ⟨none, { b with Columns := 0, Rows := 0 }, target, r2⟩ := by
    simp [Block.DecodeRawBlock, h1, h2, checkRows, maxColumnsInBlock, maxRowsInBlock, Block.End]
  exact ⟨h, by rw [h]; rfl⟩

/-- C3, at a concrete input: a target that holds a row, the two zero counts, and
two further octets that stay unread. -/
theorem DecodeRawBlock_end_witness :
    Block.DecodeRawBlock ColumnType.Conflicts ⟨⟨false, 0⟩, 7, 7⟩ [0, 0, 42, 43]
        [(⟨[120], ⟨[5]⟩⟩ : ResultColumn ColumnUInt8)]
      = ⟨none, ⟨⟨false, 0⟩, 0, 0⟩, [⟨[120], ⟨[5]⟩⟩], [42, 43]⟩ ∧
    (Block.DecodeRawBlock ColumnType.Conflicts ⟨⟨false, 0⟩, 7, 7⟩ [0, 0, 42, 43]
        [(⟨[120], ⟨[5]⟩⟩ : ResultColumn ColumnUInt8)]).b.End = true :=
  DecodeRawBlock_end ColumnType.Conflicts ⟨⟨false, 0⟩, 7, 7⟩ [0, 0, 42, 43] [0, 42, 43] [42, 43]
    [(⟨[120], ⟨[5]⟩⟩ : ResultColumn ColumnUInt8)] (by decide) (by decide)

/-- C4. For every target and every reader whose first integer is the column
count `c` (`r1` the reader after it):
* if `c` is negative or greater than 1,000,000, `Block.DecodeRawBlock` returns
  the invalid-columns error with the reader still at `r1`, the block and the
  target as they were;
* if `c` is in range and the next integer is the row count `v` (`r2` the reader
  after it): when `v` is negative or greater than 1,000,000 it returns the
  row-count error with the reader at `r2` (no column name, type or payload has
  been read), the target as it was; when `v` is in `[0, 1,000,000]` both checks
  pass (`checkRows` returns nil and the block holds `c` and `v`). -/
theorem DecodeRawBlock_bounds {κ : Type} [Result κ] (conflicts : ColumnType → ColumnType → Bool)
    (b : Block) (r r1 : Reader) (target : List (ResultColumn κ)) (c : ℤ)
    (h1 : r.Int = (.ok c, r1)) :
    ((c < 0 ∨ 1000000 < c) →
      Block.DecodeRawBlock conflicts b r target = ⟨some (.invalidColumns c), b, target, r1⟩) ∧
    ((0 ≤ c ∧ c ≤ 1000000) → ∀ (v : ℤ) (r2 : Reader), r1.Int = (.ok v, r2) →
      ((v < 0 ∨ 1000000 < v) →
        Block.DecodeRawBlock conflicts b r target
          = ⟨some (.wrap (.invalidRows v) .rowsCount), { b with Columns := c }, target, r2⟩) ∧
      ((0 ≤ v ∧ v ≤ 1000000) →
        checkRows v = none ∧
        (Block.DecodeRawBlock conflicts b r target).b = { b with Columns := c, Rows := v })) := by
  refine ⟨?_, ?_⟩
  · intro hc
    have : c > maxColumnsInBlock ∨ c < 0 := by unfold maxColumnsInBlock; omega
    simp [Block.DecodeRawBlock, h1, this]
  · intro hc v r2 h2
    have hc2 : ¬ (c > maxColumnsInBlock ∨ c < 0) := by unfold maxColumnsInBlock; omega
    refine ⟨?_, ?_⟩
    · intro hv
      have hv2 : v < 0 ∨ v > maxRowsInBlock := by unfold maxRowsInBlock; omega
      simp [Block.DecodeRawBlock, h1, h2, hc2, checkRows, hv2]
    · intro hv
      have hv2 : ¬ (v < 0 ∨ v > maxRowsInBlock) := by unfold maxRowsInBlock; omega
      have hk : checkRows v = none := by simp [checkRows, hv2]
      refine ⟨hk, ?_⟩
      simp only [Block.DecodeRawBlock, h1, h2, hc2, hk, if_false]
      split
      · rfl
      · split
        · rfl
        · rfl

/-- C4, at concrete inputs: a column count of 1,000,001 (octets 193, 132, 61)
is rejected with the rest of the input unread and the target untouched; so is a
row count of 1,000,001 after a column count of 1; the counts 1 and 1,000,000
pass both checks. -/
theorem DecodeRawBlock_bounds_witness :
    Block.DecodeRawBlock ColumnType.Conflicts ⟨⟨false, 0⟩, 7, 7⟩ [193, 132, 61, 3, 1, 120]
        [(⟨[120], ⟨[5]⟩⟩ : ResultColumn ColumnUInt8)]
      = ⟨some (.invalidColumns 1000001), ⟨⟨false, 0⟩, 7, 7⟩, [⟨[120], ⟨[5]⟩⟩], [3, 1, 120]⟩ ∧
    Block.DecodeRawBlock ColumnType.Conflicts ⟨⟨false, 0⟩, 7, 7⟩ [1, 193, 132, 61, 1, 120]
        [(⟨[120], ⟨[5]⟩⟩ : ResultColumn ColumnUInt8)]
      = ⟨some (.wrap (.invalidRows 1000001) .rowsCount), ⟨⟨false, 0⟩, 1, 7⟩, [⟨[120], ⟨[5]⟩⟩],
          [1, 120]⟩ ∧
    (checkRows 1000000 = none ∧
      (Block.DecodeRawBlock ColumnType.Conflicts ⟨⟨false, 0⟩, 7, 7⟩ [1, 192, 132, 61]
        [(⟨[120], ⟨[5]⟩⟩ : ResultColumn ColumnUInt8)]).b = ⟨⟨false, 0⟩, 1, 1000000⟩) :=
  ⟨(DecodeRawBlock_bounds ColumnType.Conflicts ⟨⟨false, 0⟩, 7, 7⟩ [193, 132, 61, 3, 1, 120]
      [3, 1, 120] [(⟨[120], ⟨[5]⟩⟩ : ResultColumn ColumnUInt8)] 1000001 (by decide)).1
      (by decide),
   ((DecodeRawBlock_bounds ColumnType.Conflicts ⟨⟨false, 0⟩, 7, 7⟩ [1, 193, 132, 61, 1, 120]
      [193, 132, 61, 1, 120] [(⟨[120], ⟨[5]⟩⟩ : ResultColumn ColumnUInt8)] 1 (by decide)).2
      (by decide) 1000001 [1, 120] (by decide)).1 (by decide),
   ((DecodeRawBlock_bounds ColumnType.Conflicts ⟨⟨false, 0⟩, 7, 7⟩ [1, 192, 132, 61]
      [192, 132, 61] [(⟨[120], ⟨[5]⟩⟩ : ResultColumn ColumnUInt8)] 1 (by decide)).2
      (by decide) 1000000 [] (by decide)).2 (by decide)⟩

/-! ## Reading a well-formed block -/

theorem PutInt_eq (b : Buffer) (x : ℤ) : b.PutInt x = b ++ Buffer.PutInt [] x := by
  simp [Buffer.PutInt, Buffer.PutUVarInt]

theorem PutString_eq (b : Buffer) (s : Str) : b.PutString s = b ++ Buffer.PutString [] s := by
  simp [Buffer.PutString, Buffer.PutRaw, Buffer.PutInt, Buffer.PutUVarInt]

/-- Go `Reader.Str` reads back what `Buffer.PutString` wrote. -/
theorem Str_put (s : Str) (hs : s.length < 2 ^ 63) (rest : Reader) :
    Reader.Str (Buffer.PutString [] s ++ rest) = (.ok s, rest) := by
  have hl : -2 ^ 63 ≤ (s.length : ℤ) ∧ (s.length : ℤ) < 2 ^ 63 := by omega
  simp only [Buffer.PutString, Buffer.PutRaw, List.append_assoc, Reader.Str,
    Int_put _ hl, ReadRaw_append]

theorem wireColumn_eq (name : Str) (t : ColumnType) (payload : List Byte) :
    wireColumn name t payload
      = Buffer.PutString [] name ++ (Buffer.PutString [] t ++ payload) := by
  rw [wireColumn, Buffer.PutRaw, PutString_eq (Buffer.PutString [] name) t, List.append_assoc]

theorem wireBlock_eq (columns rows : ℤ) (cols : List (Str × ColumnType × List Byte)) :
    wireBlock columns rows cols
      = Buffer.PutInt [] columns ++ (Buffer.PutInt [] rows ++ wireColumns cols) := by
  rw [wireBlock, PutInt_eq (Buffer.PutInt [] columns) rows, List.append_assoc]

theorem ColumnTypeUInt8_length : ColumnTypeUInt8.length < 2 ^ 63 := by decide

theorem set_append_cons {α : Type} (pre : List α) (x y : α) (suf : List α) :
    (pre ++ x :: suf).set pre.length y = (pre ++ [y]) ++ suf := by
  induction pre with
  | nil => simp
  | cons a pre ih => simp [ih]

theorem getElem?_append_cons {α : Type} (pre : List α) (x : α) (suf : List α) :
    (pre ++ x :: suf)[pre.length]? = some x := by
  induction pre with
  | nil => simp
  | cons a pre ih => simpa using ih

/-- The column loop of `Block.DecodeRawBlock` on well-formed UInt8 columns: with
`pre` the columns already passed and `cs` the columns still to come, each paired
with its payload on the wire, the loop ends without error, every column of `cs`
holds exactly its payload, and the input after the columns is left unread. -/
theorem decodeColumns_uint8 (conflicts : ColumnType → ColumnType → Bool)
    (hc : conflicts ColumnTypeUInt8 ColumnTypeUInt8 = false) (rows : ℤ) :
    ∀ (cs : List (ResultColumn ColumnUInt8 × List Byte)) (pre : List (ResultColumn ColumnUInt8))
      (rest : Reader),
      (∀ c ∈ cs, c.1.Name.length < 2 ^ 63 ∧ (c.2.length : ℤ) = rows) →
      Block.decodeColumns conflicts rows false cs.length pre.length
          (wireColumns (cs.map (fun c => (c.1.Name, ColumnTypeUInt8, c.2))) ++ rest)
          (pre ++ cs.map Prod.fst)
        = (none, pre ++ cs.map (fun c => (⟨c.1.Name, ⟨c.2⟩⟩ : ResultColumn ColumnUInt8)), rest) := by
  intro cs
  induction cs with
  | nil => intro pre rest _; simp [Block.decodeColumns, wireColumns]
  | cons c cs ih =>
    intro pre rest h
    obtain ⟨hn, hp⟩ := h c (List.mem_cons_self _ _)
    have ih2 := ih (pre ++ [⟨c.1.Name, ⟨c.2⟩⟩]) rest (fun d hd => h d (List.mem_cons_of_mem _ hd))
    simp only [List.length_append, List.length_singleton, List.append_assoc,
      List.singleton_append] at ih2
    simp only [List.map_cons, List.length_cons, wireColumns, wireColumn_eq, List.append_assoc,
      Block.decodeColumns, Str_put _ hn, Str_put _ ColumnTypeUInt8_length,
      getElem?_append_cons, Bool.false_eq_true, if_false, ne_eq, not_true_eq_false]
    have hd : Result.DecodeColumn (Result.Reset c.1.Data)
        (c.2 ++ (wireColumns (cs.map (fun c => (c.1.Name, ColumnTypeUInt8, c.2))) ++ rest)) rows
        = (none, ⟨c.2⟩, wireColumns (cs.map (fun c => (c.1.Name, ColumnTypeUInt8, c.2))) ++ rest) := by
      rw [← hp]
      exact ColumnUInt8.DecodeColumn_Reset _ _ _
    have ht : Result.Type_ c.1.Data = ColumnTypeUInt8 := rfl
    simp only [ht, hc, hd, Bool.false_eq_true, if_false, set_append_cons, List.append_assoc,
      List.singleton_append]
    exact ih2

/-- A declared column count above the bound is rejected whatever follows it on
the wire and whatever the target is. -/
theorem DecodeRawBlock_columns_over {κ : Type} [Result κ]
    (conflicts : ColumnType → ColumnType → Bool) (b : Block) (rows : ℤ)
    (cols : List (Str × ColumnType × List Byte)) (target : List (ResultColumn κ)) :
    Block.DecodeRawBlock conflicts b (wireBlock 1000001 rows cols) target
      = ⟨some (.invalidColumns 1000001), b, target, Buffer.PutInt [] rows ++ wireColumns cols⟩ := by
  have h : Reader.Int (Buffer.PutInt [] 1000001 ++ (Buffer.PutInt [] rows ++ wireColumns cols))
      = (.ok 1000001, Buffer.PutInt [] rows ++ wireColumns cols) := Int_put _ (by decide) _
  simp [Block.DecodeRawBlock, wireBlock_eq, h, maxColumnsInBlock]

/-! ## The column loop of `Block.DecodeRawBlock`: general facts -/

/-- The column loop started at index `i` for `n` iterations keeps the length of
the target and touches no column outside the indices `i, …, i + n - 1`,
whether it ends with an error or not. -/
theorem decodeColumns_frame {κ : Type} [Result κ] (conflicts : ColumnType → ColumnType → Bool)
    (rows : ℤ) (noTarget : Bool) :
    ∀ (n i : Nat) (r : Reader) (t : List (ResultColumn κ)) (e : Option Error)
      (t' : List (ResultColumn κ)) (r' : Reader),
      Block.decodeColumns conflicts rows noTarget n i r t = (e, t', r') →
      t'.length = t.length ∧ ∀ j, (j < i ∨ i + n ≤ j) → t'[j]? = t[j]? := by
  intro n
  induction n with
  | zero =>
    intro i r t e t' r' h
    simp only [Block.decodeColumns, Prod.mk.injEq] at h
    obtain ⟨-, rfl, -⟩ := h
    exact ⟨rfl, fun _ _ => rfl⟩
  | succ n ih =>
    intro i r t e t' r' h
    have hset : ∀ (x : ResultColumn κ) (u : List (ResultColumn κ)),
        (u.length = (t.set i x).length ∧ ∀ j, (j < i + 1 ∨ i + 1 + n ≤ j) → u[j]? = (t.set i x)[j]?) →
        u.length = t.length ∧ ∀ j, (j < i ∨ i + (n + 1) ≤ j) → u[j]? = t[j]? := by
      intro x u hu
      refine ⟨by rw [hu.1, List.length_set], fun j hj => ?_⟩
      rw [hu.2 j (by omega), List.getElem?_set_ne (by omega)]
    simp only [Block.decodeColumns] at h
    split at h
    · simp only [Prod.mk.injEq] at h
      obtain ⟨-, rfl, -⟩ := h
      exact ⟨rfl, fun _ _ => rfl⟩
    · split at h
      · simp only [Prod.mk.injEq] at h
        obtain ⟨-, rfl, -⟩ := h
        exact ⟨rfl, fun _ _ => rfl⟩
      · split at h
        · have := ih _ _ _ _ _ _ h
          exact ⟨this.1, fun j hj => this.2 j (by omega)⟩
        · split at h
          · simp only [Prod.mk.injEq] at h
            obtain ⟨-, rfl, -⟩ := h
            exact ⟨rfl, fun _ _ => rfl⟩
          · split at h
            · simp only [Prod.mk.injEq] at h
              obtain ⟨-, rfl, -⟩ := h
              exact ⟨rfl, fun _ _ => rfl⟩
            · split at h
              · simp only [Prod.mk.injEq] at h
                obtain ⟨-, rfl, -⟩ := h
                exact ⟨rfl, fun _ _ => rfl⟩
              · split at h
                · simp only [Prod.mk.injEq] at h
                  obtain ⟨-, rfl, -⟩ := h
                  refine ⟨List.length_set _ _ _, fun j hj => ?_⟩
                  rw [List.getElem?_set_ne (by omega)]
                · exact hset _ _ (ih _ _ _ _ _ _ h)

/-- Running the column loop for `n + m` iterations is running it for `n`
iterations and, when these end without error, for `m` more from where they
stopped. -/
theorem decodeColumns_split {κ : Type} [Result κ] (conflicts : ColumnType → ColumnType → Bool)
    (rows : ℤ) (noTarget : Bool) (m : Nat) :
    ∀ (n i : Nat) (r : Reader) (t : List (ResultColumn κ)),
      Block.decodeColumns conflicts rows noTarget (n + m) i r t
        = match Block.decodeColumns conflicts rows noTarget n i r t with
          | (none, t', r') => Block.decodeColumns conflicts rows noTarget m (i + n) r' t'
          | (some e, t', r') => (some e, t', r') := by
  intro n
  induction n with
  | zero => intro i r t; simp [Block.decodeColumns]
  | succ n ih =>
    intro i r t
    have hnm : n + 1 + m = (n + m) + 1 := by omega
    have hin : i + (n + 1) = i + 1 + n := by omega
    rw [hnm, hin]
    simp only [Block.decodeColumns]
    split
    · rfl
    · split
      · rfl
      · split
        · exact ih _ _ _
        · split
          · rfl
          · split
            · rfl
            · split
              · rfl
              · split
                · rfl
                · exact ih _ _ _

/-! ## `Block.DecodeRawBlock`: schema discovery with an empty target -/

/-- The column loop without a target consumes exactly the name/type pairs. -/
theorem decodeColumns_noTarget {κ : Type} [Result κ] (conflicts : ColumnType → ColumnType → Bool)
    (rows : ℤ) :
    ∀ (ps : List (Str × ColumnType)) (i : Nat) (rest : Reader) (target : List (ResultColumn κ)),
      (∀ p ∈ ps, p.1.length < 2 ^ 63 ∧ p.2.length < 2 ^ 63) →
      Block.decodeColumns conflicts rows true ps.length i
          (wireColumns (ps.map (fun p => (p.1, p.2, []))) ++ rest) target
        = (none, target, rest) := by
  intro ps
  induction ps with
  | nil => intro i rest target _; simp [Block.decodeColumns, wireColumns]
  | cons p ps ih =>
    intro i rest target h
    obtain ⟨hn, ht⟩ := h p (List.mem_cons_self _ _)
    simp only [List.map_cons, List.length_cons, wireColumns, wireColumn_eq, List.append_assoc,
      List.nil_append, Block.decodeColumns, Str_put _ hn, Str_put _ ht, if_true]
    exact ih (i + 1) rest target (fun d hd => h d (List.mem_cons_of_mem _ hd))

/-- C7. For an empty target (of any column implementation) and every wire block
that declares the row count 0 and a column count `n` in `[1, 1,000,000]`,
followed by `n` (name, type) string pairs (Go strings, shorter than `2^63`) and
then any further input `rest`: `Block.DecodeRawBlock` succeeds although `n`
differs from `len(target) = 0`, the block holds `n` and 0, and exactly `rest`
is left unread: the two counts and the `n` pairs are consumed and nothing
else. -/
theorem DecodeRawBlock_discovery {κ : Type} [Result κ]
    (conflicts : ColumnType → ColumnType → Bool) (b : Block) (ps : List (Str × ColumnType))
    (rest : Reader) (hn : 1 ≤ ps.length ∧ ps.length ≤ 1000000)
    (hs : ∀ p ∈ ps, p.1.length < 2 ^ 63 ∧ p.2.length < 2 ^ 63) :
    Block.DecodeRawBlock conflicts b
        (wireBlock (ps.length : ℤ) 0 (ps.map (fun p => (p.1, p.2, []))) ++ rest)
        ([] : List (ResultColumn κ))
      = ⟨none, { b with Columns := (ps.length : ℤ), Rows := 0 }, [], rest⟩ := by
  have h1 : ∀ tl, Reader.Int (Buffer.PutInt [] (ps.length : ℤ) ++ tl)
      = (.ok (ps.length : ℤ), tl) := fun tl => Int_put _ (by omega) tl
  have h2 : ∀ tl, Reader.Int (Buffer.PutInt [] 0 ++ tl) = (.ok 0, tl) :=
    fun tl => Int_put _ (by decide) tl
  have hcols : ¬ ((ps.length : ℤ) > maxColumnsInBlock ∨ (ps.length : ℤ) < 0) := by
    unfold maxColumnsInBlock; omega
  have hk : checkRows 0 = none := by decide
  have hend : Block.End { b with Columns := (ps.length : ℤ), Rows := 0 } = false := by
    have : (ps.length : ℤ) ≠ 0 := by omega
    simp [Block.End, this]
  have hloop := @decodeColumns_noTarget κ _ conflicts 0 ps 0 rest [] hs
  simp only [Block.DecodeRawBlock, wireBlock_eq, List.append_assoc, h1, h2, hcols, hk, hend,
    if_false, List.length_nil, decide_True, Bool.and_self, Bool.not_true, Bool.and_false,
    Bool.false_eq_true, Int.toNat_ofNat, hloop]

/-- C7, at the input of the spec: an empty target and a wire block with
`Columns=2, Rows=0` and two name/type pairs, followed by one octet that stays
unread. -/
theorem DecodeRawBlock_discovery_witness :
    Block.DecodeRawBlock ColumnType.Conflicts ⟨⟨false, 0⟩, 0, 0⟩
        (wireBlock 2 0 [([97], ColumnTypeUInt8, []), ([98], [83, 116, 114, 105, 110, 103], [])]
          ++ [42])
        ([] : List (ResultColumn ColumnUInt8))
      = ⟨none, ⟨⟨false, 0⟩, 2, 0⟩, [], [42]⟩ :=
  DecodeRawBlock_discovery ColumnType.Conflicts ⟨⟨false, 0⟩, 0, 0⟩
    [([97], ColumnTypeUInt8), ([98], [83, 116, 114, 105, 110, 103])] [42] (by decide) (by decide)

/-! ## `Block.DecodeRawBlock`: the paths after the two counts -/

/-- With both counts read and in range and the block not the end-of-stream
marker, a column count that differs from `len(target)`, unless the target is
empty and there are no rows, gives the column-count mismatch error right after
the two counts. -/
theorem DecodeRawBlock_mismatch {κ : Type} [Result κ]
    (conflicts : ColumnType → ColumnType → Bool) (b : Block) (r r1 r2 : Reader)
    (target : List (ResultColumn κ)) (c v : ℤ)
    (h1 : r.Int = (.ok c, r1)) (h2 : r1.Int = (.ok v, r2))
    (hc : 0 ≤ c ∧ c ≤ 1000000) (hv : 0 ≤ v ∧ v ≤ 1000000) (hnt : ¬ (c = 0 ∧ v = 0))
    (hmis : c ≠ (target.length : ℤ) ∧ ¬ (target.length = 0 ∧ v = 0)) :
    Block.DecodeRawBlock conflicts b r target
      = ⟨some (.columnsMismatch c (target.length : ℤ)), { b with Columns := c, Rows := v },
          target, r2⟩ := by
  have hcols : ¬ (c > maxColumnsInBlock ∨ c < 0) := by unfold maxColumnsInBlock; omega
  have hk : checkRows v = none := by
    have : ¬ (v < 0 ∨ v > maxRowsInBlock) := by unfold maxRowsInBlock; omega
    simp [checkRows, this]
  have hend : Block.End { b with Columns := c, Rows := v } = false := by
    simp only [Block.End, Bool.and_eq_false_imp, beq_iff_eq, beq_eq_false_iff_ne]
    intro h0 h3
    exact hnt ⟨h0, h3⟩
  have hm : (decide (c ≠ (target.length : ℤ)) && !(decide (target.length = 0) && decide (v = 0)))
      = true := by
    simp only [Bool.and_eq_true, decide_eq_true_eq, Bool.not_eq_true', Bool.and_eq_false_imp]
    exact ⟨hmis.1, fun h0 => by simpa using fun h3 => hmis.2 ⟨h0, h3⟩⟩
  simp only [Block.DecodeRawBlock, h1, h2, hcols, hk, hend, if_false, Bool.false_eq_true, hm,
    if_true]

/-- With both counts read and in range, the block not the end-of-stream marker
and no column-count mismatch, the outcome is that of the column loop. -/
theorem DecodeRawBlock_loop {κ : Type} [Result κ]
    (conflicts : ColumnType → ColumnType → Bool) (b : Block) (r r1 r2 : Reader)
    (target : List (ResultColumn κ)) (c v : ℤ)
    (h1 : r.Int = (.ok c, r1)) (h2 : r1.Int = (.ok v, r2))
    (hc : 0 ≤ c ∧ c ≤ 1000000) (hv : 0 ≤ v ∧ v ≤ 1000000) (hnt : ¬ (c = 0 ∧ v = 0))
    (hmis : ¬ (c ≠ (target.length : ℤ) ∧ ¬ (target.length = 0 ∧ v = 0))) :
    Block.DecodeRawBlock conflicts b r target
      = ⟨(Block.decodeColumns conflicts v (decide (target.length = 0)) c.toNat 0 r2 target).1,
          { b with Columns := c, Rows := v },
          (Block.decodeColumns conflicts v (decide (target.length = 0)) c.toNat 0 r2 target).2.1,
          (Block.decodeColumns conflicts v (decide (target.length = 0)) c.toNat 0 r2 target).2.2⟩ := by
  have hcols : ¬ (c > maxColumnsInBlock ∨ c < 0) := by unfold maxColumnsInBlock; omega
  have hk : checkRows v = none := by
    have : ¬ (v < 0 ∨ v > maxRowsInBlock) := by unfold maxRowsInBlock; omega
    simp [checkRows, this]
  have hend : Block.End { b with Columns := c, Rows := v } = false := by
    simp only [Block.End, Bool.and_eq_false_imp, beq_iff_eq, beq_eq_false_iff_ne]
    intro h0 h3
    exact hnt ⟨h0, h3⟩
  have hm : (decide (c ≠ (target.length : ℤ)) && !(decide (target.length = 0) && decide (v = 0)))
      = false := by
    rw [Bool.eq_false_iff]
    intro hm
    apply hmis
    simp only [Bool.and_eq_true, decide_eq_true_eq, Bool.not_eq_true', Bool.and_eq_false_imp]
      at hm
    exact ⟨hm.1, fun h => by have := hm.2 h.1; simp [h.2] at this⟩
  simp only [Block.DecodeRawBlock, h1, h2, hcols, hk, hend, if_false, Bool.false_eq_true, hm]

/-- The outcomes of `Block.DecodeRawBlock`: an error before the column loop, the
end-of-stream block, or the column loop on counts in range with
`Columns = len(target)` or an empty target and no rows. -/
theorem DecodeRawBlock_cases {κ : Type} [Result κ]
    (conflicts : ColumnType → ColumnType → Bool) (b : Block) (r : Reader)
    (target : List (ResultColumn κ)) :
    ((Block.DecodeRawBlock conflicts b r target).err ≠ none ∧
      (Block.DecodeRawBlock conflicts b r target).target = target) ∨
    (Block.DecodeRawBlock conflicts b r target).b.End = true ∨
    ∃ (c v : ℤ) (r1 r2 : Reader), r.Int = (.ok c, r1) ∧ r1.Int = (.ok v, r2) ∧
      (0 ≤ c ∧ c ≤ 1000000) ∧ (0 ≤ v ∧ v ≤ 1000000) ∧ ¬ (c = 0 ∧ v = 0) ∧
      ¬ (c ≠ (target.length : ℤ) ∧ ¬ (target.length = 0 ∧ v = 0)) := by
  rcases h1 : r.Int with ⟨c | e, r1⟩
  swap
  · exact Or.inl ⟨by simp [Block.DecodeRawBlock, h1], by simp [Block.DecodeRawBlock, h1]⟩
  by_cases hcr : c > maxColumnsInBlock ∨ c < 0
  · exact Or.inl ⟨by simp only [Block.DecodeRawBlock, h1, hcr, if_true]; simp,
      by simp only [Block.DecodeRawBlock, h1, hcr, if_true]⟩
  rcases h2 : r1.Int with ⟨v | e, r2⟩
  swap
  · exact Or.inl ⟨by simp only [Block.DecodeRawBlock, h1, hcr, if_false, h2]; simp,
      by simp only [Block.DecodeRawBlock, h1, hcr, if_false, h2]⟩
  by_cases hvr : v < 0 ∨ v > maxRowsInBlock
  · have hk : checkRows v = some (.invalidRows v) := by simp [checkRows, hvr]
    exact Or.inl ⟨by simp only [Block.DecodeRawBlock, h1, hcr, if_false, h2, hk]; simp,
      by simp only [Block.DecodeRawBlock, h1, hcr, if_false, h2, hk]⟩
  have hc : 0 ≤ c ∧ c ≤ 1000000 := by unfold maxColumnsInBlock at hcr; omega
  have hv : 0 ≤ v ∧ v ≤ 1000000 := by unfold maxRowsInBlock at hvr; omega
  have hk : checkRows v = none := by simp [checkRows, hvr]
  by_cases hnt : c = 0 ∧ v = 0
  · refine Or.inr (Or.inl ?_)
    obtain ⟨rfl, rfl⟩ := hnt
    simp only [Block.DecodeRawBlock, h1, h2, hcr, hk, if_false]
    rfl
  by_cases hmis : c ≠ (target.length : ℤ) ∧ ¬ (target.length = 0 ∧ v = 0)
  · refine Or.inl ⟨?_, ?_⟩
    · rw [DecodeRawBlock_mismatch conflicts b r r1 r2 target c v h1 h2 hc hv hnt hmis]
      simp
    · rw [DecodeRawBlock_mismatch conflicts b r r1 r2 target c v h1 h2 hc hv hnt hmis]
  · exact Or.inr (Or.inr ⟨c, v, r1, r2, rfl, h2, hc, hv, hnt, hmis⟩)

/-! ## Row counts after a successful decode -/

/-- A successful `ColumnUInt8.DecodeColumn` into a reset column leaves exactly
`rows` rows. -/
theorem ColumnUInt8.DecodeColumn_Rows (c d : ColumnUInt8) (r r' : Reader) (rows : ℤ)
    (h : (c.Reset).DecodeColumn r rows = (none, d, r')) : d.Rows = rows := by
  unfold ColumnUInt8.DecodeColumn Reader.ReadRaw at h
  by_cases h0 : rows < 0
  · simp [h0] at h
  · by_cases hl : r.length < rows.toNat
    · simp [h0, hl] at h
    · simp only [h0, hl, if_false, Prod.mk.injEq, true_and] at h
      rw [← h.1]
      simp only [ColumnUInt8.Rows, ColumnUInt8.Reset, List.take_zero, List.nil_append,
        List.length_take]
      omega

/-- After the column loop ends without error on a target of UInt8 columns, every
column at an index the loop went over holds exactly `rows` rows. -/
theorem decodeColumns_rows (conflicts : ColumnType → ColumnType → Bool) (rows : ℤ) :
    ∀ (n i : Nat) (r : Reader) (t t' : List (ResultColumn ColumnUInt8)) (r' : Reader),
      Block.decodeColumns conflicts rows false n i r t = (none, t', r') →
      ∀ j, i ≤ j → j < i + n → ∃ c, t'[j]? = some c ∧ c.Data.Rows = rows := by
  intro n
  induction n with
  | zero => intro i r t t' r' _ j h1 h2; omega
  | succ n ih =>
    intro i r t t' r' h j h1 h2
    simp only [Block.decodeColumns] at h
    split at h
    · simp at h
    · split at h
      · simp at h
      · simp only [Bool.false_eq_true, if_false] at h
        split at h
        · simp at h
        · rename_i tc hti
          split at h
          · simp at h
          · split at h
            · simp at h
            · split at h
              · simp at h
              · rename_i d r3 hd
                have hrows : d.Rows = rows := ColumnUInt8.DecodeColumn_Rows _ _ _ _ _ hd
                rcases Nat.eq_or_lt_of_le h1 with hji | hji
                · subst hji
                  have hfr := decodeColumns_frame conflicts rows false n (i + 1) r3 _ none t' r' h
                  have hil : i < t.length := by
                    rcases Nat.lt_or_ge i t.length with hl | hl
                    · exact hl
                    · rw [List.getElem?_eq_none hl] at hti; cases hti
                  refine ⟨{ tc with Data := d }, ?_, hrows⟩
                  rw [hfr.2 i (by omega), List.getElem?_set_self hil]
                · exact ih _ _ _ _ _ h j (by omega) (by omega)

/-- C9 as stated fails: on the end-of-stream block (both counts 0) the call
returns success and leaves the target untouched, so a target column that held
one row still reports one row while the decoded block has `Rows = 0`. -/
theorem DecodeRawBlock_rows_counterexample :
    (Block.DecodeRawBlock ColumnType.Conflicts ⟨⟨false, 0⟩, 0, 0⟩ [0, 0]
        [(⟨[120], ⟨[5]⟩⟩ : ResultColumn ColumnUInt8)]).err = none ∧
    (Block.DecodeRawBlock ColumnType.Conflicts ⟨⟨false, 0⟩, 0, 0⟩ [0, 0]
        [(⟨[120], ⟨[5]⟩⟩ : ResultColumn ColumnUInt8)]).b.Rows = 0 ∧
    (Block.DecodeRawBlock ColumnType.Conflicts ⟨⟨false, 0⟩, 0, 0⟩ [0, 0]
        [(⟨[120], ⟨[5]⟩⟩ : ResultColumn ColumnUInt8)]).target.map (fun t => t.Data.Rows) = [1] := by
  decide

/-- C9 (amended). For every target of `ColumnUInt8` columns (whatever they held
before the call) and every wire input on which `Block.DecodeRawBlock` returns
success with a block that is not the end-of-stream marker, every target
column's `Rows()` after the call equals the decoded block's `Rows`. -/
theorem DecodeRawBlock_rows (conflicts : ColumnType → ColumnType → Bool) (b : Block)
    (r : Reader) (target : List (ResultColumn ColumnUInt8))
    (hok : (Block.DecodeRawBlock conflicts b r target).err = none)
    (hne : (Block.DecodeRawBlock conflicts b r target).b.End = false) :
    ∀ t ∈ (Block.DecodeRawBlock conflicts b r target).target,
      t.Data.Rows = (Block.DecodeRawBlock conflicts b r target).b.Rows := by
  rcases DecodeRawBlock_cases conflicts b r target with ⟨he, -⟩ | hend | h
  · exact absurd hok he
  · rw [hend] at hne; cases hne
  · obtain ⟨c, v, r1, r2, h1, h2, hc, hv, hnt, hmis⟩ := h
    rw [DecodeRawBlock_loop conflicts b r r1 r2 target c v h1 h2 hc hv hnt hmis] at hok ⊢
    rcases hl : Block.decodeColumns conflicts v (decide (target.length = 0)) c.toNat 0 r2 target
      with ⟨e, t', r3⟩
    rw [hl] at hok
    simp only at hok
    subst hok
    intro t ht
    simp only at ht ⊢
    have hfr := decodeColumns_frame conflicts v _ _ _ _ _ _ _ _ hl
    by_cases hz : target.length = 0
    · rw [hz] at hfr
      rw [List.length_eq_zero.mp hfr.1] at ht
      cases ht
    · simp only [hz, decide_False] at hl
      obtain ⟨j, hj, hjt⟩ := List.getElem_of_mem ht
      have hcn : c.toNat = target.length := by omega
      obtain ⟨x, hx, hxr⟩ := decodeColumns_rows conflicts v _ _ _ _ _ _ hl j
        (Nat.zero_le _) (by omega)
      rw [List.getElem?_eq_getElem hj, hjt] at hx
      cases hx
      exact hxr

/-- C9, at a concrete input: one column, three rows; the target column held two
rows before the call, and after it the column (now `[1, 2, 3]`) reports the
three rows of the decoded block. -/
theorem DecodeRawBlock_rows_witness :
    (⟨[120], ⟨[1, 2, 3]⟩⟩ : ResultColumn ColumnUInt8).Data.Rows
      = (Block.DecodeRawBlock ColumnType.Conflicts ⟨⟨false, 0⟩, 0, 0⟩
          [1, 3, 1, 120, 5, 85, 73, 110, 116, 56, 1, 2, 3]
          [(⟨[120], ⟨[9, 9]⟩⟩ : ResultColumn ColumnUInt8)]).b.Rows :=
  DecodeRawBlock_rows ColumnType.Conflicts ⟨⟨false, 0⟩, 0, 0⟩
    [1, 3, 1, 120, 5, 85, 73, 110, 116, 56, 1, 2, 3]
    [(⟨[120], ⟨[9, 9]⟩⟩ : ResultColumn ColumnUInt8)] (by decide) (by decide)
    ⟨[120], ⟨[1, 2, 3]⟩⟩ (by decide)

/-! ## The column-count rule -/

/-- The column loop of `Block.DecodeRawBlock` never returns the column-count
mismatch error. -/
theorem decodeColumns_err_ne {κ : Type} [Result κ] (conflicts : ColumnType → ColumnType → Bool)
    (rows : ℤ) (noTarget : Bool) (x y : ℤ) :
    ∀ (n i : Nat) (r : Reader) (t : List (ResultColumn κ)),
      (Block.decodeColumns conflicts rows noTarget n i r t).1 ≠ some (.columnsMismatch x y) := by
  intro n
  induction n with
  | zero => intro i r t; simp [Block.decodeColumns]
  | succ n ih =>
    intro i r t
    simp only [Block.decodeColumns]
    split
    · simp
    · split
      · simp
      · split
        · exact ih _ _ _
        · split
          · simp
          · split
            · simp
            · split
              · simp
              · split
                · simp
                · exact ih _ _ _

/-- The column loop of `Results.DecodeResult` never returns the column-count
mismatch error. -/
theorem decodeResultColumns_err_ne {κ : Type} [Result κ]
    (conflicts : ColumnType → ColumnType → Bool) (rows : ℤ) (noTarget : Bool) (x y : ℤ) :
    ∀ (n i : Nat) (r : Reader) (s : Results κ),
      (Results.decodeResultColumns conflicts rows noTarget n i r s).1
        ≠ some (.columnsMismatch x y) := by
  intro n
  induction n with
  | zero => intro i r s; simp [Results.decodeResultColumns]
  | succ n ih =>
    intro i r s
    simp only [Results.decodeResultColumns]
    repeat' split
    all_goals first | exact ih _ _ _ | simp

/-- C10. For every target and every reader whose first two integers are the
counts `c` and `v`, both in range and not both zero (`r2` the reader after
them), `Block.DecodeRawBlock` returns a column-count mismatch error if and only
if `c` differs from `len(target)` and it is not the case that both
`len(target) = 0` and `v = 0`; when it does, the error carries `c` and
`len(target)`, the reader is still at `r2` (no column name has been read) and
the target is untouched. `Results.DecodeResult` applies the same rule to
`b.Columns`, `b.Rows` and `len(Results)`, for every block, reader and
`Results`, leaving the reader and the results untouched. -/
theorem columnsMismatch_rule {κ : Type} [Result κ]
    (conflicts : ColumnType → ColumnType → Bool) (b : Block) (r r1 r2 : Reader)
    (target : List (ResultColumn κ)) (c v : ℤ)
    (h1 : r.Int = (.ok c, r1)) (h2 : r1.Int = (.ok v, r2))
    (hc : 0 ≤ c ∧ c ≤ 1000000) (hv : 0 ≤ v ∧ v ≤ 1000000) (hnt : ¬ (c = 0 ∧ v = 0)) :
    (((∃ x y, (Block.DecodeRawBlock conflicts b r target).err = some (.columnsMismatch x y)) ↔
        (c ≠ (target.length : ℤ) ∧ ¬ (target.length = 0 ∧ v = 0))) ∧
      ((c ≠ (target.length : ℤ) ∧ ¬ (target.length = 0 ∧ v = 0)) →
        Block.DecodeRawBlock conflicts b r target
          = ⟨some (.columnsMismatch c (target.length : ℤ)), { b with Columns := c, Rows := v },
              target, r2⟩)) ∧
    ∀ (s : Results κ) (rd : Reader) (blk : Block),
      ((∃ x y, (Results.DecodeResult conflicts s rd blk).1 = some (.columnsMismatch x y)) ↔
        (blk.Columns ≠ (s.length : ℤ) ∧ ¬ (s.length = 0 ∧ blk.Rows = 0))) ∧
      ((blk.Columns ≠ (s.length : ℤ) ∧ ¬ (s.length = 0 ∧ blk.Rows = 0)) →
        Results.DecodeResult conflicts s rd blk
          = (some (.columnsMismatch blk.Columns (s.length : ℤ)), s, rd)) := by
  refine ⟨⟨⟨?_, ?_⟩, ?_⟩, ?_⟩
  · rintro ⟨x, y, hxy⟩
    by_contra hmis
    rw [DecodeRawBlock_loop conflicts b r r1 r2 target c v h1 h2 hc hv hnt hmis] at hxy
    exact decodeColumns_err_ne conflicts v _ x y _ _ _ _ hxy
  · intro hmis
    exact ⟨c, (target.length : ℤ),
      by rw [DecodeRawBlock_mismatch conflicts b r r1 r2 target c v h1 h2 hc hv hnt hmis]⟩
  · exact DecodeRawBlock_mismatch conflicts b r r1 r2 target c v h1 h2 hc hv hnt
  · intro s rd blk
    have hyes : (blk.Columns ≠ (s.length : ℤ) ∧ ¬ (s.length = 0 ∧ blk.Rows = 0)) →
        Results.DecodeResult conflicts s rd blk
          = (some (.columnsMismatch blk.Columns (s.length : ℤ)), s, rd) := by
      intro hmis
      have hm : (decide (blk.Columns ≠ (s.length : ℤ))
          && !(decide (s.length = 0) && decide (blk.Rows = 0))) = true := by
        simp only [Bool.and_eq_true, decide_eq_true_eq, Bool.not_eq_true', Bool.and_eq_false_imp]
        exact ⟨hmis.1, fun h0 => by simpa using fun h3 => hmis.2 ⟨h0, h3⟩⟩
      simp only [Results.DecodeResult, hm, if_true]
    refine ⟨⟨?_, fun hmis => ⟨_, _, by rw [hyes hmis]⟩⟩, hyes⟩
    rintro ⟨x, y, hxy⟩
    by_contra hmis
    have hm : (decide (blk.Columns ≠ (s.length : ℤ))
        && !(decide (s.length = 0) && decide (blk.Rows = 0))) = false := by
      rw [Bool.eq_false_iff]
      intro hm
      apply hmis
      simp only [Bool.and_eq_true, decide_eq_true_eq, Bool.not_eq_true', Bool.and_eq_false_imp]
        at hm
      exact ⟨hm.1, fun h => by have := hm.2 h.1; simp [h.2] at this⟩
    simp only [Results.DecodeResult, hm, Bool.false_eq_true, if_false] at hxy
    exact decodeResultColumns_err_ne conflicts _ _ x y _ _ _ _ hxy

/-- C10, at concrete inputs: two declared columns against a one-column target
give the mismatch error before any name is read; one declared column against
the same target does not; `Results.DecodeResult` rejects the counts `(0, 0)`
against a one-column `Results`. -/
theorem columnsMismatch_rule_witness :
    Block.DecodeRawBlock ColumnType.Conflicts ⟨⟨false, 0⟩, 0, 0⟩ [2, 3, 1, 120]
        [(⟨[120], ⟨[9]⟩⟩ : ResultColumn ColumnUInt8)]
      = ⟨some (.columnsMismatch 2 1), ⟨⟨false, 0⟩, 2, 3⟩, [⟨[120], ⟨[9]⟩⟩], [1, 120]⟩ ∧
    Results.DecodeResult ColumnType.Conflicts [(⟨[120], ⟨[9]⟩⟩ : ResultColumn ColumnUInt8)]
        [1, 120] ⟨⟨false, 0⟩, 0, 0⟩
      = (some (.columnsMismatch 0 1), [⟨[120], ⟨[9]⟩⟩], [1, 120]) :=
  ⟨(columnsMismatch_rule ColumnType.Conflicts ⟨⟨false, 0⟩, 0, 0⟩ [2, 3, 1, 120] [3, 1, 120]
      [1, 120] [(⟨[120], ⟨[9]⟩⟩ : ResultColumn ColumnUInt8)] 2 3 (by decide) (by decide)
      (by decide) (by decide) (by decide)).1.2 (by decide),
   ((columnsMismatch_rule ColumnType.Conflicts ⟨⟨false, 0⟩, 0, 0⟩ [2, 3, 1, 120] [3, 1, 120]
      [1, 120] [(⟨[120], ⟨[9]⟩⟩ : ResultColumn ColumnUInt8)] 2 3 (by decide) (by decide)
      (by decide) (by decide) (by decide)).2 [(⟨[120], ⟨[9]⟩⟩ : ResultColumn ColumnUInt8)]
      [1, 120] ⟨⟨false, 0⟩, 0, 0⟩).2 (by decide)⟩

/-! ## `Results`: automatic mode over a stream of blocks -/

theorem set_append_cons_same {α : Type} (pre : List α) (x y : α) (suf : List α) :
    (pre ++ x :: suf).set pre.length y = pre ++ y :: suf := by
  rw [set_append_cons, List.append_assoc, List.singleton_append]

/-- The column loop of `Results.decodeAuto` on wire columns whose types `Infer`
accepts and whose payloads the selected columns take: every wire column is
appended, in wire order, as the column that took its payload, and the input
after the columns is left unread. -/
theorem decodeAutoColumns_cols {κ : Type} [Result κ] (infer : ColumnType → Res κ) (rows : ℤ) :
    ∀ (cs : List (StreamColumn κ)) (i : Nat) (rest : Reader) (s : Results κ),
      (∀ c ∈ cs, c.Name.length < 2 ^ 63 ∧ c.Type_.length < 2 ^ 63 ∧
        Result.InferDecodes infer rows c.Type_ c.First c.AfterFirst) →
      Results.decodeAutoColumns infer rows cs.length i
          (wireColumns (cs.map (fun c => (c.Name, c.Type_, c.First))) ++ rest) s
        = (none, s ++ cs.map (fun c => (⟨c.Name, c.AfterFirst⟩ : ResultColumn κ)), rest) := by
  intro cs
  induction cs with
  | nil => intro i rest s _; simp [Results.decodeAutoColumns, wireColumns]
  | cons c cs ih =>
    intro i rest s h
    obtain ⟨hn, ht, d0, hd, hdec⟩ := h c (List.mem_cons_self _ _)
    have ih2 := ih (i + 1) rest (s ++ [⟨c.Name, c.AfterFirst⟩])
      (fun d hd => h d (List.mem_cons_of_mem _ hd))
    simp only [List.append_assoc, List.singleton_append] at ih2
    simp only [List.map_cons, List.length_cons, wireColumns, wireColumn_eq, List.append_assoc,
      Results.decodeAutoColumns, Str_put _ hn, Str_put _ ht, hd]
    by_cases h0 : rows = 0
    · rw [if_pos h0] at hdec
      simp only [h0, ne_eq, not_true_eq_false, if_false]
      rw [hdec.1, List.nil_append, ← hdec.2]
      rw [h0] at ih2
      exact ih2
    · rw [if_neg h0] at hdec
      obtain ⟨d1, r1, hst, hdc⟩ := hdec
        (wireColumns (cs.map (fun c => (c.Name, c.Type_, c.First))) ++ rest)
      simp only [h0, ne_eq, not_false_eq_true, if_true]
      rcases hs : Result.asStatefulColumn (Result.Reset d0) with _ | f
      · rw [hs] at hst
        simp only [Prod.mk.injEq, true_and] at hst
        obtain ⟨rfl, rfl⟩ := hst
        simp only [hdc]
        exact ih2
      · rw [hs] at hst
        simp only [] at hst
        simp only [hst, hdc]
        exact ih2

/-- The column loop of `Results.DecodeResult` on wire columns that carry the
names already in the results and whose payloads the columns in the results
take: every column keeps its name and becomes the column that took the new
payload, and the input after the columns is left unread. -/
theorem decodeResultColumns_cols {κ : Type} [Result κ]
    (conflicts : ColumnType → ColumnType → Bool) (rows : ℤ) :
    ∀ (cs : List (StreamColumn κ)) (pre : Results κ) (rest : Reader),
      (∀ c ∈ cs, c.Name.length < 2 ^ 63 ∧ c.Type_.length < 2 ^ 63 ∧
        Result.Redecodes conflicts rows c.Type_ c.AfterFirst c.Second c.AfterSecond) →
      Results.decodeResultColumns conflicts rows false cs.length pre.length
          (wireColumns (cs.map (fun c => (c.Name, c.Type_, c.Second))) ++ rest)
          (pre ++ cs.map (fun c => (⟨c.Name, c.AfterFirst⟩ : ResultColumn κ)))
        = (none, pre ++ cs.map (fun c => (⟨c.Name, c.AfterSecond⟩ : ResultColumn κ)),
            rest) := by
  intro cs
  induction cs with
  | nil => intro pre rest _; simp [Results.decodeResultColumns, wireColumns]
  | cons c cs ih =>
    intro pre rest h
    obtain ⟨hn, ht, dI, hinf, hc, hdec⟩ := h c (List.mem_cons_self _ _)
    have ih2 := ih (pre ++ [⟨c.Name, c.AfterSecond⟩]) rest
      (fun d hd => h d (List.mem_cons_of_mem _ hd))
    simp only [List.length_append, List.length_singleton, List.append_assoc,
      List.singleton_append] at ih2
    have hname : (if c.Name = [] then
        ({ (⟨c.Name, c.AfterFirst⟩ : ResultColumn κ) with Name := c.Name } : ResultColumn κ)
        else ⟨c.Name, c.AfterFirst⟩) = ⟨c.Name, c.AfterFirst⟩ := by split <;> rfl
    have hset : (if c.Name = [] then
        (pre ++ (⟨c.Name, c.AfterFirst⟩ : ResultColumn κ) ::
          cs.map (fun c => (⟨c.Name, c.AfterFirst⟩ : ResultColumn κ))).set pre.length
            ⟨c.Name, c.AfterFirst⟩
        else pre ++ (⟨c.Name, c.AfterFirst⟩ : ResultColumn κ) ::
          cs.map (fun c => (⟨c.Name, c.AfterFirst⟩ : ResultColumn κ)))
        = pre ++ (⟨c.Name, c.AfterFirst⟩ : ResultColumn κ) ::
          cs.map (fun c => (⟨c.Name, c.AfterFirst⟩ : ResultColumn κ)) := by
      split
      · exact set_append_cons_same _ _ _ _
      · rfl
    simp only [List.map_cons, List.length_cons, wireColumns, wireColumn_eq, List.append_assoc,
      Results.decodeResultColumns, Str_put _ hn, Str_put _ ht, getElem?_append_cons,
      Bool.false_eq_true, if_false, hname, hset, ne_eq, not_true_eq_false]
    rcases hi : Result.asInferColumn c.AfterFirst with _ | f
    all_goals
      rw [hi] at hinf
      simp only [] at hinf
      first
        | (simp only [Prod.mk.injEq, true_and] at hinf; subst hinf)
        | simp only [hinf]
      simp only [hc, Bool.false_eq_true, if_false, set_append_cons_same, List.set_set]
      by_cases h0 : rows = 0
      · rw [if_pos h0] at hdec
        simp only [h0, if_true]
        rw [hdec.1, List.nil_append, ← hdec.2]
        rw [h0] at ih2
        exact ih2
      · rw [if_neg h0] at hdec
        obtain ⟨d1, r1, hst, hdc⟩ := hdec
          (wireColumns (cs.map (fun c => (c.Name, c.Type_, c.Second))) ++ rest)
        simp only [h0, if_false]
        revert hst
        rcases Result.asStateDecoder (Result.Reset _) with _ | g
        · intro hst
          simp only [Prod.mk.injEq, true_and] at hst
          obtain ⟨rfl, rfl⟩ := hst
          simp only [hdc, set_append_cons_same, List.set_set]
          exact ih2
        · intro hst
          simp only [] at hst
          simp only [hst, hdc, set_append_cons_same, List.set_set]
          exact ih2

/-- A `ColumnUInt8` that `Infer` selects takes any payload of `rows` octets and
then holds exactly the payload. -/
theorem ColumnUInt8.InferDecodes (infer : ColumnType → Res ColumnUInt8) (rows : ℤ)
    (t : ColumnType) (d0 : ColumnUInt8) (p : List Byte) (hi : infer t = .ok d0)
    (hp : (p.length : ℤ) = rows) : Result.InferDecodes infer rows t p ⟨p⟩ := by
  refine ⟨d0, hi, ?_⟩
  by_cases h0 : rows = 0
  · rw [if_pos h0]
    have hnil : p = [] := by
      apply List.length_eq_zero.mp
      omega
    subst hnil
    exact ⟨rfl, by show _ = ColumnUInt8.Reset d0; simp [ColumnUInt8.Reset]⟩
  · rw [if_neg h0]
    intro rest
    refine ⟨Result.Reset d0, p ++ rest, rfl, ?_⟩
    rw [← hp]
    exact ColumnUInt8.DecodeColumn_Reset _ _ _

/-- A `ColumnUInt8` in the results takes any payload of `rows` octets of a wire
type that does not conflict with `"UInt8"` and then holds exactly the
payload. -/
theorem ColumnUInt8.Redecodes (conflicts : ColumnType → ColumnType → Bool) (rows : ℤ)
    (t : ColumnType) (c0 : ColumnUInt8) (p : List Byte)
    (hc : conflicts t ColumnTypeUInt8 = false) (hp : (p.length : ℤ) = rows) :
    Result.Redecodes conflicts rows t c0 p ⟨p⟩ := by
  refine ⟨c0, rfl, hc, ?_⟩
  by_cases h0 : rows = 0
  · rw [if_pos h0]
    have hnil : p = [] := by
      apply List.length_eq_zero.mp
      omega
    subst hnil
    exact ⟨rfl, by show _ = ColumnUInt8.Reset c0; simp [ColumnUInt8.Reset]⟩
  · rw [if_neg h0]
    intro rest
    refine ⟨Result.Reset c0, p ++ rest, rfl, ?_⟩
    rw [← hp]
    exact ColumnUInt8.DecodeColumn_Reset _ _ _

/-- C8. Decoding through `Results.Auto()`, starting from an empty `Results`, for
any column implementations, any `Infer` and any conflict relation. Let `cols`
be `n ≥ 1` wire columns, each with a name, a type that `Infer` accepts, a first
payload that the selected column takes in a block of `rows1` rows, and a second
payload that the column then in the results takes in a block of `rows2` rows
(its type not in conflict with the wire type).
* The first block (`n` columns, `rows1` rows) succeeds and leaves `Results`
  holding exactly the `n` (name, column) pairs in wire order, each column as
  it is after taking its first payload.
* The second block (same names and types, `rows2` rows, the second payloads)
  succeeds on those `Results`, leaves their length and names unchanged and
  replaces each column's contents with what its second payload gives; `Infer`
  of `ColAuto` is not consulted (the outcome is the same for every `infer2`).
* After that, every block whose declared column count differs from `n` fails
  with the column-count mismatch error, reader and `Results` untouched.

The entries of `Results` are the columns appended by the first block, one fresh
column per wire column, hence pairwise distinct objects. -/
theorem auto_stream {κ : Type} [Result κ] (conflicts : ColumnType → ColumnType → Bool)
    (infer : ColumnType → Res κ) (cols : List (StreamColumn κ)) (rows1 rows2 : ℤ)
    (info1 info2 : BlockInfo) (rest1 rest2 : Reader) (hne : cols ≠ [])
    (hcols : ∀ c ∈ cols, c.Name.length < 2 ^ 63 ∧ c.Type_.length < 2 ^ 63 ∧
      Result.InferDecodes infer rows1 c.Type_ c.First c.AfterFirst ∧
      Result.Redecodes conflicts rows2 c.Type_ c.AfterFirst c.Second c.AfterSecond) :
    autoResults.DecodeResult conflicts infer []
        (wireColumns (cols.map (fun c => (c.Name, c.Type_, c.First))) ++ rest1)
        ⟨info1, (cols.length : ℤ), rows1⟩
      = (none, cols.map (fun c => (⟨c.Name, c.AfterFirst⟩ : ResultColumn κ)), rest1) ∧
    (∀ infer2 : ColumnType → Res κ,
      autoResults.DecodeResult conflicts infer2
          (cols.map (fun c => (⟨c.Name, c.AfterFirst⟩ : ResultColumn κ)))
          (wireColumns (cols.map (fun c => (c.Name, c.Type_, c.Second))) ++ rest2)
          ⟨info2, (cols.length : ℤ), rows2⟩
        = (none, cols.map (fun c => (⟨c.Name, c.AfterSecond⟩ : ResultColumn κ)), rest2)) ∧
    ∀ (infer3 : ColumnType → Res κ) (b3 : Block) (r3 : Reader),
      b3.Columns ≠ (cols.length : ℤ) →
      autoResults.DecodeResult conflicts infer3
          (cols.map (fun c => (⟨c.Name, c.AfterSecond⟩ : ResultColumn κ))) r3 b3
        = (some (.columnsMismatch b3.Columns (cols.length : ℤ)),
            cols.map (fun c => (⟨c.Name, c.AfterSecond⟩ : ResultColumn κ)), r3) := by
  have hpos : 0 < cols.length := List.length_pos.mpr hne
  refine ⟨?_, ?_, ?_⟩
  · have h := decodeAutoColumns_cols infer rows1 cols 0 rest1 []
      (fun c hc => ⟨(hcols c hc).1, (hcols c hc).2.1, (hcols c hc).2.2.1⟩)
    simp only [List.nil_append] at h
    simp only [autoResults.DecodeResult, Results.decodeAuto, List.length_nil, gt_iff_lt,
      Nat.lt_irrefl, if_false, Int.toNat_ofNat]
    exact h
  · intro infer2
    have h := decodeResultColumns_cols conflicts rows2 cols [] rest2
      (fun c hc => ⟨(hcols c hc).1, (hcols c hc).2.1, (hcols c hc).2.2.2⟩)
    simp only [List.nil_append, List.length_nil] at h
    have hz : decide (cols.length = 0) = false := decide_eq_false (by omega)
    simp only [autoResults.DecodeResult, Results.decodeAuto, List.length_map, gt_iff_lt, hpos,
      if_true, Results.DecodeResult, hz, ne_eq, not_true_eq_false, decide_False, Bool.false_and,
      Bool.false_eq_true, if_false, Int.toNat_ofNat]
    exact h
  · intro infer3 b3 r3 hb
    have hm : (decide (b3.Columns ≠ (cols.length : ℤ))
        && !(decide (cols.length = 0) && decide (b3.Rows = 0))) = true := by
      have : ¬ cols.length = 0 := by omega
      simp [hb, this]
    simp only [autoResults.DecodeResult, Results.decodeAuto, List.length_map, gt_iff_lt, hpos,
      if_true, Results.DecodeResult, hm]

/-- C8, at a concrete stream: two columns `"x"` and `"y"` of type `"UInt8"`; a
first block of three rows, a second block of two rows, and a third block
declaring one column. -/
theorem auto_stream_witness :
    autoResults.DecodeResult ColumnType.Conflicts ColAuto.Infer []
        (wireColumns [([120], ColumnTypeUInt8, [1, 2, 3]), ([121], ColumnTypeUInt8, [7, 8, 9])]
          ++ [42])
        ⟨⟨false, 0⟩, 2, 3⟩
      = (none, [(⟨[120], ⟨[1, 2, 3]⟩⟩ : ResultColumn ColumnUInt8), ⟨[121], ⟨[7, 8, 9]⟩⟩], [42]) ∧
    autoResults.DecodeResult ColumnType.Conflicts ColAuto.Infer
        [(⟨[120], ⟨[1, 2, 3]⟩⟩ : ResultColumn ColumnUInt8), ⟨[121], ⟨[7, 8, 9]⟩⟩]
        (wireColumns [([120], ColumnTypeUInt8, [4, 5]), ([121], ColumnTypeUInt8, [6, 6])] ++ [])
        ⟨⟨false, 0⟩, 2, 2⟩
      = (none, [(⟨[120], ⟨[4, 5]⟩⟩ : ResultColumn ColumnUInt8), ⟨[121], ⟨[6, 6]⟩⟩], []) ∧
    autoResults.DecodeResult ColumnType.Conflicts ColAuto.Infer
        [(⟨[120], ⟨[4, 5]⟩⟩ : ResultColumn ColumnUInt8), ⟨[121], ⟨[6, 6]⟩⟩]
        [1, 120, 5, 85, 73, 110, 116, 56, 1, 1] ⟨⟨false, 0⟩, 1, 2⟩
      = (some (.columnsMismatch 1 2),
          [(⟨[120], ⟨[4, 5]⟩⟩ : ResultColumn ColumnUInt8), ⟨[121], ⟨[6, 6]⟩⟩],
          [1, 120, 5, 85, 73, 110, 116, 56, 1, 1]) :=
  have h := auto_stream ColumnType.Conflicts ColAuto.Infer
    [(⟨[120], ColumnTypeUInt8, [1, 2, 3], ⟨[1, 2, 3]⟩, [4, 5], ⟨[4, 5]⟩⟩ :
        StreamColumn ColumnUInt8),
      ⟨[121], ColumnTypeUInt8, [7, 8, 9], ⟨[7, 8, 9]⟩, [6, 6], ⟨[6, 6]⟩⟩]
    3 2 ⟨false, 0⟩ ⟨false, 0⟩ [42] [] (by decide)
    (by
      intro c hc
      simp only [List.mem_cons, List.mem_singleton, List.not_mem_nil, or_false] at hc
      rcases hc with rfl | rfl <;>
        exact ⟨by decide, by decide,
          ColumnUInt8.InferDecodes _ _ _ ⟨[]⟩ _ (by decide) (by decide),
          ColumnUInt8.Redecodes _ _ _ _ _ (by decide) (by decide)⟩)
  ⟨h.1, h.2.1 ColAuto.Infer,
    h.2.2 ColAuto.Infer ⟨⟨false, 0⟩, 1, 2⟩ [1, 120, 5, 85, 73, 110, 116, 56, 1, 1] (by decide)⟩

/-! ## `Compression.Encode` -/

/-- C15. For every buffer, `Compression.Encode` appends exactly one octet and
leaves the earlier contents as they were: the octet 0 for `CompressionDisabled`
and the octet 1 for `CompressionEnabled`. -/
theorem Compression_Encode_octet (b : Buffer) :
    Compression.Encode CompressionDisabled b = b ++ [0] ∧
    Compression.Encode CompressionEnabled b = b ++ [1] := by
  constructor <;> rfl

/-! ## `BlockInfo`: the bucket number on the wire -/

/-- C19. For every bucket number `x` of a `BlockInfo` (and every flag), decoding
the octets written by `BlockInfo.Encode` succeeds and yields the bucket number
`int32 x`; that value is congruent to `x` modulo `2^32` and lies in
`[-2^31, 2^31 - 1]`; it equals `x` if and only if `x` lies in that range, and
the call reports no error when it does not. -/
theorem BlockInfo_BucketNum_int32 (o : Bool) (x : ℤ) (j : BlockInfo) (rest : Reader) :
    BlockInfo.Decode j (BlockInfo.Encode ⟨o, x⟩ [] ++ rest) = (none, ⟨o, int32 x⟩, rest) ∧
    (int32 x - x) % 2 ^ 32 = 0 ∧ (-2 ^ 31 ≤ int32 x ∧ int32 x ≤ 2 ^ 31 - 1) ∧
    (int32 x = x ↔ (-2 ^ 31 ≤ x ∧ x ≤ 2 ^ 31 - 1)) := by
  refine ⟨?_, ?_, ?_, ?_⟩
  · have hlen : ∃ n, (BlockInfo.Encode ⟨o, x⟩ [] ++ rest).length + 1 = n + 3 := by
      refine ⟨rest.length + 6, ?_⟩
      simp [BlockInfo.Encode, Buffer.PutUVarInt, Buffer.PutBool, Buffer.PutUInt8,
        Buffer.PutInt32, uvarintBytes, blockInfoOverflows, blockInfoBucketNum, endField]
    obtain ⟨n, hn⟩ := hlen
    rw [BlockInfo.Decode, hn, BlockInfo.decodeLoop_Encode]
  · unfold int32; omega
  · unfold int32; omega
  · unfold int32; constructor <;> intro h <;> omega

/-! ## `Block.EncodeBlock` -/

/-- The loop of `Block.EncodeBlock` returns an error exactly when some column
has a row count other than `b.Rows`. -/
theorem encodeColumns_error_iff {ι : Type} [Input ι] (b : Block) :
    ∀ (input : List (InputColumn ι)) (buf : Buffer),
      (Block.encodeColumns b input buf).1 ≠ none ↔
        ∃ col ∈ input, Input.Rows col.Data ≠ b.Rows := by
  intro input
  induction input with
  | nil => intro buf; simp [Block.encodeColumns]
  | cons col input ih =>
    intro buf
    by_cases h : Input.Rows col.Data ≠ b.Rows
    · rw [Block.encodeColumns, if_pos h]
      exact ⟨fun _ => ⟨col, List.mem_cons_self _ _, h⟩, fun _ => by simp⟩
    · rw [Block.encodeColumns, if_neg h, ih]
      constructor
      · rintro ⟨c, hc, hbad⟩
        exact ⟨c, List.mem_cons_of_mem _ hc, hbad⟩
      · rintro ⟨c, hc, hbad⟩
        rcases List.mem_cons.mp hc with rfl | hc
        · exact absurd hbad h
        · exact ⟨c, hc, hbad⟩

/-- The loop of `Block.EncodeBlock` stops at the first column whose row count
is not `b.Rows`, with the error that carries the name and the row count of that
column and the expected count. -/
theorem encodeColumns_first {ι : Type} [Input ι] (b : Block) :
    ∀ (pre : List (InputColumn ι)) (col : InputColumn ι) (suf : List (InputColumn ι))
      (buf : Buffer), (∀ c ∈ pre, Input.Rows c.Data = b.Rows) →
      Input.Rows col.Data ≠ b.Rows →
      (Block.encodeColumns b (pre ++ col :: suf) buf).1
        = some (.rowsMismatch col.Name (Input.Rows col.Data) b.Rows) := by
  intro pre
  induction pre with
  | nil => intro col suf buf _ hbad; rw [List.nil_append, Block.encodeColumns, if_pos hbad]
  | cons c pre ih =>
    intro col suf buf hpre hbad
    have hc : ¬ Input.Rows c.Data ≠ b.Rows := by
      simpa using hpre c (List.mem_cons_self _ _)
    rw [List.cons_append, Block.encodeColumns, if_neg hc]
    exact ih col suf _ (fun d hd => hpre d (List.mem_cons_of_mem _ hd)) hbad

/-- C11. For every block `b`, revision, buffer and list of input columns (of any
column implementation), `Block.EncodeBlock` returns an error if and only if
some input column's `Rows()` differs from `b.Rows`; when every column has
`b.Rows` rows it returns success; and when `col` is the first column in list
order whose `Rows()` differs, the error is the one that carries `col.Name`,
that column's row count and the expected count `b.Rows`. -/
theorem EncodeBlock_error_iff {ι : Type} [Input ι] (FeatureBlockInfo : ℤ) (b : Block)
    (buf : Buffer) (version : ℤ) (input : List (InputColumn ι)) :
    ((Block.EncodeBlock FeatureBlockInfo b buf version input).1 ≠ none ↔
      ∃ col ∈ input, Input.Rows col.Data ≠ b.Rows) ∧
    ((∀ col ∈ input, Input.Rows col.Data = b.Rows) →
      (Block.EncodeBlock FeatureBlockInfo b buf version input).1 = none) ∧
    (∀ (pre : List (InputColumn ι)) (col : InputColumn ι) (suf : List (InputColumn ι)),
      input = pre ++ col :: suf → (∀ c ∈ pre, Input.Rows c.Data = b.Rows) →
      Input.Rows col.Data ≠ b.Rows →
      (Block.EncodeBlock FeatureBlockInfo b buf version input).1
        = some (.rowsMismatch col.Name (Input.Rows col.Data) b.Rows)) := by
  refine ⟨encodeColumns_error_iff b input _, ?_, ?_⟩
  · intro hall
    by_contra hne
    obtain ⟨c, hc, hbad⟩ := (encodeColumns_error_iff b input _).mp hne
    exact hbad (hall c hc)
  · intro pre col suf hin hpre hbad
    subst hin
    exact encodeColumns_first b pre col suf _ hpre hbad

/-- C11, at a concrete input: expected two rows; columns `"a"` (two rows), `"b"`
(one row), `"c"` (no rows). The error names `"b"`, its one row and the expected
two. With `"a"` alone the call succeeds. -/
theorem EncodeBlock_error_iff_witness :
    (Block.EncodeBlock 0 ⟨⟨false, 0⟩, 3, 2⟩ [] 0
        [(⟨[97], ⟨[1, 2]⟩⟩ : InputColumn ColumnUInt8), ⟨[98], ⟨[1]⟩⟩, ⟨[99], ⟨[]⟩⟩]).1
      = some (.rowsMismatch [98] 1 2) ∧
    (Block.EncodeBlock 0 ⟨⟨false, 0⟩, 1, 2⟩ [] 0
        [(⟨[97], ⟨[1, 2]⟩⟩ : InputColumn ColumnUInt8)]).1 = none :=
  ⟨(EncodeBlock_error_iff 0 ⟨⟨false, 0⟩, 3, 2⟩ [] 0
      [(⟨[97], ⟨[1, 2]⟩⟩ : InputColumn ColumnUInt8), ⟨[98], ⟨[1]⟩⟩, ⟨[99], ⟨[]⟩⟩]).2.2
      [⟨[97], ⟨[1, 2]⟩⟩] ⟨[98], ⟨[1]⟩⟩ [⟨[99], ⟨[]⟩⟩] rfl (by decide) (by decide),
   (EncodeBlock_error_iff 0 ⟨⟨false, 0⟩, 1, 2⟩ [] 0
      [(⟨[97], ⟨[1, 2]⟩⟩ : InputColumn ColumnUInt8)]).2.1 (by decide)⟩

theorem BlockInfo.Encode_append (i : BlockInfo) (buf : Buffer) :
    i.Encode buf = buf ++ i.Encode [] := by
  simp [BlockInfo.Encode, Buffer.PutUVarInt, Buffer.PutBool, Buffer.PutUInt8, Buffer.PutInt32]

theorem EncodeStart_append {ι : Type} [Input ι] (c : InputColumn ι) (buf : Buffer) :
    c.EncodeStart buf
      = buf ++ (Buffer.PutString [] c.Name ++ Buffer.PutString [] (Input.Type_ c.Data)) := by
  rw [InputColumn.EncodeStart, PutString_eq (buf.PutString c.Name), PutString_eq buf,
    List.append_assoc]

/-- The octets the loop of `Block.EncodeBlock` appends when every column has
`b.Rows` rows. -/
theorem encodeColumns_bytes {ι : Type} [Input ι] (b : Block)
    (happ : ∀ (d : ι) (bf : Buffer), Input.EncodeColumn d bf = bf ++ Input.EncodeColumn d []) :
    ∀ (input : List (InputColumn ι)) (buf : Buffer),
      (∀ col ∈ input, Input.Rows col.Data = b.Rows) →
      Block.encodeColumns b input buf
        = (none, buf ++ wireColumns
            (input.map (fun c => (c.Name, Input.Type_ c.Data, Input.EncodeColumn c.Data [])))) := by
  intro input
  induction input with
  | nil => intro buf _; simp [Block.encodeColumns, wireColumns]
  | cons c input ih =>
    intro buf h
    have hc : ¬ Input.Rows c.Data ≠ b.Rows := by
      simpa using h c (List.mem_cons_self _ _)
    rw [Block.encodeColumns, if_neg hc, ih _ (fun d hd => h d (List.mem_cons_of_mem _ hd)), happ,
      EncodeStart_append]
    simp only [List.map_cons, wireColumns, wireColumn_eq, List.append_assoc]

theorem EncodeAware_bytes (FeatureBlockInfo : ℤ) (b : Block) (buf : Buffer) (version : ℤ) :
    b.EncodeAware FeatureBlockInfo buf version
      = buf ++ ((if Feature.In FeatureBlockInfo version then b.Info.Encode [] else []) ++
          (Buffer.PutInt [] b.Columns ++ Buffer.PutInt [] b.Rows)) := by
  unfold Block.EncodeAware
  split
  · simp only []
    rw [PutInt_eq ((b.Info.Encode buf).PutInt b.Columns), PutInt_eq (b.Info.Encode buf),
      BlockInfo.Encode_append]
    simp only [List.append_assoc]
  · simp only []
    rw [PutInt_eq (buf.PutInt b.Columns), PutInt_eq buf]
    simp only [List.append_assoc, List.nil_append]

/-- C12. For every block `b`, revision `v`, buffer and input columns that all
have `b.Rows` rows (of a column implementation whose `EncodeColumn` appends to
the buffer), `Block.EncodeBlock` succeeds and the buffer afterwards is the
buffer before followed by exactly: the `BlockInfo` encoding of `b.Info` if the
block-info feature is supported at `v` and nothing otherwise, `b.Columns` as an
int, `b.Rows` as an int, and for each input column in list order its name and
its `Type()` as length-prefixed strings and its `EncodeColumn` payload. -/
theorem EncodeBlock_bytes {ι : Type} [Input ι] (FeatureBlockInfo : ℤ) (b : Block)
    (buf : Buffer) (version : ℤ) (input : List (InputColumn ι))
    (happ : ∀ (d : ι) (bf : Buffer), Input.EncodeColumn d bf = bf ++ Input.EncodeColumn d [])
    (hrows : ∀ col ∈ input, Input.Rows col.Data = b.Rows) :
    Block.EncodeBlock FeatureBlockInfo b buf version input
      = (none, buf ++ ((if Feature.In FeatureBlockInfo version then b.Info.Encode [] else []) ++
          (Buffer.PutInt [] b.Columns ++ (Buffer.PutInt [] b.Rows ++ wireColumns
            (input.map
              (fun c => (c.Name, Input.Type_ c.Data, Input.EncodeColumn c.Data []))))))) := by
  rw [Block.EncodeBlock, encodeColumns_bytes b happ input _ hrows, EncodeAware_bytes]
  simp only [List.append_assoc]

theorem ColumnUInt8.EncodeColumn_append (d : ColumnUInt8) (bf : Buffer) :
    Input.EncodeColumn d bf = bf ++ Input.EncodeColumn d [] := by
  show d.EncodeColumn bf = bf ++ d.EncodeColumn []
  rw [ColumnUInt8.EncodeColumn_eq, ColumnUInt8.EncodeColumn_eq, List.nil_append]

/-- C12, at a concrete input: a buffer that already holds the octet 9, one
column `"x"` with rows `[1, 2, 3]`; with block info (threshold 5, revision 7)
and without (revision 3). -/
theorem EncodeBlock_bytes_witness :
    Block.EncodeBlock 5 ⟨⟨true, -5⟩, 1, 3⟩ [9] 7 [(⟨[120], ⟨[1, 2, 3]⟩⟩ : InputColumn ColumnUInt8)]
      = (none, [9, 1, 1, 2, 251, 255, 255, 255, 0, 1, 3, 1, 120, 5, 85, 73, 110, 116, 56,
          1, 2, 3]) ∧
    Block.EncodeBlock 5 ⟨⟨true, -5⟩, 1, 3⟩ [9] 3 [(⟨[120], ⟨[1, 2, 3]⟩⟩ : InputColumn ColumnUInt8)]
      = (none, [9, 1, 3, 1, 120, 5, 85, 73, 110, 116, 56, 1, 2, 3]) :=
  ⟨EncodeBlock_bytes 5 ⟨⟨true, -5⟩, 1, 3⟩ [9] 7 [(⟨[120], ⟨[1, 2, 3]⟩⟩ : InputColumn ColumnUInt8)]
      ColumnUInt8.EncodeColumn_append (by decide),
   EncodeBlock_bytes 5 ⟨⟨true, -5⟩, 1, 3⟩ [9] 3 [(⟨[120], ⟨[1, 2, 3]⟩⟩ : InputColumn ColumnUInt8)]
      ColumnUInt8.EncodeColumn_append (by decide)⟩

/-! ## `BlockInfo.Decode`: the tags -/

/-- One iteration of the decode loop that reads a field hands over to
`BlockInfo.Decode` on the rest of the input. -/
theorem BlockInfo.decodeLoop_Decode (i : BlockInfo) (r r2 : Reader) (h : r2.length < r.length) :
    BlockInfo.decodeLoop r.length i r2 = BlockInfo.Decode i r2 :=
  BlockInfo.decodeLoop_fuel _ _ _ _ h (Nat.lt_succ_self _)

/-- Decoding an input that starts with a well-formed tag-1 field is decoding the
rest of the input with the flag assigned. -/
theorem BlockInfo.Decode_overflows (i : BlockInfo) (r r1 r2 : Reader) (v : Bool)
    (hu : r.UVarInt = (.ok blockInfoOverflows, r1)) (hb : r1.Bool = (.ok v, r2)) :
    BlockInfo.Decode i r = BlockInfo.Decode { i with Overflows := v } r2 := by
  have hl := Nat.lt_trans (Bool_length _ _ _ hb) (UVarInt_length _ _ _ hu)
  rw [BlockInfo.Decode, BlockInfo.decodeLoop, hu]
  simp only [if_true]
  rw [hb]
  exact BlockInfo.decodeLoop_Decode _ _ _ hl

/-- Decoding an input that starts with a well-formed tag-2 field is decoding the
rest of the input with the bucket number assigned. -/
theorem BlockInfo.Decode_bucketNum (i : BlockInfo) (r r1 r2 : Reader) (v : ℤ)
    (hu : r.UVarInt = (.ok blockInfoBucketNum, r1)) (hb : r1.Int32 = (.ok v, r2)) :
    BlockInfo.Decode i r = BlockInfo.Decode { i with BucketNum := v } r2 := by
  have hl := Nat.lt_trans (Int32_length _ _ _ hb) (UVarInt_length _ _ _ hu)
  rw [BlockInfo.Decode, BlockInfo.decodeLoop, hu]
  simp only [blockInfoBucketNum, blockInfoOverflows, OfNat.ofNat_ne_one, if_false, if_true]
  rw [hb]
  exact BlockInfo.decodeLoop_Decode _ _ _ hl

/-- C13. For every input to `BlockInfo.Decode`: if the input starts with any
number of well-formed tag-1 (bool) and tag-2 (int32) fields and the tag read
next is `f`, then
* if `f` is 0, decoding succeeds at that point, with the fields assigned and the
  reader right after the tag;
* if `f` is none of 0, 1, 2, decoding returns the unknown-field error carrying
  `f`; the tag is not skipped: the reader stops right after it. -/
theorem BlockInfo_Decode_tags (i i1 : BlockInfo) (r r1 r2 : Reader) (f : ℕ)
    (hf : BlockInfo.Fields i r i1 r1) (ht : r1.UVarInt = (.ok f, r2)) :
    (f = 0 → BlockInfo.Decode i r = (none, i1, r2)) ∧
    ((f ≠ 0 ∧ f ≠ 1 ∧ f ≠ 2) → BlockInfo.Decode i r = (some (.unknownField f), i1, r2)) := by
  induction hf with
  | done i r =>
    constructor
    · intro h0
      subst h0
      simp [BlockInfo.Decode, BlockInfo.decodeLoop, ht, blockInfoOverflows, blockInfoBucketNum,
        endField]
    · rintro ⟨h0, h1, h2⟩
      simp [BlockInfo.Decode, BlockInfo.decodeLoop, ht, blockInfoOverflows, blockInfoBucketNum,
        endField, h0, h1, h2]
  | overflows hu hb _ ih =>
    rw [BlockInfo.Decode_overflows _ _ _ _ _ hu hb]
    exact ih ht
  | bucketNum hu hb _ ih =>
    rw [BlockInfo.Decode_bucketNum _ _ _ _ _ hu hb]
    exact ih ht

/-- C13, at concrete inputs: the fields (tag 1, true) and (tag 2, 7) followed by
the tag 0 and one more octet decode successfully and leave that octet; the same
fields followed by the tag 3 give the unknown-field error for 3. -/
theorem BlockInfo_Decode_tags_witness :
    BlockInfo.Decode ⟨false, 0⟩ [1, 1, 2, 7, 0, 0, 0, 0, 99] = (none, ⟨true, 7⟩, [99]) ∧
    BlockInfo.Decode ⟨false, 0⟩ [1, 1, 2, 7, 0, 0, 0, 3, 99]
      = (some (.unknownField 3), ⟨true, 7⟩, [99]) :=
  ⟨(BlockInfo_Decode_tags ⟨false, 0⟩ ⟨true, 7⟩ [1, 1, 2, 7, 0, 0, 0, 0, 99] [0, 99] [99] 0
      (@BlockInfo.Fields.overflows ⟨false, 0⟩ ⟨true, 7⟩ [1, 1, 2, 7, 0, 0, 0, 0, 99]
        [1, 2, 7, 0, 0, 0, 0, 99] [2, 7, 0, 0, 0, 0, 99] [0, 99] true (by decide) (by decide)
        (@BlockInfo.Fields.bucketNum ⟨true, 0⟩ ⟨true, 7⟩ [2, 7, 0, 0, 0, 0, 99]
          [7, 0, 0, 0, 0, 99] [0, 99] [0, 99] 7 (by decide) (by decide)
          (BlockInfo.Fields.done ⟨true, 7⟩ [0, 99])))
      (by decide)).1 rfl,
   (BlockInfo_Decode_tags ⟨false, 0⟩ ⟨true, 7⟩ [1, 1, 2, 7, 0, 0, 0, 3, 99] [3, 99] [99] 3
      (@BlockInfo.Fields.overflows ⟨false, 0⟩ ⟨true, 7⟩ [1, 1, 2, 7, 0, 0, 0, 3, 99]
        [1, 2, 7, 0, 0, 0, 3, 99] [2, 7, 0, 0, 0, 3, 99] [3, 99] true (by decide) (by decide)
        (@BlockInfo.Fields.bucketNum ⟨true, 0⟩ ⟨true, 7⟩ [2, 7, 0, 0, 0, 3, 99]
          [7, 0, 0, 0, 3, 99] [3, 99] [3, 99] 7 (by decide) (by decide)
          (BlockInfo.Fields.done ⟨true, 7⟩ [3, 99])))
      (by decide)).2 (by decide)⟩

/-! ## Strict mode of `Results` against the raw block path -/

theorem set_self_of_getElem? {α : Type} : ∀ (l : List α) (i : Nat) (x : α),
    l[i]? = some x → l.set i x = l := by
  intro l
  induction l with
  | nil => intro i x h; simp at h
  | cons a l ih =>
    intro i x h
    cases i with
    | zero => simp at h; simp [h]
    | succ i => simp at h; simp [ih i x h]

/-- Decoding zero rows into a column that was just reset reads nothing and
leaves the column reset. -/
theorem ColumnUInt8.DecodeColumn_zero (c : ColumnUInt8) (r : Reader) :
    Result.DecodeColumn (Result.Reset c : ColumnUInt8) r 0 = (none, Result.Reset c, r) := by
  show (c.Reset).DecodeColumn r 0 = (none, c.Reset, r)
  simp [ColumnUInt8.DecodeColumn, Reader.ReadRaw, ColumnUInt8.Reset]

/-- On a target of UInt8 columns whose names from index `i` on are not empty,
the column loop of `Block.DecodeRawBlock` and the column loop of
`Results.DecodeResult` give the same error, the same columns and the same
reader. -/
theorem decodeColumns_eq_decodeResultColumns (conflicts : ColumnType → ColumnType → Bool)
    (rows : ℤ) (noTarget : Bool) :
    ∀ (n i : Nat) (r : Reader) (s : List (ResultColumn ColumnUInt8)),
      (∀ j t, i ≤ j → s[j]? = some t → t.Name ≠ []) →
      Block.decodeColumns conflicts rows noTarget n i r s
        = Results.decodeResultColumns conflicts rows noTarget n i r s := by
  intro n
  induction n with
  | zero => intro i r s _; rfl
  | succ n ih =>
    intro i r s hs
    have hset : ∀ x : ResultColumn ColumnUInt8,
        ∀ j t, i + 1 ≤ j → (s.set i x)[j]? = some t → t.Name ≠ [] := by
      intro x j t hj ht
      have hij : i ≠ j := by omega
      rw [List.getElem?_set_ne hij] at ht
      exact hs j t (by omega) ht
    rw [Block.decodeColumns, Results.decodeResultColumns]
    rcases r.Str with ⟨columnName | e, r1⟩
    swap
    · rfl
    simp only []
    rcases r1.Str with ⟨columnType | e, r2⟩
    swap
    · rfl
    simp only []
    by_cases hnt : noTarget = true
    · subst hnt
      simp only [if_true]
      exact ih (i + 1) r2 s (fun j t (hj : i + 1 ≤ j) ht => hs j t (by omega) ht)
    have hf : noTarget = false := by simpa using hnt
    subst hf
    simp only [Bool.false_eq_true, if_false]
    rcases hti : s[i]? with _ | t0
    · rfl
    have hname : t0.Name ≠ [] := hs i t0 (Nat.le_refl i) hti
    have hself : s.set i t0 = s := set_self_of_getElem? s i t0 hti
    have hinf : Result.asInferColumn t0.Data = none := rfl
    have hst : ∀ d : ColumnUInt8, Result.asStateDecoder d = none := fun _ => rfl
    simp only [hname, if_false, hinf, hself, List.set_set, hst]
    by_cases hn : t0.Name = columnName
    swap
    · simp only [ne_eq, hn, not_false_eq_true, if_true]
    simp only [ne_eq, hn, not_true_eq_false, if_false]
    by_cases hc : conflicts columnType (Result.Type_ t0.Data) = true
    · simp only [hc, if_true]
    simp only [hc, Bool.false_eq_true, if_false]
    by_cases h0 : rows = 0
    · subst h0
      simp only [ColumnUInt8.DecodeColumn_zero, if_true]
      exact ih _ _ _ (hset _)
    simp only [h0, if_false]
    rcases Result.DecodeColumn (Result.Reset t0.Data) r2 rows with ⟨_ | e, d, r3⟩
    · simp only []
      exact ih _ _ _ (hset _)
    · rfl

/-- C17. For every target of `ColumnUInt8` columns with non-empty names (the
non-empty targets of the claim among them) and every wire input whose leading
counts `c` and `v` are in range and not both zero (`r2` the input after the two
counts): `Block.DecodeRawBlock` on the whole input and
`Results(target).DecodeResult` on `r2` with `Block{Columns: c, Rows: v}` return
the same error or both succeed, leave the same target columns and leave the
reader at the same place, also when `v = 0`. -/
theorem DecodeRawBlock_eq_DecodeResult (conflicts : ColumnType → ColumnType → Bool)
    (b : Block) (r r1 r2 : Reader) (target : List (ResultColumn ColumnUInt8)) (c v : ℤ)
    (h1 : r.Int = (.ok c, r1)) (h2 : r1.Int = (.ok v, r2))
    (hc : 0 ≤ c ∧ c ≤ 1000000) (hv : 0 ≤ v ∧ v ≤ 1000000) (hnt : ¬ (c = 0 ∧ v = 0))
    (hnames : ∀ t ∈ target, t.Name ≠ []) :
    ((Block.DecodeRawBlock conflicts b r target).err,
      (Block.DecodeRawBlock conflicts b r target).target,
      (Block.DecodeRawBlock conflicts b r target).r)
      = Results.DecodeResult conflicts target r2 ⟨b.Info, c, v⟩ := by
  by_cases hmis : c ≠ (target.length : ℤ) ∧ ¬ (target.length = 0 ∧ v = 0)
  · rw [DecodeRawBlock_mismatch conflicts b r r1 r2 target c v h1 h2 hc hv hnt hmis]
    have hm : (decide (c ≠ (target.length : ℤ))
        && !(decide (target.length = 0) && decide (v = 0))) = true := by
      simp only [Bool.and_eq_true, decide_eq_true_eq, Bool.not_eq_true', Bool.and_eq_false_imp]
      exact ⟨hmis.1, fun h0 => by simpa using fun h3 => hmis.2 ⟨h0, h3⟩⟩
    simp only [Results.DecodeResult, hm, if_true]
  · rw [DecodeRawBlock_loop conflicts b r r1 r2 target c v h1 h2 hc hv hnt hmis]
    have hm : (decide (c ≠ (target.length : ℤ))
        && !(decide (target.length = 0) && decide (v = 0))) = false := by
      rw [Bool.eq_false_iff]
      intro hm
      apply hmis
      simp only [Bool.and_eq_true, decide_eq_true_eq, Bool.not_eq_true', Bool.and_eq_false_imp]
        at hm
      exact ⟨hm.1, fun h => by have := hm.2 h.1; simp [h.2] at this⟩
    simp only [Results.DecodeResult, hm, Bool.false_eq_true, if_false]
    exact decodeColumns_eq_decodeResultColumns conflicts v _ _ 0 r2 target
      (fun j t _ ht => hnames t (List.getElem?_mem ht))

/-- C17, at concrete inputs: one column `"x"` against the target `[{"x", …}]`,
with three rows (both paths succeed and leave `[1, 2, 3]`), with no rows (both
succeed and leave the column empty), and with a short payload (both fail
alike). -/
theorem DecodeRawBlock_eq_DecodeResult_witness :
    Results.DecodeResult ColumnType.Conflicts [(⟨[120], ⟨[9, 9]⟩⟩ : ResultColumn ColumnUInt8)]
        [1, 120, 5, 85, 73, 110, 116, 56, 1, 2, 3] ⟨⟨false, 0⟩, 1, 3⟩
      = (none, [⟨[120], ⟨[1, 2, 3]⟩⟩], []) ∧
    Results.DecodeResult ColumnType.Conflicts [(⟨[120], ⟨[9, 9]⟩⟩ : ResultColumn ColumnUInt8)]
        [1, 120, 5, 85, 73, 110, 116, 56] ⟨⟨false, 0⟩, 1, 0⟩
      = (none, [⟨[120], ⟨[]⟩⟩], []) ∧
    Results.DecodeResult ColumnType.Conflicts [(⟨[120], ⟨[9, 9]⟩⟩ : ResultColumn ColumnUInt8)]
        [1, 120, 5, 85, 73, 110, 116, 56, 1] ⟨⟨false, 0⟩, 1, 3⟩
      = (some (.wrapName (.wrap .unexpectedEOF .read) [120]), [⟨[120], ⟨[]⟩⟩], []) :=
  ⟨(DecodeRawBlock_eq_DecodeResult ColumnType.Conflicts ⟨⟨false, 0⟩, 0, 0⟩
      [1, 3, 1, 120, 5, 85, 73, 110, 116, 56, 1, 2, 3]
      [3, 1, 120, 5, 85, 73, 110, 116, 56, 1, 2, 3] [1, 120, 5, 85, 73, 110, 116, 56, 1, 2, 3]
      [(⟨[120], ⟨[9, 9]⟩⟩ : ResultColumn ColumnUInt8)] 1 3 (by decide) (by decide) (by decide)
      (by decide) (by decide) (by decide)).symm.trans (by decide),
   (DecodeRawBlock_eq_DecodeResult ColumnType.Conflicts ⟨⟨false, 0⟩, 0, 0⟩
      [1, 0, 1, 120, 5, 85, 73, 110, 116, 56]
      [0, 1, 120, 5, 85, 73, 110, 116, 56] [1, 120, 5, 85, 73, 110, 116, 56]
      [(⟨[120], ⟨[9, 9]⟩⟩ : ResultColumn ColumnUInt8)] 1 0 (by decide) (by decide) (by decide)
      (by decide) (by decide) (by decide)).symm.trans (by decide),
   (DecodeRawBlock_eq_DecodeResult ColumnType.Conflicts ⟨⟨false, 0⟩, 0, 0⟩
      [1, 3, 1, 120, 5, 85, 73, 110, 116, 56, 1]
      [3, 1, 120, 5, 85, 73, 110, 116, 56, 1] [1, 120, 5, 85, 73, 110, 116, 56, 1]
      [(⟨[120], ⟨[9, 9]⟩⟩ : ResultColumn ColumnUInt8)] 1 3 (by decide) (by decide) (by decide)
      (by decide) (by decide) (by decide)).symm.trans (by decide)⟩

/-! ## `Block.EncodeBlock` followed by `Block.DecodeBlock` -/

/-- Decoding an encoded `BlockInfo` followed by any input: success, the flag as
written and the bucket number as the 32-bit field carries it. -/
theorem BlockInfo.Decode_Encode (i j : BlockInfo) (rest : Reader) :
    BlockInfo.Decode j (i.Encode [] ++ rest)
      = (none, { Overflows := i.Overflows, BucketNum := int32 i.BucketNum }, rest) := by
  have hlen : ∃ n, (i.Encode [] ++ rest).length + 1 = n + 3 := by
    refine ⟨rest.length + 6, ?_⟩
    simp [BlockInfo.Encode, Buffer.PutUVarInt, Buffer.PutBool, Buffer.PutUInt8,
      Buffer.PutInt32, uvarintBytes, blockInfoOverflows, blockInfoBucketNum, endField]
  obtain ⟨n, hn⟩ := hlen
  rw [BlockInfo.Decode, hn, BlockInfo.decodeLoop_Encode]

/-- Reading a raw block of well-formed UInt8 columns: `cs` pairs every target
column with its payload on the wire. -/
theorem DecodeRawBlock_wire (conflicts : ColumnType → ColumnType → Bool)
    (hc : conflicts ColumnTypeUInt8 ColumnTypeUInt8 = false) (b : Block)
    (cs : List (ResultColumn ColumnUInt8 × List Byte)) (rows : ℤ) (rest : Reader)
    (hne : cs ≠ []) (hn : cs.length ≤ 1000000) (hrows : 0 ≤ rows ∧ rows ≤ 1000000)
    (hcs : ∀ c ∈ cs, c.1.Name.length < 2 ^ 63 ∧ (c.2.length : ℤ) = rows) :
    Block.DecodeRawBlock conflicts b
        (Buffer.PutInt [] (cs.length : ℤ) ++ (Buffer.PutInt [] rows ++
          (wireColumns (cs.map (fun c => (c.1.Name, ColumnTypeUInt8, c.2))) ++ rest)))
        (cs.map Prod.fst)
      = ⟨none, { b with Columns := (cs.length : ℤ), Rows := rows },
          cs.map (fun c => (⟨c.1.Name, ⟨c.2⟩⟩ : ResultColumn ColumnUInt8)), rest⟩ := by
  have hpos : 0 < cs.length := List.length_pos.mpr hne
  have h1 := Int_put (cs.length : ℤ) (by omega) (Buffer.PutInt [] rows ++
    (wireColumns (cs.map (fun c => (c.1.Name, ColumnTypeUInt8, c.2))) ++ rest))
  have h2 := Int_put rows (by omega)
    (wireColumns (cs.map (fun c => (c.1.Name, ColumnTypeUInt8, c.2))) ++ rest)
  have hmis : ¬ ((cs.length : ℤ) ≠ ((cs.map Prod.fst).length : ℤ) ∧
      ¬ ((cs.map Prod.fst).length = 0 ∧ rows = 0)) := by
    simp
  rw [DecodeRawBlock_loop conflicts b _ _ _ (cs.map Prod.fst) (cs.length : ℤ) rows h1 h2
    (by omega) hrows (by omega) hmis]
  have hz : decide ((cs.map Prod.fst).length = 0) = false := by
    rw [List.length_map]
    exact decide_eq_false (by omega)
  have hloop := decodeColumns_uint8 conflicts hc rows cs [] rest hcs
  simp only [List.length_nil, List.nil_append] at hloop
  rw [hz, Int.toNat_ofNat, hloop]

/-- Pairing a target with the rows of input columns that carry the same names
in the same order. -/
theorem zip_same_names : ∀ (input : List (InputColumn ColumnUInt8))
    (target : List (ResultColumn ColumnUInt8)),
    target.map (fun t => t.Name) = input.map (fun c => c.Name) →
    (target.zip (input.map (fun c => c.Data.vals))).map Prod.fst = target ∧
    (target.zip (input.map (fun c => c.Data.vals))).length = input.length ∧
    (target.zip (input.map (fun c => c.Data.vals))).map
        (fun c => (c.1.Name, ColumnTypeUInt8, c.2))
      = input.map (fun c => (c.Name, ColumnTypeUInt8, c.Data.vals)) ∧
    (target.zip (input.map (fun c => c.Data.vals))).map
        (fun c => (⟨c.1.Name, ⟨c.2⟩⟩ : ResultColumn ColumnUInt8))
      = input.map (fun c => (⟨c.Name, c.Data⟩ : ResultColumn ColumnUInt8)) := by
  intro input
  induction input with
  | nil =>
    intro target h
    cases target with
    | nil => simp
    | cons t ts => simp at h
  | cons c input ih =>
    intro target h
    cases target with
    | nil => simp at h
    | cons t ts =>
      simp only [List.map_cons, List.cons.injEq] at h
      obtain ⟨h1, h2, h3, h4⟩ := ih ts h.2
      simp only [List.map_cons, List.zip_cons_cons, List.length_cons, h1, h2, h3, h4, h.1]
      exact ⟨trivial, trivial, trivial, trivial⟩

/-- Encoding a block and decoding it again, with the target columns seen as
values (each entry its own column object): for `n` named `ColumnUInt8` input
columns, `1 ≤ n ≤ 1,000,000`, all of `rows` rows, a bucket number in the signed
32-bit range and a target carrying the same names in the same order, the decode
succeeds, leaves exactly `rest` unread, gives `Columns`, `Rows` and, when block
info is supported at the revision, `Info`, and every target column gets the
rows of the input column at the same index. -/
theorem DecodeBlock_EncodeBlock_values (conflicts : ColumnType → ColumnType → Bool)
    (hcf : conflicts ColumnTypeUInt8 ColumnTypeUInt8 = false) (FeatureBlockInfo version : ℤ)
    (info : BlockInfo) (b0 : Block) (input : List (InputColumn ColumnUInt8))
    (target : List (ResultColumn ColumnUInt8)) (rows : ℤ) (rest : Reader)
    (hne : input ≠ []) (hn : input.length ≤ 1000000) (hrows : 0 ≤ rows ∧ rows ≤ 1000000)
    (hall : ∀ c ∈ input, Input.Rows c.Data = rows)
    (hbn : -2 ^ 31 ≤ info.BucketNum ∧ info.BucketNum < 2 ^ 31)
    (hnames : target.map (fun t => t.Name) = input.map (fun c => c.Name))
    (hlen : ∀ c ∈ input, c.Name.length < 2 ^ 63) :
    Block.DecodeBlock conflicts FeatureBlockInfo b0
        ((Block.EncodeBlock FeatureBlockInfo ⟨info, (input.length : ℤ), rows⟩ [] version input).2
          ++ rest) version target
      = ⟨none, ⟨if Feature.In FeatureBlockInfo version then info else b0.Info,
            (input.length : ℤ), rows⟩,
          input.map (fun c => (⟨c.Name, c.Data⟩ : ResultColumn ColumnUInt8)), rest⟩ := by
  have hmap : input.map (fun c => (c.Name, Input.Type_ c.Data, Input.EncodeColumn c.Data []))
      = input.map (fun c => (c.Name, ColumnTypeUInt8, c.Data.vals)) := by
    congr 1
    funext c
    show (c.Name, ColumnTypeUInt8, ColumnUInt8.EncodeColumn c.Data []) = _
    rw [ColumnUInt8.EncodeColumn_eq, List.nil_append]
  obtain ⟨z1, z2, z3, z4⟩ := zip_same_names input target hnames
  have hcs : ∀ c ∈ target.zip (input.map (fun c => c.Data.vals)),
      c.1.Name.length < 2 ^ 63 ∧ (c.2.length : ℤ) = rows := by
    intro c hc
    have hm := List.mem_map_of_mem (fun c => (c.1.Name, ColumnTypeUInt8, c.2)) hc
    rw [z3] at hm
    obtain ⟨a, ha, hae⟩ := List.mem_map.mp hm
    simp only [Prod.mk.injEq, true_and] at hae
    rw [← hae.1, ← hae.2]
    exact ⟨hlen a ha, hall a ha⟩
  have hzne : target.zip (input.map (fun c => c.Data.vals)) ≠ [] := by
    intro h
    rw [h] at z2
    exact hne (List.length_eq_zero.mp z2.symm)
  have hraw := fun b => DecodeRawBlock_wire conflicts hcf b
    (target.zip (input.map (fun c => c.Data.vals))) rows rest hzne (by omega) hrows hcs
  rw [z1, z2, z3, z4] at hraw
  have henc : (Block.EncodeBlock FeatureBlockInfo ⟨info, (input.length : ℤ), rows⟩ [] version
      input).2 = (if Feature.In FeatureBlockInfo version then info.Encode [] else []) ++
        (Buffer.PutInt [] (input.length : ℤ) ++ (Buffer.PutInt [] rows ++ wireColumns
          (input.map (fun c => (c.Name, ColumnTypeUInt8, c.Data.vals))))) := by
    rw [Block.EncodeBlock, encodeColumns_bytes _ ColumnUInt8.EncodeColumn_append input _ hall,
      EncodeAware_bytes, hmap]
    simp only [List.nil_append, List.append_assoc]
  rw [henc, Block.DecodeBlock]
  by_cases hf : Feature.In FeatureBlockInfo version = true
  · simp only [hf, if_true, List.append_assoc]
    rw [BlockInfo.Decode_Encode, int32_of_range _ hbn]
    simp only []
    exact hraw _
  · simp only [hf, Bool.false_eq_true, if_false, List.nil_append, List.append_assoc]
    exact hraw _

/-! ## `Results.decodeAuto`: what a failure leaves behind -/

/-- Running the column loop of `Results.decodeAuto` for `n + m` iterations is
running it for `n` iterations and, when these end without error, for `m` more
from where they stopped. -/
theorem decodeAutoColumns_split {κ : Type} [Result κ] (infer : ColumnType → Res κ) (rows : ℤ)
    (m : Nat) :
    ∀ (n i : Nat) (r : Reader) (s : Results κ),
      Results.decodeAutoColumns infer rows (n + m) i r s
        = match Results.decodeAutoColumns infer rows n i r s with
          | (none, s', r') => Results.decodeAutoColumns infer rows m (i + n) r' s'
          | (some e, s', r') => (some e, s', r') := by
  intro n
  induction n with
  | zero => intro i r s; simp [Results.decodeAutoColumns]
  | succ n ih =>
    intro i r s
    have hnm : n + 1 + m = (n + m) + 1 := by omega
    have hin : i + (n + 1) = i + 1 + n := by omega
    rw [hnm, hin]
    simp only [Results.decodeAutoColumns]
    repeat' (first | rfl | exact ih _ _ _ | split)

/-- When the column loop of `Results.decodeAuto` ends without error after `n`
iterations, it has appended exactly `n` columns. -/
theorem decodeAutoColumns_length {κ : Type} [Result κ] (infer : ColumnType → Res κ) (rows : ℤ) :
    ∀ (n i : Nat) (r : Reader) (s s' : Results κ) (r' : Reader),
      Results.decodeAutoColumns infer rows n i r s = (none, s', r') →
      s'.length = s.length + n := by
  intro n
  induction n with
  | zero =>
    intro i r s s' r' h
    simp only [Results.decodeAutoColumns, Prod.mk.injEq, true_and] at h
    rw [← h.1]
    rfl
  | succ n ih =>
    intro i r s s' r' h
    simp only [Results.decodeAutoColumns] at h
    repeat' split at h
    all_goals first
      | (simp at h)
      | (have hl := ih _ _ _ _ _ h
         simp only [List.length_append, List.length_singleton] at hl
         omega)

/-- An iteration of the column loop of `Results.decodeAuto` that fails leaves
the results as they were: the column in progress is not appended. -/
theorem decodeAutoColumns_fail {κ : Type} [Result κ] (infer : ColumnType → Res κ) (rows : ℤ)
    (i : Nat) (r : Reader) (s s' : Results κ) (e : Error) (r' : Reader)
    (h : Results.decodeAutoColumns infer rows 1 i r s = (some e, s', r')) : s' = s := by
  simp only [Results.decodeAutoColumns] at h
  repeat' split at h
  all_goals first
    | (simp only [Prod.mk.injEq] at h; exact h.2.1.symm)
    | (simp at h)

/-- C20. If `Results.decodeAuto` is called on an empty `Results` for a block
with more than `i` columns, the first `i` columns are inferred and decoded
without error (giving the results `si`) and the processing of the column at
index `i` fails with the error `e` (for whatever reason: short read, inference
failure, state or column decode failure), then the call returns `e` and leaves
`Results` holding exactly those `i` columns `si`; they are not dropped. When
`i > 0` the next `decodeAuto` call on the same `Results` is therefore the strict
`DecodeResult` against that partial schema; when `i = 0` `Results` is left
empty. -/
theorem decodeAuto_partial {κ : Type} [Result κ] (conflicts : ColumnType → ColumnType → Bool)
    (infer : ColumnType → Res κ) (r : Reader) (b : Block) (i : Nat) (si : Results κ)
    (ri : Reader) (e : Error) (sf : Results κ) (rf : Reader)
    (hi : i < b.Columns.toNat)
    (hpre : Results.decodeAutoColumns infer b.Rows i 0 r [] = (none, si, ri))
    (hfail : Results.decodeAutoColumns infer b.Rows 1 i ri si = (some e, sf, rf)) :
    Results.decodeAuto conflicts infer [] r b = (some e, si, rf) ∧ si.length = i ∧
    (0 < i → ∀ (r2 : Reader) (b2 : Block),
      Results.decodeAuto conflicts infer si r2 b2 = Results.DecodeResult conflicts si r2 b2) ∧
    (i = 0 → si = []) := by
  have hlen : si.length = i := by
    have := decodeAutoColumns_length infer b.Rows i 0 r [] si ri hpre
    simpa using this
  have hsf : sf = si := decodeAutoColumns_fail infer b.Rows i ri si sf e rf hfail
  refine ⟨?_, hlen, ?_, ?_⟩
  · obtain ⟨m, hm⟩ : ∃ m, b.Columns.toNat = i + (1 + m) := ⟨b.Columns.toNat - i - 1, by omega⟩
    simp only [Results.decodeAuto, List.length_nil, gt_iff_lt, Nat.lt_irrefl, if_false]
    rw [hm, decodeAutoColumns_split, hpre]
    simp only [Nat.zero_add]
    rw [decodeAutoColumns_split, hfail, hsf]
  · intro hpos r2 b2
    have : si.length > 0 := by omega
    simp only [Results.decodeAuto, this, if_true]
  · intro h0
    apply List.length_eq_zero.mp
    omega

/-- C20, at a concrete input: a block of two columns and one row; the first
column `"x"` of type `"UInt8"` decodes, the second has the type `"String"`,
which cannot be inferred. The call fails and leaves the one column `"x"`; the
same block decoded again is then checked in strict mode against that
one-column schema and rejected for its column count. -/
theorem decodeAuto_partial_witness :
    Results.decodeAuto ColumnType.Conflicts ColAuto.Infer []
        [1, 120, 5, 85, 73, 110, 116, 56, 7, 1, 121, 6, 83, 116, 114, 105, 110, 103, 9]
        ⟨⟨false, 0⟩, 2, 1⟩
      = (some (.wrap (.cannotInfer [83, 116, 114, 105, 110, 103]) .typeInference),
          [⟨[120], ⟨[7]⟩⟩], [9]) ∧
    Results.decodeAuto ColumnType.Conflicts ColAuto.Infer [⟨[120], ⟨[7]⟩⟩]
        [1, 120, 5, 85, 73, 110, 116, 56, 7, 1, 121, 6, 83, 116, 114, 105, 110, 103, 9]
        ⟨⟨false, 0⟩, 2, 1⟩
      = (some (.columnsMismatch 2 1), [⟨[120], ⟨[7]⟩⟩],
          [1, 120, 5, 85, 73, 110, 116, 56, 7, 1, 121, 6, 83, 116, 114, 105, 110, 103, 9]) :=
  have h := decodeAuto_partial ColumnType.Conflicts ColAuto.Infer
    [1, 120, 5, 85, 73, 110, 116, 56, 7, 1, 121, 6, 83, 116, 114, 105, 110, 103, 9]
    ⟨⟨false, 0⟩, 2, 1⟩ 1 [⟨[120], ⟨[7]⟩⟩] [1, 121, 6, 83, 116, 114, 105, 110, 103, 9]
    (.wrap (.cannotInfer [83, 116, 114, 105, 110, 103]) .typeInference) [⟨[120], ⟨[7]⟩⟩] [9]
    (by decide) (by decide) (by decide)
  ⟨h.1, (h.2.2.1 (by decide)
    [1, 120, 5, 85, 73, 110, 116, 56, 7, 1, 121, 6, 83, 116, 114, 105, 110, 103, 9]
    ⟨⟨false, 0⟩, 2, 1⟩).trans (by decide)⟩

/-! ## `Results.DecodeResult`: names -/

/-- One iteration of the column loop of `Results.DecodeResult` against a
non-empty `Results`. Either it stops with an error, leaving the results as they
were except possibly for the entry at index `i`, whose name is kept when it was
not empty; a name mismatch is reported only for index `i` and only when the
entry's name was not empty. Or it reads the wire name `name`, leaves the entry
at index `i` with that name (the name it had, unless that was empty) and goes on
with the next index. -/
theorem decodeResultColumns_step {κ : Type} [Result κ]
    (conflicts : ColumnType → ColumnType → Bool) (rows : ℤ) (n i : Nat) (r : Reader)
    (s : Results κ) (e : Option Error) (s' : Results κ) (r' : Reader) :
    Results.decodeResultColumns conflicts rows false (n + 1) i r s = (e, s', r') →
    (e ≠ none ∧
      (s' = s ∨ ∃ t0 x, s[i]? = some t0 ∧ s' = s.set i x ∧ (t0.Name ≠ [] → x.Name = t0.Name)) ∧
      (∀ j got exp, e = some (.unexpectedColumn j got exp) →
        j = i ∧ ∃ t0, s[i]? = some t0 ∧ t0.Name ≠ [])) ∨
    (∃ name r1 t0 x r3, r.Str = (.ok name, r1) ∧ s[i]? = some t0 ∧ x.Name = name ∧
      (t0.Name ≠ [] → t0.Name = name) ∧
      Results.decodeResultColumns conflicts rows false n (i + 1) r3 (s.set i x) = (e, s', r')) := by
  rw [Results.decodeResultColumns]
  rcases hN : r.Str with ⟨name | e1, r1⟩
  swap
  · intro h
    simp only [Prod.mk.injEq] at h
    obtain ⟨rfl, rfl, rfl⟩ := h
    exact Or.inl ⟨by simp, Or.inl rfl, by simp⟩
  simp only []
  rcases r1.Str with ⟨ty | e1, r2⟩
  swap
  · intro h
    simp only [Prod.mk.injEq] at h
    obtain ⟨rfl, rfl, rfl⟩ := h
    exact Or.inl ⟨by simp, Or.inl rfl, by simp⟩
  simp only [Bool.false_eq_true, if_false]
  rcases hti : s[i]? with _ | t0
  · intro h
    simp only [Prod.mk.injEq] at h
    obtain ⟨rfl, rfl, rfl⟩ := h
    exact Or.inl ⟨by simp, Or.inl rfl, by simp⟩
  simp only []
  obtain ⟨nm, hnm1, hnm2, ht, hsA⟩ : ∃ nm : Str, (t0.Name = [] → nm = name) ∧
      (t0.Name ≠ [] → nm = t0.Name) ∧
      (if t0.Name = [] then ({ t0 with Name := name } : ResultColumn κ) else t0)
        = ⟨nm, t0.Data⟩ ∧
      (if t0.Name = [] then s.set i (⟨nm, t0.Data⟩ : ResultColumn κ) else s)
        = s.set i ⟨nm, t0.Data⟩ := by
    by_cases hemp : t0.Name = []
    · exact ⟨name, fun _ => rfl, fun h => absurd hemp h, by rw [if_pos hemp],
        by rw [if_pos hemp]⟩
    · refine ⟨t0.Name, fun h => absurd h hemp, fun _ => rfl, by rw [if_neg hemp], ?_⟩
      rw [if_neg hemp]
      exact (set_self_of_getElem? s i t0 hti).symm
  simp only [ht, hsA, List.set_set]
  by_cases hnm : nm = name
  swap
  · simp only [ne_eq, hnm, not_false_eq_true, if_true]
    intro h
    simp only [Prod.mk.injEq] at h
    obtain ⟨rfl, rfl, rfl⟩ := h
    have hne : t0.Name ≠ [] := fun hemp => hnm (hnm1 hemp)
    refine Or.inl ⟨by simp, Or.inr ⟨t0, _, rfl, rfl, hnm2⟩, ?_⟩
    intro j got exp hj
    simp only [Option.some.injEq, Error.unexpectedColumn.injEq] at hj
    exact ⟨hj.1.symm, t0, rfl, hne⟩
  have hkeep : t0.Name ≠ [] → t0.Name = name := fun h => (hnm2 h).symm.trans hnm
  simp only [ne_eq, hnm, not_true_eq_false, if_false]
  have hstop : ∀ (err : Error) (d : κ) (rd : Reader),
      (∀ j got exp, err ≠ .unexpectedColumn j got exp) →
      (some err, s.set i (⟨name, d⟩ : ResultColumn κ), rd) = (e, s', r') →
      (e ≠ none ∧
        (s' = s ∨ ∃ t1 x, some t0 = some t1 ∧ s' = s.set i x ∧ (t1.Name ≠ [] → x.Name = t1.Name)) ∧
        (∀ j got exp, e = some (.unexpectedColumn j got exp) →
          j = i ∧ ∃ t1, some t0 = some t1 ∧ t1.Name ≠ [])) ∨
      (∃ nam ra t1 x r3, (Res.ok name, r1) = (Res.ok nam, ra) ∧ some t0 = some t1 ∧ x.Name = nam ∧
        (t1.Name ≠ [] → t1.Name = nam) ∧
        Results.decodeResultColumns conflicts rows false n (i + 1) r3 (s.set i x)
          = (e, s', r')) := by
    intro err d rd hne h
    simp only [Prod.mk.injEq] at h
    obtain ⟨rfl, rfl, rfl⟩ := h
    refine Or.inl ⟨by simp, Or.inr ⟨t0, _, rfl, rfl, fun h => (hkeep h).symm⟩, ?_⟩
    intro j got exp hj
    simp only [Option.some.injEq] at hj
    exact absurd hj (hne j got exp)
  have hcont : ∀ (d : κ) (rd : Reader),
      Results.decodeResultColumns conflicts rows false n (i + 1) rd
        (s.set i (⟨name, d⟩ : ResultColumn κ)) = (e, s', r') →
      (e ≠ none ∧
        (s' = s ∨ ∃ t1 x, some t0 = some t1 ∧ s' = s.set i x ∧ (t1.Name ≠ [] → x.Name = t1.Name)) ∧
        (∀ j got exp, e = some (.unexpectedColumn j got exp) →
          j = i ∧ ∃ t1, some t0 = some t1 ∧ t1.Name ≠ [])) ∨
      (∃ nam ra t1 x r3, (Res.ok name, r1) = (Res.ok nam, ra) ∧ some t0 = some t1 ∧ x.Name = nam ∧
        (t1.Name ≠ [] → t1.Name = nam) ∧
        Results.decodeResultColumns conflicts rows false n (i + 1) r3 (s.set i x)
          = (e, s', r')) := by
    intro d rd h
    exact Or.inr ⟨name, r1, t0, ⟨name, d⟩, rd, rfl, rfl, rfl, hkeep, h⟩
  have htail : ∀ d : κ,
      (if conflicts ty (Result.Type_ d) = true then
          (some (Error.unexpectedType i name ty (Result.Type_ d)),
            s.set i (⟨name, d⟩ : ResultColumn κ), r2)
        else
          if rows = 0 then
            Results.decodeResultColumns conflicts rows false n (i + 1) r2
              (s.set i ⟨name, Result.Reset d⟩)
          else
            match
              match Result.asStateDecoder (Result.Reset d) with
              | some decodeState => decodeState r2
              | none => (none, Result.Reset d, r2) with
            | (some e, d, r3) => (some (e.wrapState name), s.set i ⟨name, d⟩, r3)
            | (none, d, r3) =>
              match Result.DecodeColumn d r3 rows with
              | (some e, d, r4) => (some (e.wrapName name), s.set i ⟨name, d⟩, r4)
              | (none, d, r4) =>
                Results.decodeResultColumns conflicts rows false n (i + 1) r4
                  (s.set i ⟨name, d⟩)) = (e, s', r') →
      (e ≠ none ∧
        (s' = s ∨ ∃ t1 x, some t0 = some t1 ∧ s' = s.set i x ∧ (t1.Name ≠ [] → x.Name = t1.Name)) ∧
        (∀ j got exp, e = some (.unexpectedColumn j got exp) →
          j = i ∧ ∃ t1, some t0 = some t1 ∧ t1.Name ≠ [])) ∨
      (∃ nam ra t1 x r3, (Res.ok name, r1) = (Res.ok nam, ra) ∧ some t0 = some t1 ∧ x.Name = nam ∧
        (t1.Name ≠ [] → t1.Name = nam) ∧
        Results.decodeResultColumns conflicts rows false n (i + 1) r3 (s.set i x)
          = (e, s', r')) := by
    intro d
    by_cases hc : conflicts ty (Result.Type_ d) = true
    · rw [if_pos hc]
      exact hstop _ _ _ (by simp)
    rw [if_neg hc]
    by_cases h0 : rows = 0
    · rw [if_pos h0]
      exact hcont _ _
    rw [if_neg h0]
    rcases Result.asStateDecoder (Result.Reset d) with _ | decodeState
    · simp only []
      rcases Result.DecodeColumn (Result.Reset d) r2 rows with ⟨_ | e2, d2, r4⟩
      · exact hcont _ _
      · exact hstop _ _ _ (by simp)
    · simp only []
      rcases decodeState r2 with ⟨_ | e2, d2, r3⟩
      · simp only []
        rcases Result.DecodeColumn d2 r3 rows with ⟨_ | e3, d3, r4⟩
        · exact hcont _ _
        · exact hstop _ _ _ (by simp)
      · exact hstop _ _ _ (by simp)
  subst hnm
  rcases Result.asInferColumn t0.Data with _ | infer
  · simp only []
    exact htail _
  · simp only []
    rcases infer ty with ⟨_ | e2, d⟩
    · simp only []
      exact htail _
    · exact hstop _ _ _ (by simp)

/-- The column loop of `Results.DecodeResult` against a non-empty `Results`,
started at index `i` for `n` iterations, keeps the length of the results, keeps
every name that was not empty, and leaves the entries outside the indices
`i, …, i + n - 1` as they were. -/
theorem decodeResultColumns_frame {κ : Type} [Result κ]
    (conflicts : ColumnType → ColumnType → Bool) (rows : ℤ) :
    ∀ (n i : Nat) (r : Reader) (s : Results κ) (e : Option Error) (s' : Results κ)
      (r' : Reader),
      Results.decodeResultColumns conflicts rows false n i r s = (e, s', r') →
      s'.length = s.length ∧
      ∀ j t, s[j]? = some t → ∃ t', s'[j]? = some t' ∧ (t.Name ≠ [] → t'.Name = t.Name) ∧
        ((j < i ∨ i + n ≤ j) → t' = t) := by
  intro n
  induction n with
  | zero =>
    intro i r s e s' r' h
    simp only [Results.decodeResultColumns, Prod.mk.injEq] at h
    obtain ⟨-, rfl, -⟩ := h
    exact ⟨rfl, fun j t ht => ⟨t, ht, fun _ => rfl, fun _ => rfl⟩⟩
  | succ n ih =>
    intro i r s e s' r' h
    have hsetcase : ∀ (t0 x : ResultColumn κ), s[i]? = some t0 →
        (t0.Name ≠ [] → x.Name = t0.Name) →
        (s.set i x).length = s.length ∧
        ∀ j t, s[j]? = some t → ∃ t', (s.set i x)[j]? = some t' ∧
          (t.Name ≠ [] → t'.Name = t.Name) ∧ (j ≠ i → t' = t) ∧ (j = i → t' = x) := by
      intro t0 x hti hx
      refine ⟨List.length_set _ _ _, fun j t ht => ?_⟩
      by_cases hji : j = i
      · subst hji
        rw [hti] at ht
        cases ht
        have hil : j < s.length := by
          rcases Nat.lt_or_ge j s.length with hl | hl
          · exact hl
          · rw [List.getElem?_eq_none hl] at hti; cases hti
        exact ⟨x, List.getElem?_set_self hil, hx, fun h => absurd rfl h, fun _ => rfl⟩
      · have hij : i ≠ j := fun h => hji h.symm
        exact ⟨t, by rw [List.getElem?_set_ne hij]; exact ht, fun _ => rfl, fun _ => rfl,
          fun h => absurd h hji⟩
    rcases decodeResultColumns_step conflicts rows n i r s e s' r' h with
      ⟨-, hs | ⟨t0, x, hti, hs, hx⟩, -⟩ | ⟨name, r1, t0, x, r3, -, hti, hxn, hkeep, hrec⟩
    · subst hs
      exact ⟨rfl, fun j t ht => ⟨t, ht, fun _ => rfl, fun _ => rfl⟩⟩
    · subst hs
      obtain ⟨hl, hent⟩ := hsetcase t0 x hti hx
      refine ⟨hl, fun j t ht => ?_⟩
      obtain ⟨t', h1, h2, h3, -⟩ := hent j t ht
      exact ⟨t', h1, h2, fun hj => h3 (by omega)⟩
    · obtain ⟨hl, hent⟩ := hsetcase t0 x hti (fun h => by rw [hxn, hkeep h])
      obtain ⟨hl2, hent2⟩ := ih _ _ _ _ _ _ hrec
      refine ⟨hl2.trans hl, fun j t ht => ?_⟩
      obtain ⟨t1, h1, h2, h3, h4⟩ := hent j t ht
      obtain ⟨t', g1, g2, g3⟩ := hent2 j t1 h1
      refine ⟨t', g1, fun hne => ?_, fun hj => ?_⟩
      · have := h2 hne
        rw [g2 (by rw [this]; exact hne), this]
      · have hji : j ≠ i := by omega
        rw [g3 (by omega), h3 hji]

/-- The column loop of `Results.DecodeResult` against a non-empty `Results`
reports a name mismatch only for an index it goes over and only when the
entry at that index had a name that was not empty. -/
theorem decodeResultColumns_mismatch {κ : Type} [Result κ]
    (conflicts : ColumnType → ColumnType → Bool) (rows : ℤ) :
    ∀ (n i : Nat) (r : Reader) (s : Results κ) (s' : Results κ) (r' : Reader)
      (j : Nat) (got exp : Str),
      Results.decodeResultColumns conflicts rows false n i r s
        = (some (.unexpectedColumn j got exp), s', r') →
      i ≤ j ∧ ∃ t, s[j]? = some t ∧ t.Name ≠ [] := by
  intro n
  induction n with
  | zero =>
    intro i r s s' r' j got exp h
    simp [Results.decodeResultColumns] at h
  | succ n ih =>
    intro i r s s' r' j got exp h
    rcases decodeResultColumns_step conflicts rows n i r s _ s' r' h with
      ⟨-, -, herr⟩ | ⟨name, r1, t0, x, r3, -, hti, -, -, hrec⟩
    · obtain ⟨hj, t0, hti, hne⟩ := herr j got exp rfl
      subst hj
      exact ⟨Nat.le_refl _, t0, hti, hne⟩
    · obtain ⟨hij, t, ht, hne⟩ := ih _ _ _ _ _ _ _ _ hrec
      have hne2 : i ≠ j := by omega
      rw [List.getElem?_set_ne hne2] at ht
      exact ⟨by omega, t, ht, hne⟩

/-- Running the column loop of `Results.DecodeResult` for `n + m` iterations is
running it for `n` iterations and, when these end without error, for `m` more
from where they stopped. -/
theorem decodeResultColumns_split {κ : Type} [Result κ]
    (conflicts : ColumnType → ColumnType → Bool) (rows : ℤ) (noTarget : Bool) (m : Nat) :
    ∀ (n i : Nat) (r : Reader) (s : Results κ),
      Results.decodeResultColumns conflicts rows noTarget (n + m) i r s
        = match Results.decodeResultColumns conflicts rows noTarget n i r s with
          | (none, s', r') => Results.decodeResultColumns conflicts rows noTarget m (i + n) r' s'
          | (some e, s', r') => (some e, s', r') := by
  intro n
  induction n with
  | zero => intro i r s; simp [Results.decodeResultColumns]
  | succ n ih =>
    intro i r s
    have hnm : n + 1 + m = (n + m) + 1 := by omega
    have hin : i + (n + 1) = i + 1 + n := by omega
    rw [hnm, hin]
    simp only [Results.decodeResultColumns]
    repeat' (first | rfl | exact ih _ _ _ | split)

/-- The call `Results.DecodeResult` against a non-empty `Results`: either the
column-count mismatch error with nothing touched, or the column loop over
`len(Results)` columns. -/
theorem DecodeResult_nonempty {κ : Type} [Result κ]
    (conflicts : ColumnType → ColumnType → Bool) (s : Results κ) (r : Reader) (b : Block)
    (hne : s ≠ []) :
    Results.DecodeResult conflicts s r b
        = (some (.columnsMismatch b.Columns (s.length : ℤ)), s, r) ∨
    Results.DecodeResult conflicts s r b
        = Results.decodeResultColumns conflicts b.Rows false s.length 0 r s := by
  have hpos : 0 < s.length := List.length_pos.mpr hne
  have hz : decide (s.length = 0) = false := decide_eq_false (by omega)
  by_cases hc : b.Columns = (s.length : ℤ)
  · right
    simp only [Results.DecodeResult, hz, hc, ne_eq, not_true_eq_false, decide_False,
      Bool.false_and, Bool.false_eq_true, if_false, Int.toNat_ofNat]
  · left
    simp only [Results.DecodeResult, hz, hc, ne_eq, not_false_eq_true, decide_True,
      Bool.false_and, Bool.not_false, Bool.and_self, if_true]

/-- C14. For every non-empty `Results` value `s` (of any column
implementation), every reader and every block:
* if `Results.DecodeResult` succeeds, the results after the call (the same
  slice, as the caller sees it) have the same length, every entry whose name
  was not empty keeps its name, and every entry, in particular every entry
  whose name was empty, carries the wire column name read at its index (the
  string the reader yields after the columns before that index have been
  decoded);
* a name-mismatch error is returned only for an index whose expected name was
  not empty: an empty expected name never causes it. -/
theorem DecodeResult_names {κ : Type} [Result κ] (conflicts : ColumnType → ColumnType → Bool)
    (s : Results κ) (r : Reader) (b : Block) (hne : s ≠ []) :
    (∀ (s' : Results κ) (r' : Reader), Results.DecodeResult conflicts s r b = (none, s', r') →
      s'.length = s.length ∧
      ∀ i t, s[i]? = some t → ∃ t', s'[i]? = some t' ∧ (t.Name ≠ [] → t'.Name = t.Name) ∧
        (∀ (si : Results κ) (ri : Reader) (name : Str) (rn : Reader),
          Results.decodeResultColumns conflicts b.Rows false i 0 r s = (none, si, ri) →
          ri.Str = (.ok name, rn) → t'.Name = name)) ∧
    (∀ (i : Nat) (got exp : Str) (s' : Results κ) (r' : Reader),
      Results.DecodeResult conflicts s r b = (some (.unexpectedColumn i got exp), s', r') →
      ∃ t, s[i]? = some t ∧ t.Name ≠ []) := by
  constructor
  · intro s' r' h
    rcases DecodeResult_nonempty conflicts s r b hne with hm | hl
    · rw [hm] at h
      simp at h
    rw [hl] at h
    obtain ⟨hlen, hent⟩ := decodeResultColumns_frame conflicts b.Rows _ _ _ _ _ _ _ h
    refine ⟨hlen, fun i t ht => ?_⟩
    obtain ⟨t', h1, h2, -⟩ := hent i t ht
    refine ⟨t', h1, h2, fun si ri name rn hpre hstr => ?_⟩
    have hil : i < s.length := by
      rcases Nat.lt_or_ge i s.length with hl | hl
      · exact hl
      · rw [List.getElem?_eq_none hl] at ht; cases ht
    obtain ⟨m, hm⟩ : ∃ m, s.length = i + (m + 1) := ⟨s.length - i - 1, by omega⟩
    rw [hm, decodeResultColumns_split, hpre] at h
    simp only [Nat.zero_add] at h
    obtain ⟨hlen2, -⟩ := decodeResultColumns_frame conflicts b.Rows _ _ _ _ _ _ _ hpre
    rcases decodeResultColumns_step conflicts b.Rows m i ri si none s' r' h with
      ⟨hcontra, -, -⟩ | ⟨name', r1, t0, x, r3, hstr', hti, hxn, -, hrec⟩
    · exact absurd rfl hcontra
    · rw [hstr] at hstr'
      simp only [Prod.mk.injEq, Res.ok.injEq] at hstr'
      obtain ⟨-, hent3⟩ := decodeResultColumns_frame conflicts b.Rows _ _ _ _ _ _ _ hrec
      have hix : (si.set i x)[i]? = some x := List.getElem?_set_self (by omega)
      obtain ⟨t'', g1, -, g3⟩ := hent3 i x hix
      rw [h1] at g1
      cases g1
      rw [g3 (Or.inl (Nat.lt_succ_self i)), hxn, hstr'.1]
  · intro i got exp s' r' h
    rcases DecodeResult_nonempty conflicts s r b hne with hm | hl
    · rw [hm] at h
      simp at h
    rw [hl] at h
    exact (decodeResultColumns_mismatch conflicts b.Rows _ _ _ _ _ _ _ _ _ h).2

/-- C14, at a concrete input: `Results` with an entry without a name and an
entry named `"y"`; the block carries the columns `"x"` and `"y"` with one row
each. After the call the first entry is named `"x"` (the wire name read at
index 0) and the second is still named `"y"`. -/
theorem DecodeResult_names_witness :
    (∃ t', ([⟨[120], ⟨[7]⟩⟩, ⟨[121], ⟨[8]⟩⟩] : Results ColumnUInt8)[0]? = some t' ∧
      t'.Name = [120]) ∧
    (∃ t', ([⟨[120], ⟨[7]⟩⟩, ⟨[121], ⟨[8]⟩⟩] : Results ColumnUInt8)[1]? = some t' ∧
      t'.Name = [121]) :=
  have h := (DecodeResult_names ColumnType.Conflicts
    [(⟨[], ⟨[9]⟩⟩ : ResultColumn ColumnUInt8), ⟨[121], ⟨[]⟩⟩]
    [1, 120, 5, 85, 73, 110, 116, 56, 7, 1, 121, 5, 85, 73, 110, 116, 56, 8]
    ⟨⟨false, 0⟩, 2, 1⟩ (by decide)).1
    [⟨[120], ⟨[7]⟩⟩, ⟨[121], ⟨[8]⟩⟩] [] (by decide)
  ⟨match h.2 0 ⟨[], ⟨[9]⟩⟩ (by decide) with
    | ⟨t', h1, _, h3⟩ => ⟨t', h1, h3 [(⟨[], ⟨[9]⟩⟩ : ResultColumn ColumnUInt8), ⟨[121], ⟨[]⟩⟩]
        [1, 120, 5, 85, 73, 110, 116, 56, 7, 1, 121, 5, 85, 73, 110, 116, 56, 8] [120]
        [5, 85, 73, 110, 116, 56, 7, 1, 121, 5, 85, 73, 110, 116, 56, 8] (by decide) (by decide)⟩,
   match h.2 1 ⟨[121], ⟨[]⟩⟩ (by decide) with
    | ⟨t', h1, h2, _⟩ => ⟨t', h1, h2 (by decide)⟩⟩

/-! ## The pointer model against the value view -/

theorem getElem?_lt_of_some {α : Type} {l : List α} {i : Nat} {x : α} (h : l[i]? = some x) :
    i < l.length := by
  rcases Nat.lt_or_ge i l.length with hl | hl
  · exact hl
  · rw [List.getElem?_eq_none hl] at h; cases h

/-- Entries at different indices of a target with pairwise distinct pointers
hold different addresses. -/
theorem distinct_pointers (target : List ResultRef)
    (hd : (target.map (fun t => t.Data)).Nodup) (i j : Nat) (ti tj : ResultRef)
    (hi : target[i]? = some ti) (hj : target[j]? = some tj) (hp : ti.Data = tj.Data) :
    i = j := by
  have hil : i < (target.map (fun t => t.Data)).length := by
    rw [List.length_map]; exact getElem?_lt_of_some hi
  apply List.getElem?_inj hil hd
  rw [List.getElem?_map, List.getElem?_map, hi, hj]
  simp [hp]

/-- When the entries of a target with validly placed pointers are given, the
columns they point to exist. -/
theorem Views_exists {κ : Type} (h : Store κ) :
    ∀ (target : List ResultRef), (∀ t ∈ target, t.Data < h.length) →
      ∃ vs, Store.Views h target vs := by
  intro target
  induction target with
  | nil => intro _; exact ⟨[], rfl, fun j t ht => by simp at ht⟩
  | cons t ts ih =>
    intro hv
    obtain ⟨vs, hl, hvs⟩ := ih (fun u hu => hv u (List.mem_cons_of_mem _ hu))
    have ht := hv t (List.mem_cons_self _ _)
    refine ⟨⟨t.Name, h[t.Data]⟩ :: vs, by simp [hl], fun j u hu => ?_⟩
    cases j with
    | zero =>
      simp only [List.getElem?_cons_zero, Option.some.injEq] at hu
      subst hu
      exact ⟨h[t.Data], List.getElem?_eq_getElem ht, by simp⟩
    | succ j =>
      simp only [List.getElem?_cons_succ] at hu
      obtain ⟨d, h1, h2⟩ := hvs j u hu
      exact ⟨d, h1, by simpa using h2⟩

/-- Writing the column object behind the entry at index `i` changes the view at
index `i` only, when the pointers of the target are pairwise distinct. -/
theorem Views_set {κ : Type} (h : Store κ) (target : List ResultRef)
    (vs : List (ResultColumn κ)) (hd : (target.map (fun t => t.Data)).Nodup)
    (hv : Store.Views h target vs) (i : Nat) (t : ResultRef) (ht : target[i]? = some t)
    (d : κ) : Store.Views (h.set t.Data d) target (vs.set i ⟨t.Name, d⟩) := by
  obtain ⟨hl, hvs⟩ := hv
  refine ⟨by rw [List.length_set, hl], fun j tj htj => ?_⟩
  obtain ⟨d0, h0, hv0⟩ := hvs i t ht
  by_cases hji : j = i
  · subst hji
    rw [ht] at htj
    cases htj
    exact ⟨d, List.getElem?_set_self (getElem?_lt_of_some h0),
      List.getElem?_set_self (getElem?_lt_of_some hv0)⟩
  · obtain ⟨dj, hj1, hj2⟩ := hvs j tj htj
    have hpne : t.Data ≠ tj.Data := fun hp =>
      hji (distinct_pointers target hd i j t tj ht htj hp).symm
    have hij : i ≠ j := fun hh => hji hh.symm
    exact ⟨dj, by rw [List.getElem?_set_ne hpne]; exact hj1,
      by rw [List.getElem?_set_ne hij]; exact hj2⟩

/-- On a target with pairwise distinct pointers, the column loop through
pointers and the column loop on the columns pointed to return the same error
and the same reader, and the column objects afterwards are what the loop on the
columns left. -/
theorem decodeColumnsPtr_view {κ : Type} [Result κ]
    (conflicts : ColumnType → ColumnType → Bool) (rows : ℤ) (noTarget : Bool)
    (target : List ResultRef) (hd : (target.map (fun t => t.Data)).Nodup) :
    ∀ (n i : Nat) (r : Reader) (h : Store κ) (vs : List (ResultColumn κ)),
      Store.Views h target vs →
      (Block.decodeColumns conflicts rows noTarget n i r vs).1
        = (Block.decodeColumnsPtr conflicts rows noTarget n i r target h).1 ∧
      (Block.decodeColumns conflicts rows noTarget n i r vs).2.2
        = (Block.decodeColumnsPtr conflicts rows noTarget n i r target h).2.2 ∧
      Store.Views (Block.decodeColumnsPtr conflicts rows noTarget n i r target h).2.1 target
        (Block.decodeColumns conflicts rows noTarget n i r vs).2.1 := by
  intro n
  induction n with
  | zero => intro i r h vs hv; exact ⟨rfl, rfl, hv⟩
  | succ n ih =>
    intro i r h vs hv
    rw [Block.decodeColumns, Block.decodeColumnsPtr]
    rcases r.Str with ⟨columnName | e, r1⟩
    swap
    · exact ⟨rfl, rfl, hv⟩
    simp only []
    rcases r1.Str with ⟨columnType | e, r2⟩
    swap
    · exact ⟨rfl, rfl, hv⟩
    simp only []
    by_cases hnt : noTarget = true
    · subst hnt
      simp only [if_true]
      exact ih (i + 1) r2 h vs hv
    have hf : noTarget = false := by simpa using hnt
    subst hf
    simp only [Bool.false_eq_true, if_false]
    rcases hti : target[i]? with _ | t
    · have hvi : vs[i]? = none := by
        apply List.getElem?_eq_none
        rw [hv.1]
        rcases Nat.lt_or_ge i target.length with hl | hl
        · rw [List.getElem?_eq_getElem hl] at hti; cases hti
        · exact hl
      rw [hvi]
      exact ⟨rfl, rfl, hv⟩
    obtain ⟨d0, h0, hv0⟩ := hv.2 i t hti
    rw [hv0]
    simp only []
    by_cases hn : t.Name = columnName
    swap
    · simp only [ne_eq, hn, not_false_eq_true, if_true]
      exact ⟨trivial, trivial, hv⟩
    simp only [ne_eq, hn, not_true_eq_false, if_false, h0]
    by_cases hc : conflicts columnType (Result.Type_ d0) = true
    · simp only [hc, if_true]
      exact ⟨trivial, trivial, hv⟩
    simp only [hc, Bool.false_eq_true, if_false]
    rcases Result.DecodeColumn (Result.Reset d0) r2 rows with ⟨_ | e, d, r3⟩
    · simp only []
      have hv2 := Views_set h target vs hd hv i t hti d
      rw [hn] at hv2
      exact ih (i + 1) r3 _ _ hv2
    · simp only []
      have hv2 := Views_set h target vs hd hv i t hti d
      rw [hn] at hv2
      exact ⟨trivial, trivial, hv2⟩

/-- On a target with pairwise distinct pointers, `Block.DecodeRawBlock` through
pointers and on the columns pointed to return the same error, block and reader,
and the column objects afterwards are what the call on the columns left. -/
theorem DecodeRawBlockPtr_view {κ : Type} [Result κ]
    (conflicts : ColumnType → ColumnType → Bool) (b : Block) (r : Reader)
    (target : List ResultRef) (h : Store κ) (vs : List (ResultColumn κ))
    (hd : (target.map (fun t => t.Data)).Nodup) (hv : Store.Views h target vs) :
    (Block.DecodeRawBlock conflicts b r vs).err
      = (Block.DecodeRawBlockPtr conflicts b r target h).err ∧
    (Block.DecodeRawBlock conflicts b r vs).b
      = (Block.DecodeRawBlockPtr conflicts b r target h).b ∧
    (Block.DecodeRawBlock conflicts b r vs).r
      = (Block.DecodeRawBlockPtr conflicts b r target h).r ∧
    Store.Views (Block.DecodeRawBlockPtr conflicts b r target h).store target
      (Block.DecodeRawBlock conflicts b r vs).target := by
  rw [Block.DecodeRawBlock, Block.DecodeRawBlockPtr, hv.1]
  rcases r.Int with ⟨c | e, r1⟩
  swap
  · exact ⟨rfl, rfl, rfl, hv⟩
  simp only []
  by_cases hcr : c > maxColumnsInBlock ∨ c < 0
  · simp only [hcr, if_true]
    exact ⟨trivial, trivial, trivial, hv⟩
  simp only [hcr, if_false]
  rcases r1.Int with ⟨v | e, r2⟩
  swap
  · exact ⟨rfl, rfl, rfl, hv⟩
  simp only []
  rcases checkRows v with _ | e
  swap
  · exact ⟨rfl, rfl, rfl, hv⟩
  simp only []
  by_cases hend : Block.End { Info := b.Info, Columns := c, Rows := v } = true
  · simp only [hend, if_true]
    exact ⟨trivial, trivial, trivial, hv⟩
  simp only [hend, Bool.false_eq_true, if_false]
  by_cases hm : (decide (c ≠ (target.length : ℤ))
      && !(decide (target.length = 0) && decide (v = 0))) = true
  · simp only [hm, if_true]
    exact ⟨trivial, trivial, trivial, hv⟩
  simp only [hm, Bool.false_eq_true, if_false]
  obtain ⟨g1, g2, g3⟩ := decodeColumnsPtr_view conflicts v (decide (target.length = 0)) target hd
    c.toNat 0 r2 h vs hv
  exact ⟨g1, trivial, g2, g3⟩

/-- On a target with pairwise distinct pointers, `Block.DecodeBlock` through
pointers and on the columns pointed to return the same error, block and reader,
and the column objects afterwards are what the call on the columns left. -/
theorem DecodeBlockPtr_view {κ : Type} [Result κ]
    (conflicts : ColumnType → ColumnType → Bool) (FeatureBlockInfo : ℤ) (b : Block)
    (r : Reader) (version : ℤ) (target : List ResultRef) (h : Store κ)
    (vs : List (ResultColumn κ))
    (hd : (target.map (fun t => t.Data)).Nodup) (hv : Store.Views h target vs) :
    (Block.DecodeBlock conflicts FeatureBlockInfo b r version vs).err
      = (Block.DecodeBlockPtr conflicts FeatureBlockInfo b r version target h).err ∧
    (Block.DecodeBlock conflicts FeatureBlockInfo b r version vs).b
      = (Block.DecodeBlockPtr conflicts FeatureBlockInfo b r version target h).b ∧
    (Block.DecodeBlock conflicts FeatureBlockInfo b r version vs).r
      = (Block.DecodeBlockPtr conflicts FeatureBlockInfo b r version target h).r ∧
    Store.Views (Block.DecodeBlockPtr conflicts FeatureBlockInfo b r version target h).store
      target (Block.DecodeBlock conflicts FeatureBlockInfo b r version vs).target := by
  rw [Block.DecodeBlock, Block.DecodeBlockPtr]
  by_cases hf : Feature.In FeatureBlockInfo version = true
  · simp only [hf, if_true]
    rcases b.Info.Decode r with ⟨_ | e, info, r1⟩
    · exact DecodeRawBlockPtr_view conflicts _ r1 target h vs hd hv
    · exact ⟨rfl, rfl, rfl, hv⟩
  · simp only [hf, Bool.false_eq_true, if_false]
    exact DecodeRawBlockPtr_view conflicts b r target h vs hd hv

/-- The view of a target given as a list of columns with their names and
pointers: each entry with the column object at its address. -/
theorem Views_of_cols {κ α : Type} (h : Store κ) (cols : List α) (nm : α → Str)
    (ptr : α → Nat) (dflt : κ) (hv : ∀ c ∈ cols, ptr c < h.length) :
    Store.Views h (cols.map (fun c => (⟨nm c, ptr c⟩ : ResultRef)))
      (cols.map (fun c => (⟨nm c, (h[ptr c]?).getD dflt⟩ : ResultColumn κ))) := by
  refine ⟨by rw [List.length_map, List.length_map], fun j t ht => ?_⟩
  rw [List.getElem?_map] at ht
  rcases hc : cols[j]? with _ | c
  · rw [hc] at ht; cases ht
  rw [hc] at ht
  simp only [Option.map_some', Option.some.injEq] at ht
  subst ht
  have hlt := hv c (List.getElem?_mem hc)
  refine ⟨h[ptr c], List.getElem?_eq_getElem hlt, ?_⟩
  rw [List.getElem?_map, hc]
  simp only [Option.map_some', List.getElem?_eq_getElem hlt, Option.getD_some]

/-- Reading the column objects off a view given column by column. -/
theorem Views_cols_get {κ α : Type} (h : Store κ) (cols : List α) (nm : α → Str)
    (ptr : α → Nat) (val : α → κ)
    (hv : Store.Views h (cols.map (fun c => (⟨nm c, ptr c⟩ : ResultRef)))
      (cols.map (fun c => (⟨nm c, val c⟩ : ResultColumn κ)))) :
    ∀ c ∈ cols, h[ptr c]? = some (val c) := by
  intro c hc
  obtain ⟨j, hj⟩ := List.mem_iff_getElem?.mp hc
  obtain ⟨d, h1, h2⟩ := hv.2 j ⟨nm c, ptr c⟩ (by rw [List.getElem?_map, hj]; rfl)
  rw [List.getElem?_map, hj] at h2
  simp only [Option.map_some', Option.some.injEq, ResultColumn.mk.injEq, true_and] at h2
  rw [h1, h2]

/-! ## `Block.DecodeRawBlock` on a target of UInt8 columns -/

/-- A declared column count above the bound is rejected whatever follows it on
the wire, whatever the target is and whatever it points to. -/
theorem DecodeRawBlockPtr_columns_over {κ : Type} [Result κ]
    (conflicts : ColumnType → ColumnType → Bool) (b : Block) (rows : ℤ)
    (cols : List (Str × ColumnType × List Byte)) (target : List ResultRef) (h : Store κ) :
    Block.DecodeRawBlockPtr conflicts b (wireBlock 1000001 rows cols) target h
      = ⟨some (.invalidColumns 1000001), b, h, Buffer.PutInt [] rows ++ wireColumns cols⟩ := by
  have h1 : Reader.Int (Buffer.PutInt [] 1000001 ++ (Buffer.PutInt [] rows ++ wireColumns cols))
      = (.ok 1000001, Buffer.PutInt [] rows ++ wireColumns cols) := Int_put _ (by decide) _
  simp [Block.DecodeRawBlockPtr, wireBlock_eq, h1, maxColumnsInBlock]

/-- A declared row count above the bound, after a column count within the
bounds, is rejected whatever follows it on the wire, whatever the target is and
whatever it points to. -/
theorem DecodeRawBlockPtr_rows_over {κ : Type} [Result κ]
    (conflicts : ColumnType → ColumnType → Bool) (b : Block) (c rows : ℤ)
    (cols : List (Str × ColumnType × List Byte)) (target : List ResultRef) (h : Store κ)
    (hc : 0 ≤ c ∧ c ≤ 1000000) (hr : 1000000 < rows ∧ rows < 2 ^ 63) :
    (Block.DecodeRawBlockPtr conflicts b (wireBlock c rows cols) target h).err
      = some (.wrap (.invalidRows rows) .rowsCount) := by
  have h1 : Reader.Int (Buffer.PutInt [] c ++ (Buffer.PutInt [] rows ++ wireColumns cols))
      = (.ok c, Buffer.PutInt [] rows ++ wireColumns cols) := Int_put _ (by omega) _
  have h2 : Reader.Int (Buffer.PutInt [] rows ++ wireColumns cols)
      = (.ok rows, wireColumns cols) := Int_put _ (by omega) _
  have hcols : ¬ (c > maxColumnsInBlock ∨ c < 0) := by unfold maxColumnsInBlock; omega
  have hk : checkRows rows = some (.invalidRows rows) := by
    have : rows < 0 ∨ rows > maxRowsInBlock := by unfold maxRowsInBlock; omega
    simp [checkRows, this]
  simp only [Block.DecodeRawBlockPtr, wireBlock_eq, h1, h2, hcols, hk, if_false]

/-- C5 as stated fails, at two inputs.
* A target of 1,000,001 UInt8 columns named `"x"` (pairwise distinct column
  objects), a row count of 0 and a wire that holds the column count 1,000,001,
  the row count 0 and, for every column, the name `"x"`, the type `"UInt8"` and
  the empty payload: `Block.DecodeRawBlock` returns the invalid-columns error.
* A target `[{"x", &d}, {"y", &d}]` whose two entries point to one column
  object `d`, and a wire of two columns and one row with the payloads `[7]` for
  `"x"` and `[8]` for `"y"`: the call succeeds and the one object holds `[8]`,
  so `target[0].Data` is not the payload `[7]` of column 0. -/
theorem DecodeRawBlockPtr_uint8_counterexample :
    (((List.range 1000001).map (fun k => (⟨[120], k⟩ : ResultRef))).length = 1000001 ∧
      (((List.range 1000001).map (fun k => (⟨[120], k⟩ : ResultRef))).map
        (fun t => t.Data)).Nodup ∧
      (Block.DecodeRawBlockPtr ColumnType.Conflicts ⟨⟨false, 0⟩, 0, 0⟩
        (wireBlock 1000001 0
          ((List.range 1000001).map (fun _ => ([120], ColumnTypeUInt8, ([] : List Byte)))))
        ((List.range 1000001).map (fun k => (⟨[120], k⟩ : ResultRef)))
        (List.replicate 1000001 (⟨[]⟩ : ColumnUInt8))).err = some (.invalidColumns 1000001)) ∧
    Block.DecodeRawBlockPtr ColumnType.Conflicts ⟨⟨false, 0⟩, 0, 0⟩
        (wireBlock 2 1 [([120], ColumnTypeUInt8, [7]), ([121], ColumnTypeUInt8, [8])])
        [⟨[120], 0⟩, ⟨[121], 0⟩] [(⟨[9]⟩ : ColumnUInt8)]
      = ⟨none, ⟨⟨false, 0⟩, 2, 1⟩, [⟨[8]⟩], []⟩ := by
  refine ⟨⟨?_, ?_, ?_⟩, ?_⟩
  · rw [List.length_map, List.length_range]
  · have hid : ((fun t : ResultRef => t.Data) ∘ (fun k => (⟨[120], k⟩ : ResultRef))) = id := rfl
    rw [List.map_map, hid, List.map_id]
    exact List.nodup_range 1000001
  · rw [DecodeRawBlockPtr_columns_over]
  · decide

/-- C5 (amended). For every non-empty target of `n ≤ 1,000,000` `ColumnUInt8`
columns that are pairwise distinct column objects (whatever they held before;
names, being Go strings, shorter than `2^63`), given column by column as the
name, the address of the column object and the payload, every row count `rows`
in `[0, 1,000,000]` and payloads of `rows` octets each: if the wire holds the
column count `n`, the row count `rows` and then for each column in order its
name, the type string `"UInt8"` and its payload (followed by any further input
`rest`), and `"UInt8"` does not conflict with itself, then
`Block.DecodeRawBlock` succeeds, the block holds `n` and `rows`, exactly `rest`
is left unread, and the column object of every target entry holds exactly the
payload of its column. -/
theorem DecodeRawBlockPtr_uint8 (conflicts : ColumnType → ColumnType → Bool)
    (hc : conflicts ColumnTypeUInt8 ColumnTypeUInt8 = false) (b : Block)
    (cols : List (Str × Nat × List Byte)) (h : Store ColumnUInt8) (rows : ℤ) (rest : Reader)
    (hne : cols ≠ []) (hn : cols.length ≤ 1000000) (hrows : 0 ≤ rows ∧ rows ≤ 1000000)
    (hcols : ∀ c ∈ cols, c.1.length < 2 ^ 63 ∧ c.2.1 < h.length ∧ (c.2.2.length : ℤ) = rows)
    (hd : (cols.map (fun c => c.2.1)).Nodup) :
    (Block.DecodeRawBlockPtr conflicts b
        (wireBlock (cols.length : ℤ) rows (cols.map (fun c => (c.1, ColumnTypeUInt8, c.2.2)))
          ++ rest) (cols.map (fun c => (⟨c.1, c.2.1⟩ : ResultRef))) h).err = none ∧
    (Block.DecodeRawBlockPtr conflicts b
        (wireBlock (cols.length : ℤ) rows (cols.map (fun c => (c.1, ColumnTypeUInt8, c.2.2)))
          ++ rest) (cols.map (fun c => (⟨c.1, c.2.1⟩ : ResultRef))) h).b
      = { b with Columns := (cols.length : ℤ), Rows := rows } ∧
    (Block.DecodeRawBlockPtr conflicts b
        (wireBlock (cols.length : ℤ) rows (cols.map (fun c => (c.1, ColumnTypeUInt8, c.2.2)))
          ++ rest) (cols.map (fun c => (⟨c.1, c.2.1⟩ : ResultRef))) h).r = rest ∧
    ∀ c ∈ cols, (Block.DecodeRawBlockPtr conflicts b
        (wireBlock (cols.length : ℤ) rows (cols.map (fun c => (c.1, ColumnTypeUInt8, c.2.2)))
          ++ rest) (cols.map (fun c => (⟨c.1, c.2.1⟩ : ResultRef))) h).store[c.2.1]?
      = some ⟨c.2.2⟩ := by
  have hd2 : ((cols.map (fun c => (⟨c.1, c.2.1⟩ : ResultRef))).map (fun t => t.Data)).Nodup := by
    rw [List.map_map]
    exact hd
  have hv := Views_of_cols h cols (fun c => c.1) (fun c => c.2.1) (⟨[]⟩ : ColumnUInt8)
    (fun c hc => (hcols c hc).2.1)
  have hcsne : cols.map (fun c => ((⟨c.1, (h[c.2.1]?).getD ⟨[]⟩⟩ : ResultColumn ColumnUInt8),
      c.2.2)) ≠ [] := by
    intro hh
    exact hne (List.map_eq_nil_iff.mp hh)
  have hw := DecodeRawBlock_wire conflicts hc b
    (cols.map (fun c => ((⟨c.1, (h[c.2.1]?).getD ⟨[]⟩⟩ : ResultColumn ColumnUInt8), c.2.2)))
    rows rest hcsne (by rw [List.length_map]; exact hn) hrows (by
      intro c hc
      obtain ⟨a, ha, rfl⟩ := List.mem_map.mp hc
      exact ⟨(hcols a ha).1, (hcols a ha).2.2⟩)
  simp only [List.length_map, List.map_map, Function.comp_def] at hw
  rw [← List.append_assoc, ← List.append_assoc, List.append_assoc (Buffer.PutInt [] _),
    ← wireBlock_eq] at hw
  obtain ⟨g1, g2, g3, g4⟩ := DecodeRawBlockPtr_view conflicts b
    (wireBlock (cols.length : ℤ) rows (cols.map (fun c => (c.1, ColumnTypeUInt8, c.2.2))) ++ rest)
    _ h _ hd2 hv
  rw [hw] at g1 g2 g3 g4
  exact ⟨g1.symm, g2.symm, g3.symm,
    Views_cols_get _ cols (fun c => c.1) (fun c => c.2.1) (fun c => ⟨c.2.2⟩) g4⟩

/-- C5, at the input of the spec: target `[{"x", ColumnUInt8}]` (holding stale
rows), one column, three rows, name `"x"`, type `"UInt8"`, payload `[1, 2, 3]`:
the call succeeds and the column holds `[1, 2, 3]`; and at a target of two
distinct columns `"x"` and `"y"` with the payloads `[7]` and `[8]`: the column
of `"x"` holds `[7]`, that of `"y"` holds `[8]`. -/
theorem DecodeRawBlockPtr_uint8_witness :
    ((Block.DecodeRawBlockPtr ColumnType.Conflicts ⟨⟨false, 0⟩, 0, 0⟩
        (wireBlock 1 3 [([120], ColumnTypeUInt8, [1, 2, 3])] ++ [42])
        [⟨[120], 0⟩] [(⟨[9, 9]⟩ : ColumnUInt8)]).err = none ∧
      (Block.DecodeRawBlockPtr ColumnType.Conflicts ⟨⟨false, 0⟩, 0, 0⟩
        (wireBlock 1 3 [([120], ColumnTypeUInt8, [1, 2, 3])] ++ [42])
        [⟨[120], 0⟩] [(⟨[9, 9]⟩ : ColumnUInt8)]).store[0]? = some ⟨[1, 2, 3]⟩) ∧
    ((Block.DecodeRawBlockPtr ColumnType.Conflicts ⟨⟨false, 0⟩, 0, 0⟩
        (wireBlock 2 1 [([120], ColumnTypeUInt8, [7]), ([121], ColumnTypeUInt8, [8])] ++ [])
        [⟨[120], 1⟩, ⟨[121], 0⟩] [(⟨[9]⟩ : ColumnUInt8), ⟨[]⟩]).store[1]? = some ⟨[7]⟩ ∧
      (Block.DecodeRawBlockPtr ColumnType.Conflicts ⟨⟨false, 0⟩, 0, 0⟩
        (wireBlock 2 1 [([120], ColumnTypeUInt8, [7]), ([121], ColumnTypeUInt8, [8])] ++ [])
        [⟨[120], 1⟩, ⟨[121], 0⟩] [(⟨[9]⟩ : ColumnUInt8), ⟨[]⟩]).store[0]? = some ⟨[8]⟩) :=
  have h := DecodeRawBlockPtr_uint8 ColumnType.Conflicts (by decide) ⟨⟨false, 0⟩, 0, 0⟩
    [([120], 0, [1, 2, 3])] [(⟨[9, 9]⟩ : ColumnUInt8)] 3 [42]
    (by decide) (by decide) (by decide) (by decide) (by decide)
  have h2 := DecodeRawBlockPtr_uint8 ColumnType.Conflicts (by decide) ⟨⟨false, 0⟩, 0, 0⟩
    [([120], 1, [7]), ([121], 0, [8])] [(⟨[9]⟩ : ColumnUInt8), ⟨[]⟩] 1 []
    (by decide) (by decide) (by decide) (by decide) (by decide)
  ⟨⟨h.1, h.2.2.2 ([120], 0, [1, 2, 3]) (by decide)⟩,
   ⟨h2.2.2.2 ([120], 1, [7]) (by decide), h2.2.2.2 ([121], 0, [8]) (by decide)⟩⟩

/-! ## `Block.DecodeRawBlock`: positional name check -/

/-- The column loop through pointers started at index `i` for `n` iterations
keeps the number of column objects and writes no column object other than those
that the entries `i, …, i + n - 1` of the target point to, whether it ends with
an error or not. -/
theorem decodeColumnsPtr_frame {κ : Type} [Result κ] (conflicts : ColumnType → ColumnType → Bool)
    (rows : ℤ) (noTarget : Bool) (target : List ResultRef) :
    ∀ (n i : Nat) (r : Reader) (h : Store κ) (e : Option Error) (h' : Store κ) (r' : Reader),
      Block.decodeColumnsPtr conflicts rows noTarget n i r target h = (e, h', r') →
      h'.length = h.length ∧
      ∀ p, (∀ j tj, i ≤ j → j < i + n → target[j]? = some tj → tj.Data ≠ p) →
        h'[p]? = h[p]? := by
  intro n
  induction n with
  | zero =>
    intro i r h e h' r' hh
    simp only [Block.decodeColumnsPtr, Prod.mk.injEq] at hh
    obtain ⟨-, rfl, -⟩ := hh
    exact ⟨rfl, fun _ _ => rfl⟩
  | succ n ih =>
    intro i r h e h' r' hh
    simp only [Block.decodeColumnsPtr] at hh
    split at hh
    · simp only [Prod.mk.injEq] at hh
      obtain ⟨-, rfl, -⟩ := hh
      exact ⟨rfl, fun _ _ => rfl⟩
    · split at hh
      · simp only [Prod.mk.injEq] at hh
        obtain ⟨-, rfl, -⟩ := hh
        exact ⟨rfl, fun _ _ => rfl⟩
      · split at hh
        · have := ih _ _ _ _ _ _ hh
          exact ⟨this.1, fun p hp => this.2 p (fun j tj h1 h2 => hp j tj (by omega) (by omega))⟩
        · split at hh
          · simp only [Prod.mk.injEq] at hh
            obtain ⟨-, rfl, -⟩ := hh
            exact ⟨rfl, fun _ _ => rfl⟩
          · rename_i t ht
            split at hh
            · simp only [Prod.mk.injEq] at hh
              obtain ⟨-, rfl, -⟩ := hh
              exact ⟨rfl, fun _ _ => rfl⟩
            · split at hh
              · simp only [Prod.mk.injEq] at hh
                obtain ⟨-, rfl, -⟩ := hh
                exact ⟨rfl, fun _ _ => rfl⟩
              · split at hh
                · simp only [Prod.mk.injEq] at hh
                  obtain ⟨-, rfl, -⟩ := hh
                  exact ⟨rfl, fun _ _ => rfl⟩
                · split at hh
                  · simp only [Prod.mk.injEq] at hh
                    obtain ⟨-, rfl, -⟩ := hh
                    refine ⟨List.length_set _ _ _, fun p hp => ?_⟩
                    rw [List.getElem?_set_ne (hp i t (Nat.le_refl i) (by omega) ht)]
                  · have := ih _ _ _ _ _ _ hh
                    refine ⟨by rw [this.1, List.length_set], fun p hp => ?_⟩
                    rw [this.2 p (fun j tj h1 h2 => hp j tj (by omega) (by omega)),
                      List.getElem?_set_ne (hp i t (Nat.le_refl i) (by omega) ht)]

/-- Running the column loop through pointers for `n + m` iterations is running
it for `n` iterations and, when these end without error, for `m` more from
where they stopped. -/
theorem decodeColumnsPtr_split {κ : Type} [Result κ] (conflicts : ColumnType → ColumnType → Bool)
    (rows : ℤ) (noTarget : Bool) (target : List ResultRef) (m : Nat) :
    ∀ (n i : Nat) (r : Reader) (h : Store κ),
      Block.decodeColumnsPtr conflicts rows noTarget (n + m) i r target h
        = match Block.decodeColumnsPtr conflicts rows noTarget n i r target h with
          | (none, h', r') => Block.decodeColumnsPtr conflicts rows noTarget m (i + n) r' target h'
          | (some e, h', r') => (some e, h', r') := by
  intro n
  induction n with
  | zero => intro i r h; simp [Block.decodeColumnsPtr]
  | succ n ih =>
    intro i r h
    have hnm : n + 1 + m = (n + m) + 1 := by omega
    have hin : i + (n + 1) = i + 1 + n := by omega
    rw [hnm, hin]
    simp only [Block.decodeColumnsPtr]
    repeat' (first | rfl | exact ih _ _ _ | split)

/-- With both counts read and in range, the block not the end-of-stream marker
and no column-count mismatch, the outcome through pointers is that of the
column loop. -/
theorem DecodeRawBlockPtr_loop {κ : Type} [Result κ]
    (conflicts : ColumnType → ColumnType → Bool) (b : Block) (r r1 r2 : Reader)
    (target : List ResultRef) (h : Store κ) (c v : ℤ)
    (h1 : r.Int = (.ok c, r1)) (h2 : r1.Int = (.ok v, r2))
    (hc : 0 ≤ c ∧ c ≤ 1000000) (hv : 0 ≤ v ∧ v ≤ 1000000) (hnt : ¬ (c = 0 ∧ v = 0))
    (hmis : ¬ (c ≠ (target.length : ℤ) ∧ ¬ (target.length = 0 ∧ v = 0))) :
    Block.DecodeRawBlockPtr conflicts b r target h
      = ⟨(Block.decodeColumnsPtr conflicts v (decide (target.length = 0)) c.toNat 0 r2 target h).1,
          { b with Columns := c, Rows := v },
          (Block.decodeColumnsPtr conflicts v (decide (target.length = 0)) c.toNat 0 r2 target
            h).2.1,
          (Block.decodeColumnsPtr conflicts v (decide (target.length = 0)) c.toNat 0 r2 target
            h).2.2⟩ := by
  have hcols : ¬ (c > maxColumnsInBlock ∨ c < 0) := by unfold maxColumnsInBlock; omega
  have hk : checkRows v = none := by
    have : ¬ (v < 0 ∨ v > maxRowsInBlock) := by unfold maxRowsInBlock; omega
    simp [checkRows, this]
  have hend : Block.End { b with Columns := c, Rows := v } = false := by
    simp only [Block.End, Bool.and_eq_false_imp, beq_iff_eq, beq_eq_false_iff_ne]
    intro h0 h3
    exact hnt ⟨h0, h3⟩
  have hm : (decide (c ≠ (target.length : ℤ)) && !(decide (target.length = 0) && decide (v = 0)))
      = false := by
    rw [Bool.eq_false_iff]
    intro hm
    apply hmis
    simp only [Bool.and_eq_true, decide_eq_true_eq, Bool.not_eq_true', Bool.and_eq_false_imp]
      at hm
    exact ⟨hm.1, fun h => by have := hm.2 h.1; simp [h.2] at this⟩
  simp only [Block.DecodeRawBlockPtr, h1, h2, hcols, hk, hend, if_false, Bool.false_eq_true, hm]

/-- Go `Block.DecodeRawBlock` through pointers writes no column object other
than those the target's entries point to, whether it fails or not. -/
theorem DecodeRawBlockPtr_frame {κ : Type} [Result κ]
    (conflicts : ColumnType → ColumnType → Bool) (b : Block) (r : Reader)
    (target : List ResultRef) (h : Store κ) (p : Nat) (hp : ∀ t ∈ target, t.Data ≠ p) :
    (Block.DecodeRawBlockPtr conflicts b r target h).store[p]? = h[p]? := by
  rw [Block.DecodeRawBlockPtr]
  rcases r.Int with ⟨c | e, r1⟩
  swap
  · rfl
  simp only []
  by_cases hcr : c > maxColumnsInBlock ∨ c < 0
  · simp only [hcr, if_true]
  simp only [hcr, if_false]
  rcases r1.Int with ⟨v | e, r2⟩
  swap
  · rfl
  simp only []
  rcases checkRows v with _ | e
  swap
  · rfl
  simp only []
  by_cases hend : Block.End { Info := b.Info, Columns := c, Rows := v } = true
  · simp only [hend, if_true]
  simp only [hend, Bool.false_eq_true, if_false]
  by_cases hm : (decide (c ≠ (target.length : ℤ))
      && !(decide (target.length = 0) && decide (v = 0))) = true
  · simp only [hm, if_true]
  simp only [hm, Bool.false_eq_true, if_false]
  rcases hl : Block.decodeColumnsPtr conflicts v (decide (target.length = 0)) c.toNat 0 r2
    target h with ⟨e, h', r3⟩
  simp only []
  exact (decodeColumnsPtr_frame conflicts v _ target c.toNat 0 r2 h e h' r3 hl).2 p
    (fun j tj _ _ htj => hp tj (List.getElem?_mem htj))

/-- Go `Block.DecodeBlock` through pointers writes no column object other than
those the target's entries point to, whether it fails or not. -/
theorem DecodeBlockPtr_frame {κ : Type} [Result κ]
    (conflicts : ColumnType → ColumnType → Bool) (FeatureBlockInfo : ℤ) (b : Block)
    (r : Reader) (version : ℤ) (target : List ResultRef) (h : Store κ) (p : Nat)
    (hp : ∀ t ∈ target, t.Data ≠ p) :
    (Block.DecodeBlockPtr conflicts FeatureBlockInfo b r version target h).store[p]?
      = h[p]? := by
  rw [Block.DecodeBlockPtr]
  by_cases hf : Feature.In FeatureBlockInfo version = true
  · simp only [hf, if_true]
    rcases b.Info.Decode r with ⟨_ | e, info, r1⟩
    · exact DecodeRawBlockPtr_frame conflicts _ r1 target h p hp
    · rfl
  · simp only [hf, Bool.false_eq_true, if_false]
    exact DecodeRawBlockPtr_frame conflicts b r target h p hp

/-- C6 as stated fails, at four inputs (the absent `ColumnType.Conflicts` taken
as "the strings differ").
* An earlier type conflict: target `[{"a", UInt8}, {"b", UInt8}]` (two column
  objects), wire block of two columns and one row, column 0 named `"a"` of type
  `"String"`, column 1 named `"c"`. The first index at which the wire name
  differs from the target name is 1, but the call fails at column 0 with the
  unexpected-type error of index 0, which does not reference index 1.
* Two entries, one column object: target `[{"x", &d}, {"y", &d}]` with `d`
  holding `[9]`, wire block of two columns and one row, column 0 named `"x"`
  with payload `[7]`, column 1 named `"z"`. The call fails at index 1, but
  `d`, the column of `target[1]`, has been reset and decoded into: it holds
  `[7]`.
* A column count above the bound: a target of 1,000,001 entries named `"x"`
  and a wire block of 1,000,001 columns named `"y"`: the first index at which
  the names differ is 0, but the error is the invalid-columns error, which
  references no index.
* A row count above the bound: target `[{"x", UInt8}]`, wire block of one
  column named `"y"` and 1,000,001 rows (a payload of 1,000,001 octets): the
  error is the invalid-rows error, which references no index. -/
theorem DecodeRawBlockPtr_name_mismatch_counterexample :
    (Block.DecodeRawBlockPtr ColumnType.Conflicts ⟨⟨false, 0⟩, 0, 0⟩
        (wireBlock 2 1 [([97], [83, 116, 114, 105, 110, 103], [1]), ([99], ColumnTypeUInt8, [2])])
        [⟨[97], 0⟩, ⟨[98], 1⟩] [(⟨[7]⟩ : ColumnUInt8), ⟨[8]⟩]
      = ⟨some (.unexpectedType 0 [97] [83, 116, 114, 105, 110, 103] ColumnTypeUInt8),
          ⟨⟨false, 0⟩, 2, 1⟩, [⟨[7]⟩, ⟨[8]⟩], [1, 1, 99, 5, 85, 73, 110, 116, 56, 2]⟩ ∧
      Error.referencesIndex
        (.unexpectedType 0 [97] [83, 116, 114, 105, 110, 103] ColumnTypeUInt8) 1 = false) ∧
    Block.DecodeRawBlockPtr ColumnType.Conflicts ⟨⟨false, 0⟩, 0, 0⟩
        (wireBlock 2 1 [([120], ColumnTypeUInt8, [7]), ([122], ColumnTypeUInt8, [8])])
        [⟨[120], 0⟩, ⟨[121], 0⟩] [(⟨[9]⟩ : ColumnUInt8)]
      = ⟨some (.unexpectedColumn 1 [122] [121]), ⟨⟨false, 0⟩, 2, 1⟩, [⟨[7]⟩], [8]⟩ ∧
    (((List.range 1000001).map (fun k => (⟨[120], k⟩ : ResultRef))).length = 1000001 ∧
      (Block.DecodeRawBlockPtr ColumnType.Conflicts ⟨⟨false, 0⟩, 0, 0⟩
        (wireBlock 1000001 0
          ((List.range 1000001).map (fun _ => ([121], ColumnTypeUInt8, ([] : List Byte)))))
        ((List.range 1000001).map (fun k => (⟨[120], k⟩ : ResultRef)))
        (List.replicate 1000001 (⟨[]⟩ : ColumnUInt8))).err = some (.invalidColumns 1000001) ∧
      Error.referencesIndex (.invalidColumns 1000001) 0 = false) ∧
    ((Block.DecodeRawBlockPtr ColumnType.Conflicts ⟨⟨false, 0⟩, 0, 0⟩
        (wireBlock 1 1000001 [([121], ColumnTypeUInt8, List.replicate 1000001 0)])
        [⟨[120], 0⟩] [(⟨[9]⟩ : ColumnUInt8)]).err
        = some (.wrap (.invalidRows 1000001) .rowsCount) ∧
      Error.referencesIndex (.wrap (.invalidRows 1000001) .rowsCount) 0 = false) := by
  refine ⟨by decide, by decide, ⟨?_, ?_, rfl⟩, ?_, rfl⟩
  · rw [List.length_map, List.length_range]
  · rw [DecodeRawBlockPtr_columns_over]
  · rw [DecodeRawBlockPtr_rows_over _ _ _ _ _ _ _ (by decide) (by decide)]

/-- C6 (amended). For every target (of any column implementation) whose
entries hold pairwise distinct column objects and every wire block whose column
count equals `len(target)` (counts within the bounds, row count `v`): if the
first `i` columns decode without error (leaving the reader `r3`), the name of
column `i` can be read and differs from `target[i].Name`, then
`Block.DecodeRawBlock` fails with an error that references index `i`, and the
column objects of `target[i]` and of every later target entry are as before the
call: they are neither reset nor decoded into. -/
theorem DecodeRawBlockPtr_name_mismatch {κ : Type} [Result κ]
    (conflicts : ColumnType → ColumnType → Bool) (b : Block) (r r1 r2 r3 r4 : Reader)
    (target : List ResultRef) (h hs : Store κ) (v : ℤ) (i : Nat) (t : ResultRef)
    (columnName : Str)
    (hn : target.length ≤ 1000000) (hv : 0 ≤ v ∧ v ≤ 1000000)
    (h1 : r.Int = (.ok (target.length : ℤ), r1)) (h2 : r1.Int = (.ok v, r2))
    (hd : (target.map (fun t => t.Data)).Nodup)
    (ht : target[i]? = some t)
    (hpre : Block.decodeColumnsPtr conflicts v false i 0 r2 target h = (none, hs, r3))
    (hname : r3.Str = (.ok columnName, r4))
    (hdiff : t.Name ≠ columnName) :
    (∃ e, (Block.DecodeRawBlockPtr conflicts b r target h).err = some e ∧
      e.referencesIndex i = true) ∧
    ∀ j tj, i ≤ j → target[j]? = some tj →
      (Block.DecodeRawBlockPtr conflicts b r target h).store[tj.Data]? = h[tj.Data]? := by
  have hi : i < target.length := getElem?_lt_of_some ht
  have hfr := decodeColumnsPtr_frame conflicts v false target i 0 r2 h none hs r3 hpre
  obtain ⟨m, hm⟩ : ∃ m, target.length = i + (m + 1) := ⟨target.length - i - 1, by omega⟩
  have htl : decide (target.length = 0) = false := decide_eq_false (by omega)
  have hloop : ∃ e r5, Block.decodeColumnsPtr conflicts v false target.length 0 r2 target h
      = (some e, hs, r5) ∧ e.referencesIndex i = true := by
    rw [hm, decodeColumnsPtr_split, hpre]
    simp only [Nat.zero_add]
    rw [Block.decodeColumnsPtr, hname]
    simp only []
    rcases htype : r4.Str with ⟨columnType | e, r5⟩
    · simp only [ht, Bool.false_eq_true, if_false, ne_eq, hdiff, not_false_eq_true, if_true]
      exact ⟨_, _, rfl, by simp [Error.referencesIndex]⟩
    · simp only []
      exact ⟨_, _, rfl, by simp [Error.referencesIndex]⟩
  obtain ⟨e, r5, hl, he⟩ := hloop
  rw [DecodeRawBlockPtr_loop conflicts b r r1 r2 target h (target.length : ℤ) v h1 h2
    ⟨by omega, by omega⟩ hv (by omega) (by simp), htl, Int.toNat_ofNat, hl]
  refine ⟨⟨e, rfl, he⟩, fun j tj hj htj => ?_⟩
  apply hfr.2
  intro k tk _ hk htk hp
  have := distinct_pointers target hd k j tk tj htk htj hp
  omega

/-- C6, at concrete inputs: the input of the spec (target name `"x"`, wire name
`"y"`, index 0: the column keeps its stale rows), and a target `"x"`, `"y"`
against a wire block carrying the same names in the other order, which is
rejected at index 0. -/
theorem DecodeRawBlockPtr_name_mismatch_witness :
    ((∃ e, (Block.DecodeRawBlockPtr ColumnType.Conflicts ⟨⟨false, 0⟩, 0, 0⟩
          (wireBlock 1 3 [([121], ColumnTypeUInt8, [1, 2, 3])])
          [⟨[120], 0⟩] [(⟨[9]⟩ : ColumnUInt8)]).err = some e ∧
        e.referencesIndex 0 = true) ∧
      (Block.DecodeRawBlockPtr ColumnType.Conflicts ⟨⟨false, 0⟩, 0, 0⟩
          (wireBlock 1 3 [([121], ColumnTypeUInt8, [1, 2, 3])])
          [⟨[120], 0⟩] [(⟨[9]⟩ : ColumnUInt8)]).store[0]? = some ⟨[9]⟩) ∧
    ((∃ e, (Block.DecodeRawBlockPtr ColumnType.Conflicts ⟨⟨false, 0⟩, 0, 0⟩
          (wireBlock 2 1 [([121], ColumnTypeUInt8, [7]), ([120], ColumnTypeUInt8, [8])])
          [⟨[120], 0⟩, ⟨[121], 1⟩] [(⟨[5]⟩ : ColumnUInt8), ⟨[6]⟩]).err = some e ∧
        e.referencesIndex 0 = true) ∧
      (Block.DecodeRawBlockPtr ColumnType.Conflicts ⟨⟨false, 0⟩, 0, 0⟩
          (wireBlock 2 1 [([121], ColumnTypeUInt8, [7]), ([120], ColumnTypeUInt8, [8])])
          [⟨[120], 0⟩, ⟨[121], 1⟩] [(⟨[5]⟩ : ColumnUInt8), ⟨[6]⟩]).store[1]? = some ⟨[6]⟩) :=
  have h1 := DecodeRawBlockPtr_name_mismatch ColumnType.Conflicts ⟨⟨false, 0⟩, 0, 0⟩
    (wireBlock 1 3 [([121], ColumnTypeUInt8, [1, 2, 3])])
    [3, 1, 121, 5, 85, 73, 110, 116, 56, 1, 2, 3]
    [1, 121, 5, 85, 73, 110, 116, 56, 1, 2, 3]
    [1, 121, 5, 85, 73, 110, 116, 56, 1, 2, 3]
    [5, 85, 73, 110, 116, 56, 1, 2, 3]
    [⟨[120], 0⟩] [(⟨[9]⟩ : ColumnUInt8)] [⟨[9]⟩] 3 0 ⟨[120], 0⟩ [121]
    (by decide) (by decide) (by decide) (by decide) (by decide) (by decide) (by decide)
    (by decide) (by decide)
  have h2 := DecodeRawBlockPtr_name_mismatch ColumnType.Conflicts ⟨⟨false, 0⟩, 0, 0⟩
    (wireBlock 2 1 [([121], ColumnTypeUInt8, [7]), ([120], ColumnTypeUInt8, [8])])
    [1, 1, 121, 5, 85, 73, 110, 116, 56, 7, 1, 120, 5, 85, 73, 110, 116, 56, 8]
    [1, 121, 5, 85, 73, 110, 116, 56, 7, 1, 120, 5, 85, 73, 110, 116, 56, 8]
    [1, 121, 5, 85, 73, 110, 116, 56, 7, 1, 120, 5, 85, 73, 110, 116, 56, 8]
    [5, 85, 73, 110, 116, 56, 7, 1, 120, 5, 85, 73, 110, 116, 56, 8]
    [⟨[120], 0⟩, ⟨[121], 1⟩] [(⟨[5]⟩ : ColumnUInt8), ⟨[6]⟩] [⟨[5]⟩, ⟨[6]⟩] 1 0 ⟨[120], 0⟩ [121]
    (by decide) (by decide) (by decide) (by decide) (by decide) (by decide) (by decide)
    (by decide) (by decide)
  ⟨⟨h1.1, h1.2 0 ⟨[120], 0⟩ (by decide) (by decide)⟩,
   ⟨h2.1, h2.2 1 ⟨[121], 1⟩ (by decide) (by decide)⟩⟩

/-! ## `Block.EncodeBlock` followed by `Block.DecodeBlock`, through pointers -/

/-- C18 as stated fails, at three inputs.
* A revision without block-info support: with the block-info threshold at
  revision 1 and the block encoded and decoded at revision 0, a block whose
  `Info` has the overflow flag set decodes successfully into a fresh `Block`,
  but the decoded `Info` is the receiver's own (flag clear), not the encoder's.
* Two entries, one column object: input columns `"x"` with rows `[7]` and `"y"`
  with rows `[8]`, encoded and decoded at revision 0, against the target
  `[{"x", &d}, {"y", &d}]`: the call succeeds and `d` holds `[8]`, so
  `target[0].Data` is not `input[0].Data`.
* Target columns that are input columns: the column objects `d0` (rows `[7]`)
  and `d1` (rows `[8]`), the input `[{"x", d0}, {"y", d1}]` and the target
  `[{"x", &d1}, {"y", &d0}]`: the call succeeds, and afterwards `d1` holds
  `[7]` and `d0` holds `[8]`, so `target[0].Data` (`d1`) is not
  `input[0].Data` (`d0`). -/
theorem EncodeBlock_DecodeBlockPtr_counterexample :
    ((Block.DecodeBlockPtr ColumnType.Conflicts 1 ⟨⟨false, 0⟩, 0, 0⟩
        (Block.EncodeBlock 1 ⟨⟨true, 0⟩, 1, 1⟩ [] 0
          [(⟨[120], ⟨[7]⟩⟩ : InputColumn ColumnUInt8)]).2 0
        [⟨[120], 0⟩] [(⟨[]⟩ : ColumnUInt8)]).err = none ∧
      (Block.DecodeBlockPtr ColumnType.Conflicts 1 ⟨⟨false, 0⟩, 0, 0⟩
        (Block.EncodeBlock 1 ⟨⟨true, 0⟩, 1, 1⟩ [] 0
          [(⟨[120], ⟨[7]⟩⟩ : InputColumn ColumnUInt8)]).2 0
        [⟨[120], 0⟩] [(⟨[]⟩ : ColumnUInt8)]).b.Info = ⟨false, 0⟩ ∧
      (⟨false, 0⟩ : BlockInfo) ≠ ⟨true, 0⟩) ∧
    Block.DecodeBlockPtr ColumnType.Conflicts 1 ⟨⟨false, 0⟩, 0, 0⟩
        (Block.EncodeBlock 1 ⟨⟨false, 0⟩, 2, 1⟩ [] 0
          [(⟨[120], ⟨[7]⟩⟩ : InputColumn ColumnUInt8), ⟨[121], ⟨[8]⟩⟩]).2 0
        [⟨[120], 0⟩, ⟨[121], 0⟩] [(⟨[9]⟩ : ColumnUInt8)]
      = ⟨none, ⟨⟨false, 0⟩, 2, 1⟩, [⟨[8]⟩], []⟩ ∧
    Block.DecodeBlockPtr ColumnType.Conflicts 1 ⟨⟨false, 0⟩, 0, 0⟩
        (Block.EncodeBlock 1 ⟨⟨false, 0⟩, 2, 1⟩ [] 0
          [(⟨[120], ⟨[7]⟩⟩ : InputColumn ColumnUInt8), ⟨[121], ⟨[8]⟩⟩]).2 0
        [⟨[120], 1⟩, ⟨[121], 0⟩] [(⟨[7]⟩ : ColumnUInt8), ⟨[8]⟩]
      = ⟨none, ⟨⟨false, 0⟩, 2, 1⟩, [⟨[8]⟩, ⟨[7]⟩], []⟩ := by
  decide

/-- C18 (amended). For every revision `v` and block-info threshold, every list
of `n` named `ColumnUInt8` input columns with `1 ≤ n ≤ 1,000,000` that all have
`rows` rows, `rows` in `[0, 1,000,000]` (names, being Go strings, shorter than
`2^63`), and a block with `Columns = n`, `Rows = rows` and a bucket number in
the signed 32-bit range: decoding the bytes that `Block.EncodeBlock` produced at
revision `v` (followed by any further input `rest`) with `Block.DecodeBlock` at
the same revision, into any receiver `b0` and against a target of pairwise
distinct `ColumnUInt8` column objects carrying the same names in the same order
(`cols` pairs every input column with the address of the target column at the
same index), succeeds, leaves exactly `rest` unread, reproduces `Columns` and
`Rows`, reproduces `Info` when block info is supported at `v` (otherwise the
receiver's `Info` stays as it was), and leaves every target column with the
rows of the input column at the same index. No column object other than the
target's is written: input columns that are not target columns still hold the
rows that were encoded. -/
theorem EncodeBlock_DecodeBlockPtr (conflicts : ColumnType → ColumnType → Bool)
    (hcf : conflicts ColumnTypeUInt8 ColumnTypeUInt8 = false) (FeatureBlockInfo version : ℤ)
    (info : BlockInfo) (b0 : Block) (cols : List (InputColumn ColumnUInt8 × Nat))
    (h : Store ColumnUInt8) (rows : ℤ) (rest : Reader)
    (hne : cols ≠ []) (hn : cols.length ≤ 1000000) (hrows : 0 ≤ rows ∧ rows ≤ 1000000)
    (hall : ∀ c ∈ cols, Input.Rows c.1.Data = rows ∧ c.1.Name.length < 2 ^ 63 ∧
      c.2 < h.length)
    (hbn : -2 ^ 31 ≤ info.BucketNum ∧ info.BucketNum < 2 ^ 31)
    (hd : (cols.map (fun c => c.2)).Nodup) :
    (Block.DecodeBlockPtr conflicts FeatureBlockInfo b0
        ((Block.EncodeBlock FeatureBlockInfo ⟨info, (cols.length : ℤ), rows⟩ [] version
          (cols.map (fun c => c.1))).2 ++ rest) version
        (cols.map (fun c => (⟨c.1.Name, c.2⟩ : ResultRef))) h).err = none ∧
    (Block.DecodeBlockPtr conflicts FeatureBlockInfo b0
        ((Block.EncodeBlock FeatureBlockInfo ⟨info, (cols.length : ℤ), rows⟩ [] version
          (cols.map (fun c => c.1))).2 ++ rest) version
        (cols.map (fun c => (⟨c.1.Name, c.2⟩ : ResultRef))) h).b
      = ⟨if Feature.In FeatureBlockInfo version then info else b0.Info,
          (cols.length : ℤ), rows⟩ ∧
    (Block.DecodeBlockPtr conflicts FeatureBlockInfo b0
        ((Block.EncodeBlock FeatureBlockInfo ⟨info, (cols.length : ℤ), rows⟩ [] version
          (cols.map (fun c => c.1))).2 ++ rest) version
        (cols.map (fun c => (⟨c.1.Name, c.2⟩ : ResultRef))) h).r = rest ∧
    (∀ c ∈ cols, (Block.DecodeBlockPtr conflicts FeatureBlockInfo b0
        ((Block.EncodeBlock FeatureBlockInfo ⟨info, (cols.length : ℤ), rows⟩ [] version
          (cols.map (fun c => c.1))).2 ++ rest) version
        (cols.map (fun c => (⟨c.1.Name, c.2⟩ : ResultRef))) h).store[c.2]?
      = some c.1.Data) ∧
    ∀ p, (∀ c ∈ cols, c.2 ≠ p) → (Block.DecodeBlockPtr conflicts FeatureBlockInfo b0
        ((Block.EncodeBlock FeatureBlockInfo ⟨info, (cols.length : ℤ), rows⟩ [] version
          (cols.map (fun c => c.1))).2 ++ rest) version
        (cols.map (fun c => (⟨c.1.Name, c.2⟩ : ResultRef))) h).store[p]? = h[p]? := by
  have hd2 : ((cols.map (fun c => (⟨c.1.Name, c.2⟩ : ResultRef))).map
      (fun t => t.Data)).Nodup := by
    rw [List.map_map]
    exact hd
  have hv := Views_of_cols h cols (fun c => c.1.Name) (fun c => c.2) (⟨[]⟩ : ColumnUInt8)
    (fun c hc => (hall c hc).2.2)
  have hw := DecodeBlock_EncodeBlock_values conflicts hcf FeatureBlockInfo version info b0
    (cols.map (fun c => c.1))
    (cols.map (fun c => (⟨c.1.Name, (h[c.2]?).getD ⟨[]⟩⟩ : ResultColumn ColumnUInt8)))
    rows rest (by
      intro hh
      exact hne (List.map_eq_nil_iff.mp hh)) (by rw [List.length_map]; exact hn) hrows (by
      intro c hc
      obtain ⟨a, ha, rfl⟩ := List.mem_map.mp hc
      exact (hall a ha).1) hbn (by
      rw [List.map_map, List.map_map]
      rfl) (by
      intro c hc
      obtain ⟨a, ha, rfl⟩ := List.mem_map.mp hc
      exact (hall a ha).2.1)
  simp only [List.length_map, List.map_map, Function.comp_def] at hw
  obtain ⟨g1, g2, g3, g4⟩ := DecodeBlockPtr_view conflicts FeatureBlockInfo b0
    ((Block.EncodeBlock FeatureBlockInfo ⟨info, (cols.length : ℤ), rows⟩ [] version
      (cols.map (fun c => c.1))).2 ++ rest) version _ h _ hd2 hv
  rw [hw] at g1 g2 g3 g4
  refine ⟨g1.symm, g2.symm, g3.symm,
    Views_cols_get _ cols (fun c => c.1.Name) (fun c => c.2) (fun c => c.1.Data) g4,
    fun p hp => DecodeBlockPtr_frame conflicts FeatureBlockInfo b0 _ version _ h p ?_⟩
  intro t ht
  obtain ⟨c, hc, rfl⟩ := List.mem_map.mp ht
  exact hp c hc

/-- C18, at a concrete input: one column `"x"` with rows `[1, 2, 3]`, block info
`(true, -5)`, threshold 5, a store that holds the target column (address 0,
stale rows) and a second column (address 1): at revision 7 (block info on the
wire) and at revision 3 (no block info; the receiver's `Info` stays) the target
column gets the rows `[1, 2, 3]` and the second column is as before. -/
theorem EncodeBlock_DecodeBlockPtr_witness :
    ((Block.DecodeBlockPtr ColumnType.Conflicts 5 ⟨⟨false, 0⟩, 0, 0⟩
        ((Block.EncodeBlock 5 ⟨⟨true, -5⟩, 1, 3⟩ [] 7
          [(⟨[120], ⟨[1, 2, 3]⟩⟩ : InputColumn ColumnUInt8)]).2 ++ [])
        7 [⟨[120], 0⟩] [(⟨[9]⟩ : ColumnUInt8), ⟨[1, 2, 3]⟩]).b = ⟨⟨true, -5⟩, 1, 3⟩ ∧
      (Block.DecodeBlockPtr ColumnType.Conflicts 5 ⟨⟨false, 0⟩, 0, 0⟩
        ((Block.EncodeBlock 5 ⟨⟨true, -5⟩, 1, 3⟩ [] 7
          [(⟨[120], ⟨[1, 2, 3]⟩⟩ : InputColumn ColumnUInt8)]).2 ++ [])
        7 [⟨[120], 0⟩] [(⟨[9]⟩ : ColumnUInt8), ⟨[1, 2, 3]⟩]).store[0]? = some ⟨[1, 2, 3]⟩ ∧
      (Block.DecodeBlockPtr ColumnType.Conflicts 5 ⟨⟨false, 0⟩, 0, 0⟩
        ((Block.EncodeBlock 5 ⟨⟨true, -5⟩, 1, 3⟩ [] 7
          [(⟨[120], ⟨[1, 2, 3]⟩⟩ : InputColumn ColumnUInt8)]).2 ++ [])
        7 [⟨[120], 0⟩] [(⟨[9]⟩ : ColumnUInt8), ⟨[1, 2, 3]⟩]).store[1]?
        = some ⟨[1, 2, 3]⟩) ∧
    ((Block.DecodeBlockPtr ColumnType.Conflicts 5 ⟨⟨false, 0⟩, 0, 0⟩
        ((Block.EncodeBlock 5 ⟨⟨true, -5⟩, 1, 3⟩ [] 3
          [(⟨[120], ⟨[1, 2, 3]⟩⟩ : InputColumn ColumnUInt8)]).2 ++ [])
        3 [⟨[120], 0⟩] [(⟨[9]⟩ : ColumnUInt8), ⟨[1, 2, 3]⟩]).b = ⟨⟨false, 0⟩, 1, 3⟩ ∧
      (Block.DecodeBlockPtr ColumnType.Conflicts 5 ⟨⟨false, 0⟩, 0, 0⟩
        ((Block.EncodeBlock 5 ⟨⟨true, -5⟩, 1, 3⟩ [] 3
          [(⟨[120], ⟨[1, 2, 3]⟩⟩ : InputColumn ColumnUInt8)]).2 ++ [])
        3 [⟨[120], 0⟩] [(⟨[9]⟩ : ColumnUInt8), ⟨[1, 2, 3]⟩]).store[0]?
        = some ⟨[1, 2, 3]⟩) :=
  have h7 := EncodeBlock_DecodeBlockPtr ColumnType.Conflicts (by decide) 5 7 ⟨true, -5⟩
    ⟨⟨false, 0⟩, 0, 0⟩ [((⟨[120], ⟨[1, 2, 3]⟩⟩ : InputColumn ColumnUInt8), 0)]
    [(⟨[9]⟩ : ColumnUInt8), ⟨[1, 2, 3]⟩] 3 [] (by decide) (by decide) (by decide) (by decide)
    (by decide) (by decide)
  have h3 := EncodeBlock_DecodeBlockPtr ColumnType.Conflicts (by decide) 5 3 ⟨true, -5⟩
    ⟨⟨false, 0⟩, 0, 0⟩ [((⟨[120], ⟨[1, 2, 3]⟩⟩ : InputColumn ColumnUInt8), 0)]
    [(⟨[9]⟩ : ColumnUInt8), ⟨[1, 2, 3]⟩] 3 [] (by decide) (by decide) (by decide) (by decide)
    (by decide) (by decide)
  ⟨⟨h7.2.1, h7.2.2.2.1 (⟨[120], ⟨[1, 2, 3]⟩⟩, 0) (by decide), h7.2.2.2.2 1 (by decide)⟩,
   ⟨h3.2.1, h3.2.2.2.1 (⟨[120], ⟨[1, 2, 3]⟩⟩, 0) (by decide)⟩⟩

end Proto
